import Mathlib

/-!
# Simplex NLA debugging checks of HiGHS

A shallow embedding of `src/simplex/HSimplexNlaDebug.cpp`
(`debugCheckInvert`, `debugResidualError`, `debugReportError`) and of the
monitor of the dual steepest edge weights declared in
`src/simplex/HighsSimplexAnalysis.h`.

Conventions of the embedding:

* `double` is the field `ℚ`: arithmetic is exact, there is no rounding, no
  infinity and no NaN.  `sqrt(1e-12)` is the rational `1e-6`.
* `HighsInt` indices are `Nat`; the debug levels, which may be `-1`, and
  `HVector::count`, which is set to `-1`, are `Int`.
* `std::vector` and C arrays are lists.  A read outside the list yields `0`
  and a write outside the list is dropped; in C++ both are undefined.
* A local variable read before it was assigned (`report_level`) is `none`.
* The solve oracle (`ftran`, `btran`) is a pair of functions on `HVector`.
  The numbers drawn from `HighsRandom` are a stream `random : Nat → ℚ`,
  `random k` being the result of the call of `random.fraction()` number `k`.
* Calls of `highsLogDev` and of the oracle are collected in lists, in the
  order the program makes them.
-/

namespace Highs

/-! ## Data model -/

/-- Modelled from the spec: the enumeration `HighsDebugStatus` is declared in
`lp_data/HighsDebug.h`, which is not among the sources; the spec lists the
severities `NotChecked < Ok < Warning < Error`. -/
inductive HighsDebugStatus where
  | kNotChecked
  | kOk
  | kWarning
  | kError
  deriving DecidableEq, Repr

/-- Modelled from the spec: the enumeration `HighsLogType` is declared in
`io/HighsIO.h`, which is not among the sources.  The code at hand uses `kInfo`,
`kWarning` and `kError`. -/
inductive HighsLogType where
  | kInfo
  | kDetailed
  | kVerbose
  | kWarning
  | kError
  deriving DecidableEq, Repr

/-- Modelled from the spec: the constant is declared in `lp_data/HConst.h`,
which is not among the sources; the spec orders the levels
`Off < Costly < Expensive`. -/
def kHighsDebugLevelCostly : Int := 2

/-- Modelled from the spec: the constant is declared in `lp_data/HConst.h`,
which is not among the sources; the spec orders the levels
`Off < Costly < Expensive`. -/
def kHighsDebugLevelExpensive : Int := 3

/-- Line 23: `const double kResidualLargeError = 1e-12;` -/
def kResidualLargeError : ℚ := 1 / 10 ^ 12
/-- Line 24: `sqrt(kResidualLargeError)`, which is `1e-6` in exact arithmetic. -/
def kResidualExcessiveError : ℚ := 1 / 10 ^ 6
/-- Line 26: `const double kSolveLargeError = 1e-12;` -/
def kSolveLargeError : ℚ := 1 / 10 ^ 12
/-- Line 27: `sqrt(kSolveLargeError)`. -/
def kSolveExcessiveError : ℚ := 1 / 10 ^ 6
/-- Line 29: `const double kInverseLargeError = 1e-12;` -/
def kInverseLargeError : ℚ := 1 / 10 ^ 12
/-- Line 30: `sqrt(kInverseLargeError)`. -/
def kInverseExcessiveError : ℚ := 1 / 10 ^ 6

/-- Modelled from the spec: the class `HVector` is declared in
`simplex/HVector.h`, which is not among the sources.  The spec names the dense
values, the index list, the count (`-1` for dense) and the pack flag. -/
structure HVector where
  size : Nat
  count : Int
  index : List Nat
  array : List ℚ
  packFlag : Bool
  deriving DecidableEq, Repr

/-- Modelled from the spec: `HVector::setup` is defined in `simplex/HVector.cpp`,
which is not among the sources.  The vector is allocated for the row dimension,
with all values zero and no nonzero recorded. -/
def HVector.setup (size_ : Nat) : HVector :=
  { size := size_, count := 0, index := List.replicate size_ 0,
    array := List.replicate size_ 0, packFlag := false }

/-- Modelled from the spec: `HVector::clear` is defined in `simplex/HVector.cpp`,
which is not among the sources.  All values become zero, the count becomes `0`
and the pack flag is dropped. -/
def HVector.clear (v : HVector) : HVector :=
  { v with array := List.replicate v.size 0, count := 0, packFlag := false }

/-- The column-compressed matrix `lp_->a_matrix_` (lines 53-55). -/
structure HighsSparseMatrix where
  start_ : List Nat
  index_ : List Nat
  value_ : List ℚ
  deriving DecidableEq, Repr

/-- The part of `HighsLp` the checks read (lines 51-55). -/
structure HighsLp where
  num_col_ : Nat
  num_row_ : Nat
  a_matrix_ : HighsSparseMatrix
  deriving DecidableEq, Repr

/-- The part of `HighsOptions` the checks read. -/
structure HighsOptions where
  highs_debug_level : Int
  deriving DecidableEq, Repr

/-- The part of `HSimplexNla` the checks read, with the solve oracle. -/
structure HSimplexNla where
  lp_ : HighsLp
  options_ : HighsOptions
  base_index_ : List Nat
  ftran : HVector → ℚ → HVector
  btran : HVector → ℚ → HVector

/-- The scalar a log record reports. -/
inductive LogMetric where
  | forcingDebug
  | solveError
  | residualError
  | inverseError
  | inverseResidualError
  deriving DecidableEq, Repr

/-- One call of `highsLogDev`: the level passed (`none` when the variable
`report_level` was never assigned), and the arguments of the format. -/
structure LogRecord where
  report_level : Option HighsLogType
  metric : LogMetric
  transposed : Bool
  value_adjective : String
  magnitude : ℚ
  deriving DecidableEq, Repr

/-- One call of the solve oracle. -/
inductive SolveCall where
  | ftran
  | btran
  deriving DecidableEq, Repr

/-! ## The functions of `HSimplexNlaDebug.cpp` -/

/-- The positions `a_matrix_start[iCol], ..., a_matrix_start[iCol + 1] - 1`
visited by `for (iEl = a_matrix_start[iCol]; iEl < a_matrix_start[iCol + 1]; iEl++)`. -/
def colEntries (m : HighsSparseMatrix) (iCol : Nat) : List Nat :=
  List.range' (m.start_.getD iCol 0) (m.start_.getD (iCol + 1) 0 - m.start_.getD iCol 0)

/-- Lines 205-236 of `debugResidualError`: one pass of the loop over `iRow`. -/
def residualStep (nla : HSimplexNla) (transposed : Bool) (solution : HVector)
    (residual : List ℚ) (iRow : Nat) : List ℚ :=
  let m := nla.lp_.a_matrix_
  let iCol := nla.base_index_.getD iRow 0
  if transposed then
    if iCol < nla.lp_.num_col_ then
      (colEntries m iCol).foldl
        (fun r iEl =>
          let index := m.index_.getD iEl 0
          let value := solution.array.getD index 0
          r.set iRow (r.getD iRow 0 - value * m.value_.getD iEl 0))
        residual
    else
      let index := iCol - nla.lp_.num_col_
      let value := solution.array.getD index 0
      residual.set iRow (residual.getD iRow 0 - value)
  else
    let value := solution.array.getD iRow 0
    if iCol < nla.lp_.num_col_ then
      (colEntries m iCol).foldl
        (fun r iEl =>
          let index := m.index_.getD iEl 0
          r.set index (r.getD index 0 - value * m.value_.getD iEl 0))
        residual
    else
      let index := iCol - nla.lp_.num_col_
      residual.set index (residual.getD index 0 - value)

/-- Lines 238-243: the largest absolute value among the first `num_row` entries. -/
def maxAbsNorm (num_row : Nat) (array : List ℚ) : ℚ :=
  (List.range num_row).foldl
    (fun residual_error_norm iRow => max |array.getD iRow 0| residual_error_norm) 0

/-- The function `debugResidualError` (lines 196-244).  It returns the norm and
the residual vector it has overwritten. -/
def debugResidualError (nla : HSimplexNla) (transposed : Bool) (solution : HVector)
    (residual : HVector) : ℚ × HVector :=
  let num_row := nla.lp_.num_row_
  let array := (List.range num_row).foldl (residualStep nla transposed solution) residual.array
  (maxAbsNorm num_row array, { residual with array := array })

/-- What `debugReportError` leaves behind: the status it returns, the two norms
it computes, the residual vector it has overwritten and the records it logs. -/
structure ReportResult where
  return_status : HighsDebugStatus
  solve_error_norm : ℚ
  residual_error_norm : ℚ
  residual : HVector
  log : List LogRecord
  deriving DecidableEq, Repr

/-- The function `debugReportError` (lines 246-303). -/
def debugReportError (nla : HSimplexNla) (transposed : Bool) (true_solution : HVector)
    (solution : HVector) (residual : HVector) (force : Bool) : ReportResult :=
  let num_row := nla.lp_.num_row_
  let solve_error_norm := (List.range num_row).foldl
    (fun solve_error_norm iRow =>
      max |solution.array.getD iRow 0 - true_solution.array.getD iRow 0| solve_error_norm) 0
  let rr := debugResidualError nla transposed solution residual
  let residual_error_norm := rr.1
  let value_adjective : String := ""
  let report_level : Option HighsLogType := none
  let return_status := HighsDebugStatus.kOk
  -- lines 267-282
  let s1 : String × Option HighsLogType × List LogRecord :=
    if solve_error_norm ≠ 0 then
      let c : String × Option HighsLogType :=
        if solve_error_norm > kSolveExcessiveError then
          ("Excessive", some HighsLogType.kError)
        else if solve_error_norm > kSolveLargeError then
          ("Large", some HighsLogType.kWarning)
        else ("Small", report_level)
      let report_level := if force then some HighsLogType.kInfo else c.2
      (c.1, report_level,
        [{ report_level := report_level, metric := LogMetric.solveError,
           transposed := transposed, value_adjective := c.1,
           magnitude := solve_error_norm }])
    else (value_adjective, report_level, [])
  let report_level := s1.2.1
  -- lines 284-301
  let s2 : HighsDebugStatus × List LogRecord :=
    if residual_error_norm ≠ 0 then
      let c : String × Option HighsLogType × HighsDebugStatus :=
        if residual_error_norm > kResidualExcessiveError then
          ("Excessive", some HighsLogType.kError, HighsDebugStatus.kError)
        else if residual_error_norm > kResidualLargeError then
          ("Large", some HighsLogType.kWarning, HighsDebugStatus.kWarning)
        else ("Small", report_level, return_status)
      let report_level := if force then some HighsLogType.kInfo else c.2.1
      (c.2.2,
        [{ report_level := report_level, metric := LogMetric.residualError,
           transposed := transposed, value_adjective := c.1,
           magnitude := residual_error_norm }])
    else (return_status, [])
  { return_status := s2.1, solve_error_norm := solve_error_norm,
    residual_error_norm := residual_error_norm, residual := rr.2,
    log := s1.2.2 ++ s2.2 }

/-- Lines 71-85: one pass of the loop building the right-hand side of the
primal probe; the state is the pair `(column, rhs)`. -/
def primalRhsStep (nla : HSimplexNla) (random : Nat → ℚ) (s : HVector × HVector)
    (iRow : Nat) : HVector × HVector :=
  let m := nla.lp_.a_matrix_
  let column := s.1
  let rhs := s.2
  let rhs := { rhs with index := rhs.index.set rhs.count.toNat iRow, count := rhs.count + 1 }
  let value := random iRow
  let column := { column with array := column.array.set iRow value }
  let iCol := nla.base_index_.getD iRow 0
  if iCol < nla.lp_.num_col_ then
    let array := (colEntries m iCol).foldl
      (fun a iEl =>
        let index := m.index_.getD iEl 0
        a.set index (a.getD index 0 + value * m.value_.getD iEl 0))
      rhs.array
    (column, { rhs with array := array })
  else
    let index := iCol - nla.lp_.num_col_
    (column, { rhs with array := rhs.array.set index (rhs.array.getD index 0 + value) })

/-- Lines 96-106: one pass of the loop building the right-hand side of the
transposed probe. -/
def transposedRhsStep (nla : HSimplexNla) (column : HVector) (rhs : HVector)
    (iRow : Nat) : HVector :=
  let m := nla.lp_.a_matrix_
  let rhs := { rhs with index := rhs.index.set rhs.count.toNat iRow, count := rhs.count + 1 }
  let iCol := nla.base_index_.getD iRow 0
  if iCol < nla.lp_.num_col_ then
    let array := (colEntries m iCol).foldl
      (fun a iEl =>
        a.set iRow (a.getD iRow 0
          + column.array.getD (m.index_.getD iEl 0) 0 * m.value_.getD iEl 0))
      rhs.array
    { rhs with array := array }
  else
    let array := rhs.array.set iRow (rhs.array.getD iRow 0
      + column.array.getD (iCol - nla.lp_.num_col_) 0)
    { rhs with array := array }

/-- What the two randomized probes (lines 58-112) leave behind. -/
structure ProbeResult where
  column : HVector
  primal_rhs : HVector
  primal_solution : HVector
  primal : ReportResult
  transposed_rhs : HVector
  transposed_solution : HVector
  transposed : ReportResult

/-- Lines 58-112 of `debugCheckInvert`: the randomized primal probe followed by
the randomized transposed probe. -/
def randomProbes (nla : HSimplexNla) (random : Nat → ℚ) (force : Bool) : ProbeResult :=
  let num_row := nla.lp_.num_row_
  let column := HVector.setup num_row
  let rhs := HVector.setup num_row
  let expected_density : ℚ := 1
  -- Solve Bx=b
  let column := column.clear
  let rhs := rhs.clear
  let column := { column with count := -1 }
  let s := (List.range num_row).foldl (primalRhsStep nla random) (column, rhs)
  let column := s.1
  let rhs := s.2
  let residual := rhs
  let primal_rhs := rhs
  let rhs := nla.ftran rhs expected_density
  let primal_solution := rhs
  let primal := debugReportError nla false column rhs residual force
  -- Solve B^Tx=b
  let rhs := rhs.clear
  let rhs := (List.range num_row).foldl (transposedRhsStep nla column) rhs
  let residual := rhs
  let transposed_rhs := rhs
  let rhs := nla.btran rhs expected_density
  let transposed := debugReportError nla true column rhs residual force
  { column := column, primal_rhs := primal_rhs, primal_solution := primal_solution,
    primal := primal, transposed_rhs := transposed_rhs, transposed_solution := rhs,
    transposed := transposed }

/-- Lines 122-136: the column of the basis matrix for `iRow`, written into the
cleared vector `column`. -/
def inverseColumn (nla : HSimplexNla) (column : HVector) (iRow : Nat) : HVector :=
  let m := nla.lp_.a_matrix_
  let iCol := nla.base_index_.getD iRow 0
  let column := column.clear
  let column := { column with packFlag := true }
  if iCol < nla.lp_.num_col_ then
    (colEntries m iCol).foldl
      (fun column k =>
        let index := m.index_.getD k 0
        { column with array := column.array.set index (m.value_.getD k 0),
                      index := column.index.set column.count.toNat index,
                      count := column.count + 1 })
      column
  else
    let index := iCol - nla.lp_.num_col_
    { column with array := column.array.set index 1,
                  index := column.index.set column.count.toNat index,
                  count := column.count + 1 }

/-- Lines 140-152: the largest deviation of the solved column from the unit
vector of `iRow`. -/
def inverseColumnErrorNorm (num_row : Nat) (column : HVector) (iRow : Nat) : ℚ :=
  (List.range num_row).foldl
    (fun inverse_column_error_norm lc_iRow =>
      let value := column.array.getD lc_iRow 0
      let ckValue : ℚ := if lc_iRow = iRow then 1 else 0
      let inverse_error := |value - ckValue|
      max inverse_error inverse_column_error_norm) 0

/-- The state of the loop of lines 121-159. -/
structure InverseState where
  column : HVector
  inverse_error_norm : ℚ
  residual_error_norm : ℚ
  calls : List SolveCall

/-- Lines 122-158: one pass of the loop of the exhaustive inverse probe. -/
def inverseStep (nla : HSimplexNla) (s : InverseState) (iRow : Nat) : InverseState :=
  let num_row := nla.lp_.num_row_
  let expected_density : ℚ := 0
  let column := inverseColumn nla s.column iRow
  let residual := column
  let column := nla.ftran column expected_density
  let inverse_column_error_norm := inverseColumnErrorNorm num_row column iRow
  let inverse_error_norm := max inverse_column_error_norm s.inverse_error_norm
  let residual_column_error_norm := (debugResidualError nla false column residual).1
  let residual_error_norm := max residual_column_error_norm s.residual_error_norm
  { column := column, inverse_error_norm := inverse_error_norm,
    residual_error_norm := residual_error_norm,
    calls := s.calls ++ [SolveCall.ftran] }

/-- Lines 119-159: the loop of the exhaustive inverse probe. -/
def inverseLoop (nla : HSimplexNla) (column : HVector) : InverseState :=
  (List.range nla.lp_.num_row_).foldl (inverseStep nla)
    { column := column, inverse_error_norm := 0, residual_error_norm := 0, calls := [] }

/-- Lines 160-193: the reports of the exhaustive inverse probe and the status
returned, `return_status` being the status on entry. -/
def inverseReport (force : Bool) (return_status : HighsDebugStatus)
    (inverse_error_norm residual_error_norm : ℚ) : HighsDebugStatus × List LogRecord :=
  let value_adjective : String := ""
  let report_level : Option HighsLogType := none
  -- lines 160-173
  let s1 : String × Option HighsLogType × List LogRecord :=
    if inverse_error_norm ≠ 0 then
      let c : String × Option HighsLogType :=
        if inverse_error_norm > kInverseExcessiveError then
          ("Excessive", some HighsLogType.kError)
        else if inverse_error_norm > kInverseLargeError then
          ("Large", some HighsLogType.kWarning)
        else ("Small", report_level)
      (c.1, c.2,
        [{ report_level := c.2, metric := LogMetric.inverseError, transposed := false,
           value_adjective := c.1, magnitude := inverse_error_norm }])
    else (value_adjective, report_level, [])
  let report_level := s1.2.1
  -- lines 175-191
  let s2 : HighsDebugStatus × List LogRecord :=
    if residual_error_norm ≠ 0 then
      let c : String × Option HighsLogType × HighsDebugStatus :=
        if residual_error_norm > kResidualExcessiveError then
          ("Excessive", some HighsLogType.kError, HighsDebugStatus.kError)
        else if residual_error_norm > kResidualLargeError then
          ("Large", some HighsLogType.kWarning, HighsDebugStatus.kWarning)
        else ("Small", report_level, return_status)
      let report_level := if force then some HighsLogType.kInfo else c.2.1
      (c.2.2,
        [{ report_level := report_level, metric := LogMetric.inverseResidualError,
           transposed := false, value_adjective := c.1,
           magnitude := residual_error_norm }])
    else (return_status, [])
  (s2.1, s1.2.2 ++ s2.2)

/-- What `debugCheckInvert` leaves behind: the status returned, the records
logged and the oracle calls made, in program order. -/
structure CheckResult where
  return_status : HighsDebugStatus
  log : List LogRecord
  calls : List SolveCall
  deriving DecidableEq, Repr

/-- Lines 38-39: the level the check runs at. -/
def useDebugLevel (nla : HSimplexNla) (alt_debug_level : Int) : Int :=
  if alt_debug_level < 0 then nla.options_.highs_debug_level else alt_debug_level

/-- Line 44: whether the check is forced. -/
def forceDebug (nla : HSimplexNla) (alt_debug_level : Int) : Bool :=
  decide (alt_debug_level > nla.options_.highs_debug_level)

/-- The function `debugCheckInvert` (lines 32-194). -/
def debugCheckInvert (nla : HSimplexNla) (random : Nat → ℚ) (alt_debug_level : Int) :
    CheckResult :=
  let use_debug_level := useDebugLevel nla alt_debug_level
  if use_debug_level < kHighsDebugLevelCostly then
    { return_status := HighsDebugStatus.kNotChecked, log := [], calls := [] }
  else
    let force := forceDebug nla alt_debug_level
    let log0 : List LogRecord :=
      if force then
        [{ report_level := some HighsLogType.kInfo, metric := LogMetric.forcingDebug,
           transposed := false, value_adjective := "", magnitude := 0 }]
      else []
    let p := randomProbes nla random force
    -- line 90: this value of return_status is overwritten at line 111
    let _return_status := p.primal.return_status
    let return_status := p.transposed.return_status
    let log := log0 ++ p.primal.log ++ p.transposed.log
    let calls := [SolveCall.ftran, SolveCall.btran]
    if use_debug_level < kHighsDebugLevelExpensive then
      { return_status := return_status, log := log, calls := calls }
    else
      let s := inverseLoop nla p.column
      let r := inverseReport force return_status s.inverse_error_norm s.residual_error_norm
      { return_status := r.1, log := log ++ r.2, calls := calls ++ s.calls }


/-! ## The basis matrix and the statements of the checks -/

/-- Entry `(r, i)` of the basis matrix `B`: column `i` of `B` is the structural
column `base_index[i]` of the matrix, its entries accumulated by row, when
`base_index[i] < num_col`, and the unit column of row `base_index[i] - num_col`
otherwise. -/
def basisEntry (nla : HSimplexNla) (r i : Nat) : ℚ :=
  let m := nla.lp_.a_matrix_
  let iCol := nla.base_index_.getD i 0
  if iCol < nla.lp_.num_col_ then
    ((colEntries m iCol).map (fun k => if m.index_.getD k 0 = r then m.value_.getD k 0 else 0)).sum
  else if iCol - nla.lp_.num_col_ = r then 1 else 0

/-- Row `r` of the product `B·y`. -/
def basisMul (nla : HSimplexNla) (y : List ℚ) (r : Nat) : ℚ :=
  ((List.range nla.lp_.num_row_).map (fun i => basisEntry nla r i * y.getD i 0)).sum

/-- Row `i` of the product `Bᵀ·y`. -/
def basisMulT (nla : HSimplexNla) (y : List ℚ) (i : Nat) : ℚ :=
  ((List.range nla.lp_.num_row_).map (fun r => basisEntry nla r i * y.getD r 0)).sum

/-- The basis matrix as a square matrix of dimension `num_row`. -/
def basisMatrix (nla : HSimplexNla) : Matrix (Fin nla.lp_.num_row_) (Fin nla.lp_.num_row_) ℚ :=
  fun r i => basisEntry nla r.val i.val

/-- The first `n` entries of an array as a vector. -/
def toVec (n : Nat) (l : List ℚ) : Fin n → ℚ := fun i => l.getD i.val 0

/-- The position of a severity in the order `NotChecked < Ok < Warning < Error`. -/
def HighsDebugStatus.rank : HighsDebugStatus → Nat
  | HighsDebugStatus.kNotChecked => 0
  | HighsDebugStatus.kOk => 1
  | HighsDebugStatus.kWarning => 2
  | HighsDebugStatus.kError => 3

/-- The worse of two severities. -/
def worseStatus (a b : HighsDebugStatus) : HighsDebugStatus :=
  if a.rank < b.rank then b else a

/-- `norm` is the largest of the values `|v r|` over the rows `r < n`, and `0`
when there is no row. -/
def IsMaxAbs (n : Nat) (v : Nat → ℚ) (norm : ℚ) : Prop :=
  (n = 0 → norm = 0) ∧ (∀ r, r < n → |v r| ≤ norm) ∧ (0 < n → ∃ r, r < n ∧ norm = |v r|)

/-- Well-formed input: `start_` has `num_col + 1` non-decreasing entries within
the index and value arrays, every row index of a column is below `num_row` and
none is repeated within a column, and the basis map has `num_row` entries below
`num_col + num_row`. -/
def WellFormed (nla : HSimplexNla) : Prop :=
  nla.lp_.a_matrix_.start_.length = nla.lp_.num_col_ + 1 ∧
  (∀ j, j < nla.lp_.num_col_ →
    nla.lp_.a_matrix_.start_.getD j 0 ≤ nla.lp_.a_matrix_.start_.getD (j + 1) 0) ∧
  nla.lp_.a_matrix_.start_.getD nla.lp_.num_col_ 0 ≤ nla.lp_.a_matrix_.index_.length ∧
  nla.lp_.a_matrix_.start_.getD nla.lp_.num_col_ 0 ≤ nla.lp_.a_matrix_.value_.length ∧
  (∀ j, j < nla.lp_.num_col_ →
    ∀ k ∈ colEntries nla.lp_.a_matrix_ j, nla.lp_.a_matrix_.index_.getD k 0 < nla.lp_.num_row_) ∧
  (∀ j, j < nla.lp_.num_col_ →
    ((colEntries nla.lp_.a_matrix_ j).map (fun k => nla.lp_.a_matrix_.index_.getD k 0)).Nodup) ∧
  nla.base_index_.length = nla.lp_.num_row_ ∧
  (∀ i, i < nla.lp_.num_row_ → nla.base_index_.getD i 0 < nla.lp_.num_col_ + nla.lp_.num_row_)

instance (nla : HSimplexNla) : Decidable (WellFormed nla) := by
  unfold WellFormed
  infer_instance

/-- The oracle works in place: it leaves the dimension of the vector it is
given and the length of its array of values unchanged. -/
def OracleKeepsSize (nla : HSimplexNla) : Prop :=
  ∀ v d, ((nla.ftran v d).size = v.size ∧ (nla.ftran v d).array.length = v.array.length)
    ∧ ((nla.btran v d).size = v.size ∧ (nla.btran v d).array.length = v.array.length)

/-- The oracle is exact: on a vector of dimension `num_row`, `ftran` returns the
solution of `B·y = b` and `btran` the solution of `Bᵀ·z = b`. -/
def ExactOracle (nla : HSimplexNla) : Prop :=
  (∀ v d, v.array.length = nla.lp_.num_row_ →
    (basisMatrix nla).mulVec (toVec nla.lp_.num_row_ (nla.ftran v d).array)
      = toVec nla.lp_.num_row_ v.array) ∧
  (∀ v d, v.array.length = nla.lp_.num_row_ →
    (Matrix.transpose (basisMatrix nla)).mulVec (toVec nla.lp_.num_row_ (nla.btran v d).array)
      = toVec nla.lp_.num_row_ v.array)

/-- The effect of one pass of the loop of lines 70-86 on `rhs.array`. -/
def primalArrayStep (nla : HSimplexNla) (random : Nat → ℚ) (a : List ℚ) (iRow : Nat) : List ℚ :=
  if nla.base_index_.getD iRow 0 < nla.lp_.num_col_ then
    (colEntries nla.lp_.a_matrix_ (nla.base_index_.getD iRow 0)).foldl
      (fun a iEl => a.set (nla.lp_.a_matrix_.index_.getD iEl 0)
        (a.getD (nla.lp_.a_matrix_.index_.getD iEl 0) 0
          + random iRow * nla.lp_.a_matrix_.value_.getD iEl 0)) a
  else
    a.set (nla.base_index_.getD iRow 0 - nla.lp_.num_col_)
      (a.getD (nla.base_index_.getD iRow 0 - nla.lp_.num_col_) 0 + random iRow)

/-- The effect of one pass of the loop of lines 95-107 on `rhs.array`. -/
def transposedArrayStep (nla : HSimplexNla) (column : HVector) (a : List ℚ) (iRow : Nat) :
    List ℚ :=
  if nla.base_index_.getD iRow 0 < nla.lp_.num_col_ then
    (colEntries nla.lp_.a_matrix_ (nla.base_index_.getD iRow 0)).foldl
      (fun a iEl => a.set iRow (a.getD iRow 0
        + column.array.getD (nla.lp_.a_matrix_.index_.getD iEl 0) 0
          * nla.lp_.a_matrix_.value_.getD iEl 0)) a
  else
    a.set iRow (a.getD iRow 0
      + column.array.getD (nla.base_index_.getD iRow 0 - nla.lp_.num_col_) 0)

/-- The severity `debugReportError` and the exhaustive stage give a residual
error norm: `Error` above `1e-6`, `Warning` above `1e-12`, `Ok` otherwise. -/
def residualSeverity (residual_error_norm : ℚ) : HighsDebugStatus :=
  if residual_error_norm > 1 / 10 ^ 6 then HighsDebugStatus.kError
  else if residual_error_norm > 1 / 10 ^ 12 then HighsDebugStatus.kWarning
  else HighsDebugStatus.kOk

/-- The magnitudes a run of `debugCheckInvert` at the level `use_debug_level`
computes: solve and residual error of the primal and of the transposed probe
and, from the level Expensive on, the inverse error and the inverse residual
error. -/
def computedMagnitudes (nla : HSimplexNla) (random : Nat → ℚ) (use_debug_level : Int) :
    List ℚ :=
  let p := randomProbes nla random false
  let s := inverseLoop nla p.column
  [p.primal.solve_error_norm, p.primal.residual_error_norm,
   p.transposed.solve_error_norm, p.transposed.residual_error_norm]
  ++ (if use_debug_level < kHighsDebugLevelExpensive then []
      else [s.inverse_error_norm, s.residual_error_norm])

/-! ## Concrete inputs -/

/-- A vector of dimension one. -/
def vec1 (a : ℚ) : HVector :=
  { size := 1, count := 1, index := [0], array := [a], packFlag := false }

/-- One row, no structural column, the basis being the logical column of the
row (`B` is the 1×1 identity); `ftran` multiplies its argument by `f` and
`btran` by `b`. -/
def scaledOracleNla (highs_debug_level : Int) (f b : ℚ) : HSimplexNla :=
  { lp_ := { num_col_ := 0, num_row_ := 1,
             a_matrix_ := { start_ := [0], index_ := [], value_ := [] } },
    options_ := { highs_debug_level := highs_debug_level },
    base_index_ := [0],
    ftran := fun v _ => { v with array := v.array.map (fun a => f * a) },
    btran := fun v _ => { v with array := v.array.map (fun a => b * a) } }

/-- One row and one structural column that lists row `0` twice, with the values
`1` and `1`; the basis is that column, so that `B`, its entries accumulated by
row, is the 1×1 matrix `2`, and the oracle divides by `2`. -/
def duplicateEntryNla : HSimplexNla :=
  { lp_ := { num_col_ := 1, num_row_ := 1,
             a_matrix_ := { start_ := [0, 2], index_ := [0, 0], value_ := [1, 1] } },
    options_ := { highs_debug_level := 3 },
    base_index_ := [0],
    ftran := fun v _ => { v with array := v.array.map (fun a => a / 2) },
    btran := fun v _ => { v with array := v.array.map (fun a => a / 2) } }

/-- Five rows, no structural column, the basis map of all logical columns, and
the identity as oracle. -/
def identity5Nla (highs_debug_level : Int) : HSimplexNla :=
  { lp_ := { num_col_ := 0, num_row_ := 5,
             a_matrix_ := { start_ := [0], index_ := [], value_ := [] } },
    options_ := { highs_debug_level := highs_debug_level },
    base_index_ := [0, 1, 2, 3, 4],
    ftran := fun v _ => v,
    btran := fun v _ => v }

/-- Two rows and two structural columns, `(2, 1)` and `(0, 3)`, both basic. -/
def structural2Nla : HSimplexNla :=
  { lp_ := { num_col_ := 2, num_row_ := 2,
             a_matrix_ := { start_ := [0, 2, 3], index_ := [0, 1, 1], value_ := [2, 1, 3] } },
    options_ := { highs_debug_level := 3 },
    base_index_ := [0, 1],
    ftran := fun v _ => v,
    btran := fun v _ => v }

/-- The name the code gives the band of a magnitude (lines 161-169, 176-186,
268-276 and 285-295): `Excessive` above the excessive threshold, else `Large`
above the large threshold, else `Small`. -/
def errorBand (large excessive magnitude : ℚ) : String :=
  if magnitude > excessive then "Excessive"
  else if magnitude > large then "Large"
  else "Small"

/-- One row and one structural column with the single entry `1e-13`, which is
basic; `ftran` and `btran` return the zero vector. -/
def tinyColumnNla (highs_debug_level : Int) : HSimplexNla :=
  { lp_ := { num_col_ := 1, num_row_ := 1,
             a_matrix_ := { start_ := [0, 1], index_ := [0], value_ := [1 / 10 ^ 13] } },
    options_ := { highs_debug_level := highs_debug_level },
    base_index_ := [0],
    ftran := fun v _ => { v with array := v.array.map (fun _ => 0) },
    btran := fun v _ => { v with array := v.array.map (fun _ => 0) } }

/-- The records `debugReportError` logs (lines 261-301), as a function of the
two norms it has computed. -/
def reportRecords (transposed force : Bool) (solve_error_norm residual_error_norm : ℚ) :
    List LogRecord :=
  let value_adjective : String := ""
  let report_level : Option HighsLogType := none
  let return_status := HighsDebugStatus.kOk
  let s1 : String × Option HighsLogType × List LogRecord :=
    if solve_error_norm ≠ 0 then
      let c : String × Option HighsLogType :=
        if solve_error_norm > kSolveExcessiveError then
          ("Excessive", some HighsLogType.kError)
        else if solve_error_norm > kSolveLargeError then
          ("Large", some HighsLogType.kWarning)
        else ("Small", report_level)
      let report_level := if force then some HighsLogType.kInfo else c.2
      (c.1, report_level,
        [{ report_level := report_level, metric := LogMetric.solveError,
           transposed := transposed, value_adjective := c.1,
           magnitude := solve_error_norm }])
    else (value_adjective, report_level, [])
  let report_level := s1.2.1
  let s2 : HighsDebugStatus × List LogRecord :=
    if residual_error_norm ≠ 0 then
      let c : String × Option HighsLogType × HighsDebugStatus :=
        if residual_error_norm > kResidualExcessiveError then
          ("Excessive", some HighsLogType.kError, HighsDebugStatus.kError)
        else if residual_error_norm > kResidualLargeError then
          ("Large", some HighsLogType.kWarning, HighsDebugStatus.kWarning)
        else ("Small", report_level, return_status)
      let report_level := if force then some HighsLogType.kInfo else c.2.1
      (c.2.2,
        [{ report_level := report_level, metric := LogMetric.residualError,
           transposed := transposed, value_adjective := c.1,
           magnitude := residual_error_norm }])
    else (return_status, [])
  s1.2.2 ++ s2.2

/-! ## The pricing health monitor of `HighsSimplexAnalysis.h` -/

/-- Line 36: `const double running_average_multiplier = 0.05;` -/
def running_average_multiplier : ℚ := 5 / 100

/-- Line 158: `const double accept_weight_threshhold = 0.25;` -/
def accept_weight_threshhold : ℚ := 25 / 100

/-- Line 159: `const double weight_error_threshhold = 4.0;` -/
def weight_error_threshhold : ℚ := 4

/-- The fields of the class `HighsSimplexAnalysis` the weight monitor uses
(lines 66-67 and 161-174). The counters, of type `int`, are integers without
bound. -/
structure HighsSimplexAnalysis where
  allow_dual_steepest_edge_to_devex_switch : Bool
  dual_steepest_edge_weight_log_error_threshhold : ℚ
  num_dual_steepest_edge_weight_check : Int
  num_dual_steepest_edge_weight_reject : Int
  num_wrong_low_dual_steepest_edge_weight : Int
  num_wrong_high_dual_steepest_edge_weight : Int
  average_frequency_low_dual_steepest_edge_weight : ℚ
  average_frequency_high_dual_steepest_edge_weight : ℚ
  average_log_low_dual_steepest_edge_weight_error : ℚ
  average_log_high_dual_steepest_edge_weight_error : ℚ
  max_average_frequency_low_dual_steepest_edge_weight : ℚ
  max_average_frequency_high_dual_steepest_edge_weight : ℚ
  max_sum_average_frequency_extreme_dual_steepest_edge_weight : ℚ
  max_average_log_low_dual_steepest_edge_weight_error : ℚ
  max_average_log_high_dual_steepest_edge_weight_error : ℚ
  max_sum_average_log_extreme_dual_steepest_edge_weight_error : ℚ
  deriving DecidableEq, Repr

/-- A new monitor: the initial values of lines 161-174, all zero, with the
policy flag and the threshold of lines 66-67 as given. -/
def HighsSimplexAnalysis.new (allow_dual_steepest_edge_to_devex_switch : Bool)
    (dual_steepest_edge_weight_log_error_threshhold : ℚ) : HighsSimplexAnalysis :=
  { allow_dual_steepest_edge_to_devex_switch := allow_dual_steepest_edge_to_devex_switch,
    dual_steepest_edge_weight_log_error_threshhold :=
      dual_steepest_edge_weight_log_error_threshhold,
    num_dual_steepest_edge_weight_check := 0,
    num_dual_steepest_edge_weight_reject := 0,
    num_wrong_low_dual_steepest_edge_weight := 0,
    num_wrong_high_dual_steepest_edge_weight := 0,
    average_frequency_low_dual_steepest_edge_weight := 0,
    average_frequency_high_dual_steepest_edge_weight := 0,
    average_log_low_dual_steepest_edge_weight_error := 0,
    average_log_high_dual_steepest_edge_weight_error := 0,
    max_average_frequency_low_dual_steepest_edge_weight := 0,
    max_average_frequency_high_dual_steepest_edge_weight := 0,
    max_sum_average_frequency_extreme_dual_steepest_edge_weight := 0,
    max_average_log_low_dual_steepest_edge_weight_error := 0,
    max_average_log_high_dual_steepest_edge_weight_error := 0,
    max_sum_average_log_extreme_dual_steepest_edge_weight_error := 0 }

/-- Modelled from the spec: `HighsSimplexAnalysis::dualSteepestEdgeWeightError`
is declared at line 49 of `HighsSimplexAnalysis.h` and defined in
`HighsSimplexAnalysis.cpp`, which is not among the sources. Following the
contract of `recordWeightObservation`: the observation is counted as a check;
the ratio `updated / computed` within `[acceptThreshold, 1 / acceptThreshold]`
is acceptable; on a rejection the reject counter is incremented, the running
frequency of rejections in that direction and the running average of the
log-magnitude error in that direction are updated by exponential smoothing with
the weight `0.05`, the all-time maxima of the running averages are updated, and
a log-magnitude error above `4.0` is counted as a wrong weight. The log-domain
ratio error of the two weights is `log_error computed updated`, the function
`log_error` being a parameter. -/
def dualSteepestEdgeWeightError (log_error : ℚ → ℚ → ℚ) (a : HighsSimplexAnalysis)
    (computed_edge_weight updated_edge_weight : ℚ) : HighsSimplexAnalysis :=
  let weight_error := log_error computed_edge_weight updated_edge_weight
  let ratio := updated_edge_weight / computed_edge_weight
  let a := { a with
    num_dual_steepest_edge_weight_check := a.num_dual_steepest_edge_weight_check + 1 }
  if ratio < accept_weight_threshhold then
    let frequency := (1 - running_average_multiplier)
        * a.average_frequency_low_dual_steepest_edge_weight + running_average_multiplier
    let average := (1 - running_average_multiplier)
        * a.average_log_low_dual_steepest_edge_weight_error
      + running_average_multiplier * weight_error
    { a with
      num_dual_steepest_edge_weight_reject := a.num_dual_steepest_edge_weight_reject + 1,
      num_wrong_low_dual_steepest_edge_weight :=
        if weight_error > weight_error_threshhold
        then a.num_wrong_low_dual_steepest_edge_weight + 1
        else a.num_wrong_low_dual_steepest_edge_weight,
      average_frequency_low_dual_steepest_edge_weight := frequency,
      average_log_low_dual_steepest_edge_weight_error := average,
      max_average_frequency_low_dual_steepest_edge_weight :=
        max a.max_average_frequency_low_dual_steepest_edge_weight frequency,
      max_sum_average_frequency_extreme_dual_steepest_edge_weight :=
        max a.max_sum_average_frequency_extreme_dual_steepest_edge_weight
          (frequency + a.average_frequency_high_dual_steepest_edge_weight),
      max_average_log_low_dual_steepest_edge_weight_error :=
        max a.max_average_log_low_dual_steepest_edge_weight_error average,
      max_sum_average_log_extreme_dual_steepest_edge_weight_error :=
        max a.max_sum_average_log_extreme_dual_steepest_edge_weight_error
          (average + a.average_log_high_dual_steepest_edge_weight_error) }
  else if ratio > 1 / accept_weight_threshhold then
    let frequency := (1 - running_average_multiplier)
        * a.average_frequency_high_dual_steepest_edge_weight + running_average_multiplier
    let average := (1 - running_average_multiplier)
        * a.average_log_high_dual_steepest_edge_weight_error
      + running_average_multiplier * weight_error
    { a with
      num_dual_steepest_edge_weight_reject := a.num_dual_steepest_edge_weight_reject + 1,
      num_wrong_high_dual_steepest_edge_weight :=
        if weight_error > weight_error_threshhold
        then a.num_wrong_high_dual_steepest_edge_weight + 1
        else a.num_wrong_high_dual_steepest_edge_weight,
      average_frequency_high_dual_steepest_edge_weight := frequency,
      average_log_high_dual_steepest_edge_weight_error := average,
      max_average_frequency_high_dual_steepest_edge_weight :=
        max a.max_average_frequency_high_dual_steepest_edge_weight frequency,
      max_sum_average_frequency_extreme_dual_steepest_edge_weight :=
        max a.max_sum_average_frequency_extreme_dual_steepest_edge_weight
          (a.average_frequency_low_dual_steepest_edge_weight + frequency),
      max_average_log_high_dual_steepest_edge_weight_error :=
        max a.max_average_log_high_dual_steepest_edge_weight_error average,
      max_sum_average_log_extreme_dual_steepest_edge_weight_error :=
        max a.max_sum_average_log_extreme_dual_steepest_edge_weight_error
          (a.average_log_low_dual_steepest_edge_weight_error + average) }
  else a

/-- Modelled from the spec: `HighsSimplexAnalysis::switchToDevex` is declared
at line 50 of `HighsSimplexAnalysis.h` and defined in
`HighsSimplexAnalysis.cpp`, which is not among the sources. Following the
contract: the running rejection frequency, in either direction, exceeds an
accumulated-evidence threshold, and a minimum number of checks has elapsed, and
the policy flag permits the switch. The spec leaves the evidence threshold and
the minimum number of checks open; they are the parameters
`evidence_threshold` and `minimum_checks`. -/
def switchToDevex (evidence_threshold : ℚ) (minimum_checks : Int)
    (a : HighsSimplexAnalysis) : Bool :=
  decide ((a.average_frequency_low_dual_steepest_edge_weight > evidence_threshold
      ∨ a.average_frequency_high_dual_steepest_edge_weight > evidence_threshold)
    ∧ a.num_dual_steepest_edge_weight_check ≥ minimum_checks
    ∧ a.allow_dual_steepest_edge_to_devex_switch = true)

/-- The monitor after a sequence of observations, each a pair of the computed
and the updated weight. -/
def recordObservations (log_error : ℚ → ℚ → ℚ) (a : HighsSimplexAnalysis)
    (observations : List (ℚ × ℚ)) : HighsSimplexAnalysis :=
  observations.foldl (fun a o => dualSteepestEdgeWeightError log_error a o.1 o.2) a

/-! ## The functions with every array access checked

The same program, where a read or a write outside an array, or an assertion
that fails, ends the run with `none`. -/

/-- The read `a[i]`, in bounds. -/
def readAt {α : Type} (a : List α) (i : Nat) : Option α := a[i]?

/-- The write `a[i] = v`, in bounds. -/
def writeAt {α : Type} (a : List α) (i : Nat) (v : α) : Option (List α) :=
  if i < a.length then some (a.set i v) else none

/-- The write `a[count] = v` for a signed `count`, in bounds. -/
def writeAtCount {α : Type} (a : List α) (count : Int) (v : α) : Option (List α) :=
  if 0 ≤ count then writeAt a count.toNat v else none

/-- The bounds `a_matrix_start[iCol]` and `a_matrix_start[iCol + 1]` of the loop
over a column, both read in bounds. -/
def colEntriesChecked (m : HighsSparseMatrix) (iCol : Nat) : Option (List Nat) := do
  let first ← readAt m.start_ iCol
  let last ← readAt m.start_ (iCol + 1)
  pure (List.range' first (last - first))

/-- Lines 205-236 with every access checked. -/
def residualStepChecked (nla : HSimplexNla) (transposed : Bool) (solution : HVector)
    (residual : List ℚ) (iRow : Nat) : Option (List ℚ) := do
  let m := nla.lp_.a_matrix_
  if transposed then
    let iCol ← readAt nla.base_index_ iRow
    if iCol < nla.lp_.num_col_ then
      let entries ← colEntriesChecked m iCol
      entries.foldlM
        (fun r iEl => do
          let index ← readAt m.index_ iEl
          let value ← readAt solution.array index
          let a ← readAt m.value_ iEl
          let old ← readAt r iRow
          writeAt r iRow (old - value * a))
        residual
    else
      let index := iCol - nla.lp_.num_col_
      let value ← readAt solution.array index
      let old ← readAt residual iRow
      writeAt residual iRow (old - value)
  else
    let value ← readAt solution.array iRow
    let iCol ← readAt nla.base_index_ iRow
    if iCol < nla.lp_.num_col_ then
      let entries ← colEntriesChecked m iCol
      entries.foldlM
        (fun r iEl => do
          let index ← readAt m.index_ iEl
          let a ← readAt m.value_ iEl
          let old ← readAt r index
          writeAt r index (old - value * a))
        residual
    else
      let index := iCol - nla.lp_.num_col_
      let old ← readAt residual index
      writeAt residual index (old - value)

/-- Lines 238-243 with every access checked. -/
def maxAbsNormChecked (num_row : Nat) (array : List ℚ) : Option ℚ :=
  (List.range num_row).foldlM
    (fun residual_error_norm iRow => do
      let a ← readAt array iRow
      pure (max |a| residual_error_norm)) 0

/-- The function `debugResidualError` with every access checked. -/
def debugResidualErrorChecked (nla : HSimplexNla) (transposed : Bool) (solution : HVector)
    (residual : HVector) : Option (ℚ × HVector) := do
  let num_row := nla.lp_.num_row_
  let array ← (List.range num_row).foldlM (residualStepChecked nla transposed solution)
    residual.array
  let residual_error_norm ← maxAbsNormChecked num_row array
  pure (residual_error_norm, { residual with array := array })

/-- Lines 261-302: the status and the records of `debugReportError`, as a
function of the two norms and of the residual vector. -/
def reportOfNorms (transposed force : Bool) (solve_error_norm residual_error_norm : ℚ)
    (residual : HVector) : ReportResult :=
  let value_adjective : String := ""
  let report_level : Option HighsLogType := none
  let return_status := HighsDebugStatus.kOk
  let s1 : String × Option HighsLogType × List LogRecord :=
    if solve_error_norm ≠ 0 then
      let c : String × Option HighsLogType :=
        if solve_error_norm > kSolveExcessiveError then
          ("Excessive", some HighsLogType.kError)
        else if solve_error_norm > kSolveLargeError then
          ("Large", some HighsLogType.kWarning)
        else ("Small", report_level)
      let report_level := if force then some HighsLogType.kInfo else c.2
      (c.1, report_level,
        [{ report_level := report_level, metric := LogMetric.solveError,
           transposed := transposed, value_adjective := c.1,
           magnitude := solve_error_norm }])
    else (value_adjective, report_level, [])
  let report_level := s1.2.1
  let s2 : HighsDebugStatus × List LogRecord :=
    if residual_error_norm ≠ 0 then
      let c : String × Option HighsLogType × HighsDebugStatus :=
        if residual_error_norm > kResidualExcessiveError then
          ("Excessive", some HighsLogType.kError, HighsDebugStatus.kError)
        else if residual_error_norm > kResidualLargeError then
          ("Large", some HighsLogType.kWarning, HighsDebugStatus.kWarning)
        else ("Small", report_level, return_status)
      let report_level := if force then some HighsLogType.kInfo else c.2.1
      (c.2.2,
        [{ report_level := report_level, metric := LogMetric.residualError,
           transposed := transposed, value_adjective := c.1,
           magnitude := residual_error_norm }])
    else (return_status, [])
  { return_status := s2.1, solve_error_norm := solve_error_norm,
    residual_error_norm := residual_error_norm, residual := residual,
    log := s1.2.2 ++ s2.2 }

/-- The function `debugReportError` with every access checked. -/
def debugReportErrorChecked (nla : HSimplexNla) (transposed : Bool)
    (true_solution : HVector) (solution : HVector) (residual : HVector) (force : Bool) :
    Option ReportResult := do
  let num_row := nla.lp_.num_row_
  let solve_error_norm ← (List.range num_row).foldlM
    (fun solve_error_norm iRow => do
      let a ← readAt solution.array iRow
      let b ← readAt true_solution.array iRow
      pure (max |a - b| solve_error_norm)) 0
  let rr ← debugResidualErrorChecked nla transposed solution residual
  pure (reportOfNorms transposed force solve_error_norm rr.1 rr.2)

/-- Lines 71-85 with every access and the assertion of line 83 checked. -/
def primalRhsStepChecked (nla : HSimplexNla) (random : Nat → ℚ) (s : HVector × HVector)
    (iRow : Nat) : Option (HVector × HVector) := do
  let m := nla.lp_.a_matrix_
  let column := s.1
  let rhs := s.2
  let index_ ← writeAtCount rhs.index rhs.count iRow
  let rhs := { rhs with index := index_, count := rhs.count + 1 }
  let value := random iRow
  let array ← writeAt column.array iRow value
  let column := { column with array := array }
  let iCol ← readAt nla.base_index_ iRow
  if iCol < nla.lp_.num_col_ then
    let entries ← colEntriesChecked m iCol
    let array ← entries.foldlM
      (fun a iEl => do
        let index ← readAt m.index_ iEl
        let v ← readAt m.value_ iEl
        let old ← readAt a index
        writeAt a index (old + value * v))
      rhs.array
    pure (column, { rhs with array := array })
  else
    let index := iCol - nla.lp_.num_col_
    if index < nla.lp_.num_row_ then
      let old ← readAt rhs.array index
      let array ← writeAt rhs.array index (old + value)
      pure (column, { rhs with array := array })
    else none

/-- Lines 96-106 with every access checked. -/
def transposedRhsStepChecked (nla : HSimplexNla) (column : HVector) (rhs : HVector)
    (iRow : Nat) : Option HVector := do
  let m := nla.lp_.a_matrix_
  let index_ ← writeAtCount rhs.index rhs.count iRow
  let rhs := { rhs with index := index_, count := rhs.count + 1 }
  let iCol ← readAt nla.base_index_ iRow
  if iCol < nla.lp_.num_col_ then
    let entries ← colEntriesChecked m iCol
    let array ← entries.foldlM
      (fun a iEl => do
        let index ← readAt m.index_ iEl
        let x ← readAt column.array index
        let v ← readAt m.value_ iEl
        let old ← readAt a iRow
        writeAt a iRow (old + x * v))
      rhs.array
    pure { rhs with array := array }
  else
    let x ← readAt column.array (iCol - nla.lp_.num_col_)
    let old ← readAt rhs.array iRow
    let array ← writeAt rhs.array iRow (old + x)
    pure { rhs with array := array }

/-- Lines 58-112 with every access checked. -/
def randomProbesChecked (nla : HSimplexNla) (random : Nat → ℚ) (force : Bool) :
    Option ProbeResult := do
  let num_row := nla.lp_.num_row_
  let column := HVector.setup num_row
  let rhs := HVector.setup num_row
  let expected_density : ℚ := 1
  let column := column.clear
  let rhs := rhs.clear
  let column := { column with count := -1 }
  let s ← (List.range num_row).foldlM (primalRhsStepChecked nla random) (column, rhs)
  let column := s.1
  let rhs := s.2
  let residual := rhs
  let primal_rhs := rhs
  let rhs := nla.ftran rhs expected_density
  let primal_solution := rhs
  let primal ← debugReportErrorChecked nla false column rhs residual force
  let rhs := rhs.clear
  let rhs ← (List.range num_row).foldlM (transposedRhsStepChecked nla column) rhs
  let residual := rhs
  let transposed_rhs := rhs
  let rhs := nla.btran rhs expected_density
  let transposed ← debugReportErrorChecked nla true column rhs residual force
  pure { column := column, primal_rhs := primal_rhs, primal_solution := primal_solution,
         primal := primal, transposed_rhs := transposed_rhs, transposed_solution := rhs,
         transposed := transposed }

/-- Lines 122-136 with every access checked. -/
def inverseColumnChecked (nla : HSimplexNla) (column : HVector) (iRow : Nat) :
    Option HVector := do
  let m := nla.lp_.a_matrix_
  let iCol ← readAt nla.base_index_ iRow
  let column := column.clear
  let column := { column with packFlag := true }
  if iCol < nla.lp_.num_col_ then
    let entries ← colEntriesChecked m iCol
    entries.foldlM
      (fun (column : HVector) k => do
        let index ← readAt m.index_ k
        let v ← readAt m.value_ k
        let array ← writeAt column.array index v
        let index_ ← writeAtCount column.index column.count index
        pure { column with array := array, index := index_, count := column.count + 1 })
      column
  else
    let index := iCol - nla.lp_.num_col_
    let array ← writeAt column.array index 1
    let index_ ← writeAtCount column.index column.count index
    pure { column with array := array, index := index_, count := column.count + 1 }

/-- Lines 140-152 with every access checked. -/
def inverseColumnErrorNormChecked (num_row : Nat) (column : HVector) (iRow : Nat) :
    Option ℚ :=
  (List.range num_row).foldlM
    (fun inverse_column_error_norm lc_iRow => do
      let value ← readAt column.array lc_iRow
      let ckValue : ℚ := if lc_iRow = iRow then 1 else 0
      let inverse_error := |value - ckValue|
      pure (max inverse_error inverse_column_error_norm)) 0

/-- Lines 122-158 with every access checked. -/
def inverseStepChecked (nla : HSimplexNla) (s : InverseState) (iRow : Nat) :
    Option InverseState := do
  let num_row := nla.lp_.num_row_
  let expected_density : ℚ := 0
  let column ← inverseColumnChecked nla s.column iRow
  let residual := column
  let column := nla.ftran column expected_density
  let inverse_column_error_norm ← inverseColumnErrorNormChecked num_row column iRow
  let inverse_error_norm := max inverse_column_error_norm s.inverse_error_norm
  let rr ← debugResidualErrorChecked nla false column residual
  let residual_error_norm := max rr.1 s.residual_error_norm
  pure { column := column, inverse_error_norm := inverse_error_norm,
         residual_error_norm := residual_error_norm,
         calls := s.calls ++ [SolveCall.ftran] }

/-- Lines 119-159 with every access checked. -/
def inverseLoopChecked (nla : HSimplexNla) (column : HVector) : Option InverseState :=
  (List.range nla.lp_.num_row_).foldlM (inverseStepChecked nla)
    { column := column, inverse_error_norm := 0, residual_error_norm := 0, calls := [] }

/-- The function `debugCheckInvert` with every access checked. -/
def debugCheckInvertChecked (nla : HSimplexNla) (random : Nat → ℚ) (alt_debug_level : Int) :
    Option CheckResult := do
  let use_debug_level := useDebugLevel nla alt_debug_level
  if use_debug_level < kHighsDebugLevelCostly then
    pure { return_status := HighsDebugStatus.kNotChecked, log := [], calls := [] }
  else
    let force := forceDebug nla alt_debug_level
    let log0 : List LogRecord :=
      if force then
        [{ report_level := some HighsLogType.kInfo, metric := LogMetric.forcingDebug,
           transposed := false, value_adjective := "", magnitude := 0 }]
      else []
    let p ← randomProbesChecked nla random force
    let return_status := p.transposed.return_status
    let log := log0 ++ p.primal.log ++ p.transposed.log
    let calls := [SolveCall.ftran, SolveCall.btran]
    if use_debug_level < kHighsDebugLevelExpensive then
      pure { return_status := return_status, log := log, calls := calls }
    else
      let s ← inverseLoopChecked nla p.column
      let r := inverseReport force return_status s.inverse_error_norm s.residual_error_norm
      pure { return_status := r.1, log := log ++ r.2, calls := calls ++ s.calls }

/-- The oracle works in place on a vector: it leaves its dimension, the length
of its array of values and the length of its index array unchanged. -/
def OracleKeepsLengths (nla : HSimplexNla) : Prop :=
  ∀ v d, ((nla.ftran v d).size = v.size ∧ (nla.ftran v d).array.length = v.array.length
      ∧ (nla.ftran v d).index.length = v.index.length)
    ∧ ((nla.btran v d).size = v.size ∧ (nla.btran v d).array.length = v.array.length
      ∧ (nla.btran v d).index.length = v.index.length)

/-- One row, no structural column, and a basis map that names a column beyond
`num_col + num_row`; the oracle is the identity. -/
def outOfRangeBasisNla : HSimplexNla :=
  { lp_ := { num_col_ := 0, num_row_ := 1,
             a_matrix_ := { start_ := [0], index_ := [], value_ := [] } },
    options_ := { highs_debug_level := 3 },
    base_index_ := [5],
    ftran := fun v _ => v,
    btran := fun v _ => v }

/-- The shape of the pair `(column, rhs)` in the loop of lines 70-86 when the
passes `rest` are still to be made. -/
def PrimalShape (n : Nat) (rest : List Nat) (s : HVector × HVector) : Prop :=
  s.1.array.length = n ∧ s.2.array.length = n ∧ s.2.index.length = n ∧ 0 ≤ s.2.count
    ∧ s.2.count.toNat + rest.length = n ∧ ∀ i ∈ rest, i < n

/-- The shape of `rhs` in the loop of lines 95-107 when the passes `rest` are
still to be made. -/
def TransposedShape (n : Nat) (rest : List Nat) (rhs : HVector) : Prop :=
  rhs.array.length = n ∧ rhs.index.length = n ∧ 0 ≤ rhs.count
    ∧ rhs.count.toNat + rest.length = n ∧ ∀ i ∈ rest, i < n

/-- The shape of `column` in the loop of lines 126-131 over the structural
column `iCol` when the entries `rest` are still to be loaded. -/
def ColumnShape (nla : HSimplexNla) (iCol : Nat) (rest : List Nat) (column : HVector) : Prop :=
  column.size = nla.lp_.num_row_ ∧ column.array.length = nla.lp_.num_row_
    ∧ column.index.length = nla.lp_.num_row_ ∧ 0 ≤ column.count
    ∧ column.count.toNat + rest.length ≤ nla.lp_.num_row_
    ∧ ∀ k ∈ rest, k ∈ colEntries nla.lp_.a_matrix_ iCol

/-- The shape of the state of the loop of lines 121-159. -/
def InverseShape (nla : HSimplexNla) (rest : List Nat) (s : InverseState) : Prop :=
  s.column.size = nla.lp_.num_row_ ∧ s.column.index.length = nla.lp_.num_row_
    ∧ ∀ i ∈ rest, i < nla.lp_.num_row_

/-- The pair `(column, rhs)` after the loop of lines 70-86. -/
def primalLoopState (nla : HSimplexNla) (random : Nat → ℚ) : HVector × HVector :=
  (List.range nla.lp_.num_row_).foldl (primalRhsStep nla random)
    ({ (HVector.setup nla.lp_.num_row_).clear with count := -1 },
      (HVector.setup nla.lp_.num_row_).clear)

/-- The vector `rhs` after the loop of lines 95-107. -/
def transposedLoopState (nla : HSimplexNla) (random : Nat → ℚ) : HVector :=
  (List.range nla.lp_.num_row_).foldl (transposedRhsStep nla (primalLoopState nla random).1)
    (nla.ftran (primalLoopState nla random).2 1).clear

/-! ## Lemmas on the loops -/

theorem getD_set_eq (l : List ℚ) (i j : Nat) (a : ℚ) :
    (l.set i a).getD j 0 = if i = j ∧ i < l.length then a else l.getD j 0 := by
  simp only [List.getD_eq_getElem?_getD, List.getElem?_set]
  by_cases hij : i = j
  · subst hij
    by_cases hi : i < l.length
    · simp [hi]
    · have hnone : l[i]? = none := List.getElem?_eq_none (Nat.le_of_not_lt hi)
      simp [hi, hnone]
  · simp [hij]

/-- A scatter-add loop adds, at position `r`, the terms whose index is `r`. -/
theorem foldl_scatter_getD {κ : Type} (idx : κ → Nat) (f : κ → ℚ) (ks : List κ) :
    ∀ (arr : List ℚ) (r : Nat), r < arr.length →
      (ks.foldl (fun a k => a.set (idx k) (a.getD (idx k) 0 + f k)) arr).getD r 0
        = arr.getD r 0 + (ks.map (fun k => if idx k = r then f k else 0)).sum := by
  induction ks with
  | nil => intro arr r _; simp
  | cons k ks ih =>
    intro arr r hr
    simp only [List.foldl_cons, List.map_cons, List.sum_cons]
    rw [ih _ r (by simpa using hr), getD_set_eq]
    by_cases h : idx k = r
    · subst h
      simp [hr]; ring
    · simp [h]

theorem foldl_scatter_length {κ : Type} (idx : κ → Nat) (f : κ → ℚ) (ks : List κ) :
    ∀ (arr : List ℚ),
      (ks.foldl (fun a k => a.set (idx k) (a.getD (idx k) 0 + f k)) arr).length = arr.length := by
  induction ks with
  | nil => intro arr; rfl
  | cons k ks ih => intro arr; simp only [List.foldl_cons]; rw [ih]; simp

/-- A loop whose passes each add `c i r` at position `r` adds their sum. -/
theorem foldl_rows_getD (g : List ℚ → Nat → List ℚ) (c : Nat → Nat → ℚ)
    (hlen : ∀ a i, (g a i).length = a.length)
    (hstep : ∀ a i r, r < a.length → (g a i).getD r 0 = a.getD r 0 + c i r)
    (l : List Nat) :
    ∀ (arr : List ℚ) (r : Nat), r < arr.length →
      (l.foldl g arr).getD r 0 = arr.getD r 0 + (l.map (fun i => c i r)).sum := by
  induction l with
  | nil => intro arr r _; simp
  | cons i l ih =>
    intro arr r hr
    simp only [List.foldl_cons, List.map_cons, List.sum_cons]
    rw [ih _ r (by rw [hlen]; exact hr), hstep _ _ _ hr]
    ring

theorem foldl_rows_length (g : List ℚ → Nat → List ℚ)
    (hlen : ∀ a i, (g a i).length = a.length) (l : List Nat) :
    ∀ (arr : List ℚ), (l.foldl g arr).length = arr.length := by
  induction l with
  | nil => intro arr; rfl
  | cons i l ih => intro arr; simp only [List.foldl_cons]; rw [ih, hlen]

theorem sum_map_comm {α β : Type} (f : α → β → ℚ) (l1 : List α) (l2 : List β) :
    (l1.map (fun a => (l2.map (fun b => f a b)).sum)).sum
      = (l2.map (fun b => (l1.map (fun a => f a b)).sum)).sum := by
  induction l1 with
  | nil => simp
  | cons a l1 ih =>
    simp only [List.map_cons, List.sum_cons]
    rw [ih, ← List.sum_map_add]

theorem sum_range_indicator (n j : Nat) (g : Nat → ℚ) :
    ((List.range n).map (fun r => if j = r then g r else 0)).sum = if j < n then g j else 0 := by
  induction n with
  | zero => simp
  | succ n ih =>
    rw [List.range_succ, List.map_append, List.sum_append, ih]
    by_cases h : j < n
    · have : j ≠ n := Nat.ne_of_lt h
      simp [h, this, Nat.lt_succ_of_lt h]
    · by_cases h2 : j = n
      · subst h2; simp
      · have : ¬ j < n + 1 := by omega
        simp [h, h2, this]
theorem sum_map_neg_eq {α : Type} (f : α → ℚ) (l : List α) :
    (l.map (fun a => -f a)).sum = -(l.map f).sum := by
  induction l with
  | nil => simp
  | cons a l ih => simp only [List.map_cons, List.sum_cons, ih]; ring

theorem sum_map_mul_const {α : Type} (f : α → ℚ) (c : ℚ) (l : List α) :
    (l.map (fun a => f a * c)).sum = (l.map f).sum * c := by
  induction l with
  | nil => simp
  | cons a l ih => simp only [List.map_cons, List.sum_cons, ih]; ring

theorem residualStep_length (nla : HSimplexNla) (t : Bool) (sol : HVector) (a : List ℚ)
    (i : Nat) : (residualStep nla t sol a i).length = a.length := by
  unfold residualStep
  simp only [sub_eq_add_neg]
  cases t <;> simp only [Bool.false_eq_true, if_true, if_false] <;> split
  · exact foldl_scatter_length _ (fun iEl => -(sol.array.getD i 0 * nla.lp_.a_matrix_.value_.getD iEl 0)) _ _
  · simp
  · exact foldl_scatter_length (fun _ => i) (fun iEl => -(sol.array.getD (nla.lp_.a_matrix_.index_.getD iEl 0) 0 * nla.lp_.a_matrix_.value_.getD iEl 0)) _ _
  · simp

theorem residualStep_false_getD (nla : HSimplexNla) (sol : HVector) (a : List ℚ)
    (i r : Nat) (hr : r < a.length) :
    (residualStep nla false sol a i).getD r 0
      = a.getD r 0 + -(basisEntry nla r i * sol.array.getD i 0) := by
  unfold residualStep basisEntry
  simp only [sub_eq_add_neg, Bool.false_eq_true, if_false]
  split
  · rw [foldl_scatter_getD (fun iEl => nla.lp_.a_matrix_.index_.getD iEl 0)
      (fun iEl => -(sol.array.getD i 0 * nla.lp_.a_matrix_.value_.getD iEl 0)) _ _ _ hr]
    congr 1
    rw [← sum_map_mul_const, ← sum_map_neg_eq]
    congr 1
    apply List.map_congr_left
    intro k _
    by_cases h : nla.lp_.a_matrix_.index_.getD k 0 = r
    · rw [if_pos h, if_pos h]; ring
    · rw [if_neg h, if_neg h]; ring
  · rw [getD_set_eq]
    by_cases h : nla.base_index_.getD i 0 - nla.lp_.num_col_ = r
    · rw [if_pos ⟨h, by rw [h]; exact hr⟩, if_pos h, h]; ring
    · rw [if_neg (fun hh => h hh.1), if_neg h]; ring
theorem getD_of_length_le (l : List ℚ) (j : Nat) (h : l.length ≤ j) : l.getD j 0 = 0 := by
  rw [List.getD_eq_getElem?_getD, List.getElem?_eq_none h]
  rfl

/-- The dot product of column `i` of the basis matrix with a vector, as the
transposed loops accumulate it. -/
theorem basisMulT_eq (nla : HSimplexNla) (y : List ℚ) (i : Nat)
    (hy : y.length ≤ nla.lp_.num_row_) :
    basisMulT nla y i =
      if nla.base_index_.getD i 0 < nla.lp_.num_col_ then
        ((colEntries nla.lp_.a_matrix_ (nla.base_index_.getD i 0)).map
          (fun k => y.getD (nla.lp_.a_matrix_.index_.getD k 0) 0
            * nla.lp_.a_matrix_.value_.getD k 0)).sum
      else y.getD (nla.base_index_.getD i 0 - nla.lp_.num_col_) 0 := by
  unfold basisMulT basisEntry
  by_cases hc : nla.base_index_.getD i 0 < nla.lp_.num_col_
  · simp only [if_pos hc, ← sum_map_mul_const]
    rw [sum_map_comm]
    apply congrArg
    apply List.map_congr_left
    intro k _
    have h1 : ∀ r, (if nla.lp_.a_matrix_.index_.getD k 0 = r
        then nla.lp_.a_matrix_.value_.getD k 0 else 0) * y.getD r 0
        = if nla.lp_.a_matrix_.index_.getD k 0 = r
          then nla.lp_.a_matrix_.value_.getD k 0 * y.getD r 0 else 0 := by
      intro r; split <;> ring
    simp only [h1]
    rw [sum_range_indicator _ _ (fun r => nla.lp_.a_matrix_.value_.getD k 0 * y.getD r 0)]
    split
    · ring
    · rw [getD_of_length_le y _ (by omega)]; ring
  · have h1 : ∀ r, (if nla.base_index_.getD i 0 - nla.lp_.num_col_ = r then (1 : ℚ) else 0)
        * y.getD r 0
        = if nla.base_index_.getD i 0 - nla.lp_.num_col_ = r then y.getD r 0 else 0 := by
      intro r; split <;> ring
    simp only [if_neg hc, h1]
    rw [sum_range_indicator _ _ (fun r => y.getD r 0)]
    split
    · rfl
    · rw [getD_of_length_le y _ (by omega)]

theorem residualStep_true_getD (nla : HSimplexNla) (sol : HVector) (a : List ℚ)
    (i r : Nat) (hr : r < a.length) (hsol : sol.array.length ≤ nla.lp_.num_row_) :
    (residualStep nla true sol a i).getD r 0
      = a.getD r 0 + (if i = r then -(basisMulT nla sol.array i) else 0) := by
  rw [basisMulT_eq nla sol.array i hsol]
  unfold residualStep
  simp only [sub_eq_add_neg, if_true]
  split
  · rw [foldl_scatter_getD (fun _ => i)
      (fun iEl => -(sol.array.getD (nla.lp_.a_matrix_.index_.getD iEl 0) 0
        * nla.lp_.a_matrix_.value_.getD iEl 0)) _ _ _ hr]
    congr 1
    by_cases h : i = r
    · simp only [h, if_true]
      rw [sum_map_neg_eq]
    · simp only [h, if_false]
      simp
  · rw [getD_set_eq]
    by_cases h : i = r
    · rw [if_pos ⟨h, by rw [h]; exact hr⟩, if_pos h, h]
    · rw [if_neg (fun hh => h hh.1), if_neg h]; ring

/-- The non-transposed pass of `debugResidualError` subtracts `B·y`. -/
theorem residual_false_getD (nla : HSimplexNla) (sol residual : HVector) (r : Nat)
    (hr : r < residual.array.length) :
    (debugResidualError nla false sol residual).2.array.getD r 0
      = residual.array.getD r 0 - basisMul nla sol.array r := by
  unfold debugResidualError basisMul
  simp only
  rw [foldl_rows_getD (residualStep nla false sol)
    (fun i r => -(basisEntry nla r i * sol.array.getD i 0))
    (fun a i => residualStep_length nla false sol a i)
    (fun a i r hr => residualStep_false_getD nla sol a i r hr) _ _ _ hr]
  rw [sum_map_neg_eq]
  ring

/-- The transposed pass of `debugResidualError` subtracts `Bᵀ·y`. -/
theorem residual_true_getD (nla : HSimplexNla) (sol residual : HVector) (r : Nat)
    (hr : r < residual.array.length) (hsol : sol.array.length ≤ nla.lp_.num_row_) :
    (debugResidualError nla true sol residual).2.array.getD r 0
      = residual.array.getD r 0 - (if r < nla.lp_.num_row_ then basisMulT nla sol.array r else 0) := by
  unfold debugResidualError
  simp only
  rw [foldl_rows_getD (residualStep nla true sol)
    (fun i r => if i = r then -(basisMulT nla sol.array i) else 0)
    (fun a i => residualStep_length nla true sol a i)
    (fun a i r hr => residualStep_true_getD nla sol a i r hr hsol) _ _ _ hr]
  have h := sum_range_indicator nla.lp_.num_row_ r (fun i => -(basisMulT nla sol.array i))
  have h2 : ((List.range nla.lp_.num_row_).map
      (fun i => if i = r then -(basisMulT nla sol.array i) else 0))
      = ((List.range nla.lp_.num_row_).map
      (fun i => if r = i then -(basisMulT nla sol.array i) else 0)) := by
    apply List.map_congr_left
    intro i _
    by_cases hi : i = r
    · rw [if_pos hi, if_pos hi.symm]
    · rw [if_neg hi, if_neg (fun hh => hi hh.symm)]
  rw [h2, h]
  split <;> ring

theorem residual_length (nla : HSimplexNla) (t : Bool) (sol residual : HVector) :
    (debugResidualError nla t sol residual).2.array.length = residual.array.length := by
  unfold debugResidualError
  exact foldl_rows_length _ (fun a i => residualStep_length nla t sol a i) _ _

/-- A running maximum of absolute values, started at `0`, is their maximum. -/
theorem foldl_max_isMaxAbs (v : Nat → ℚ) (n : Nat) :
    IsMaxAbs n v ((List.range n).foldl (fun norm r => max |v r| norm) 0) := by
  induction n with
  | zero => exact ⟨fun _ => rfl, fun r hr => absurd hr (Nat.not_lt_zero r), fun h => absurd h (Nat.lt_irrefl 0)⟩
  | succ n ih =>
    rw [List.range_succ, List.foldl_append]
    simp only [List.foldl_cons, List.foldl_nil]
    obtain ⟨h0, hle, hex⟩ := ih
    refine ⟨fun h => absurd h (Nat.succ_ne_zero n), ?_, ?_⟩
    · intro r hr
      by_cases hrn : r < n
      · exact le_trans (hle r hrn) (le_max_right _ _)
      · have : r = n := by omega
        subst this
        exact le_max_left _ _
    · intro _
      by_cases hle2 : (List.range n).foldl (fun norm r => max |v r| norm) 0 ≤ |v n|
      · exact ⟨n, Nat.lt_succ_self n, max_eq_left hle2⟩
      · have hlt := lt_of_not_le hle2
        rw [max_eq_right (le_of_lt hlt)]
        by_cases hn : n = 0
        · exfalso
          rw [h0 hn] at hlt
          exact absurd hlt (not_lt.mpr (abs_nonneg _))
        · obtain ⟨r, hr, heq⟩ := hex (Nat.pos_of_ne_zero hn)
          exact ⟨r, Nat.lt_succ_of_lt hr, heq⟩

theorem maxAbsNorm_isMaxAbs (n : Nat) (array : List ℚ) :
    IsMaxAbs n (fun r => array.getD r 0) (maxAbsNorm n array) :=
  foldl_max_isMaxAbs (fun r => array.getD r 0) n
theorem primalRhsStep_fst (nla : HSimplexNla) (random : Nat → ℚ) (s : HVector × HVector)
    (i : Nat) :
    (primalRhsStep nla random s i).1 = { s.1 with array := s.1.array.set i (random i) } := by
  unfold primalRhsStep
  simp only
  split <;> rfl

theorem primalRhsStep_snd_array (nla : HSimplexNla) (random : Nat → ℚ)
    (s : HVector × HVector) (i : Nat) :
    (primalRhsStep nla random s i).2.array = primalArrayStep nla random s.2.array i := by
  unfold primalRhsStep primalArrayStep
  simp only
  split <;> rfl

theorem primalRhsStep_snd_size (nla : HSimplexNla) (random : Nat → ℚ)
    (s : HVector × HVector) (i : Nat) :
    (primalRhsStep nla random s i).2.size = s.2.size := by
  unfold primalRhsStep
  simp only
  split <;> rfl

theorem foldl_primal_fst (nla : HSimplexNla) (random : Nat → ℚ) (l : List Nat) :
    ∀ s : HVector × HVector,
      (l.foldl (primalRhsStep nla random) s).1
        = { s.1 with array := l.foldl (fun a i => a.set i (random i)) s.1.array } := by
  induction l with
  | nil => intro s; rfl
  | cons i l ih => intro s; simp only [List.foldl_cons]; rw [ih, primalRhsStep_fst]

theorem foldl_primal_snd_array (nla : HSimplexNla) (random : Nat → ℚ) (l : List Nat) :
    ∀ s : HVector × HVector,
      (l.foldl (primalRhsStep nla random) s).2.array
        = l.foldl (primalArrayStep nla random) s.2.array := by
  induction l with
  | nil => intro s; rfl
  | cons i l ih => intro s; simp only [List.foldl_cons]; rw [ih, primalRhsStep_snd_array]

theorem foldl_primal_snd_size (nla : HSimplexNla) (random : Nat → ℚ) (l : List Nat) :
    ∀ s : HVector × HVector, (l.foldl (primalRhsStep nla random) s).2.size = s.2.size := by
  induction l with
  | nil => intro s; rfl
  | cons i l ih => intro s; simp only [List.foldl_cons]; rw [ih, primalRhsStep_snd_size]

theorem primalArrayStep_length (nla : HSimplexNla) (random : Nat → ℚ) (a : List ℚ) (i : Nat) :
    (primalArrayStep nla random a i).length = a.length := by
  unfold primalArrayStep
  split
  · exact foldl_scatter_length _ (fun iEl => random i * nla.lp_.a_matrix_.value_.getD iEl 0) _ _
  · simp

theorem primalArrayStep_getD (nla : HSimplexNla) (random : Nat → ℚ) (a : List ℚ)
    (i r : Nat) (hr : r < a.length) :
    (primalArrayStep nla random a i).getD r 0 = a.getD r 0 + basisEntry nla r i * random i := by
  unfold primalArrayStep basisEntry
  simp only
  split
  · rw [foldl_scatter_getD (fun iEl => nla.lp_.a_matrix_.index_.getD iEl 0)
      (fun iEl => random i * nla.lp_.a_matrix_.value_.getD iEl 0) _ _ _ hr]
    congr 1
    rw [← sum_map_mul_const]
    congr 1
    apply List.map_congr_left
    intro k _
    by_cases h : nla.lp_.a_matrix_.index_.getD k 0 = r
    · rw [if_pos h, if_pos h]; ring
    · rw [if_neg h, if_neg h]; ring
  · rw [getD_set_eq]
    by_cases h : nla.base_index_.getD i 0 - nla.lp_.num_col_ = r
    · rw [if_pos ⟨h, by rw [h]; exact hr⟩, if_pos h, h]; ring
    · rw [if_neg (fun hh => h hh.1), if_neg h]; ring

theorem getD_replicate_zero (n r : Nat) : (List.replicate n (0 : ℚ)).getD r 0 = 0 := by
  by_cases h : r < n
  · rw [List.getD_eq_getElem?_getD, List.getElem?_replicate_of_lt h]; rfl
  · exact getD_of_length_le _ _ (by simp; omega)

/-- Writing `random i` at each position `i` of the list `l` in turn. -/
theorem foldl_set_random_getD (random : Nat → ℚ) (n : Nat) :
    ∀ (a : List ℚ) (r : Nat), a.length = n → r < n →
      ((List.range n).foldl (fun a i => a.set i (random i)) a).getD r 0 = random r := by
  have key : ∀ (k : Nat) (a : List ℚ) (r : Nat), r < a.length →
      ((List.range k).foldl (fun a i => a.set i (random i)) a).getD r 0
        = if r < k then random r else a.getD r 0 := by
    intro k
    induction k with
    | zero => intro a r _; simp
    | succ k ih =>
      intro a r hr
      rw [List.range_succ, List.foldl_append]
      simp only [List.foldl_cons, List.foldl_nil]
      have hlen : ((List.range k).foldl (fun a i => a.set i (random i)) a).length = a.length := by
        clear ih hr
        induction (List.range k) generalizing a with
        | nil => rfl
        | cons i l ih2 => simp only [List.foldl_cons]; rw [ih2]; simp
      rw [getD_set_eq, ih a r hr, hlen]
      by_cases h1 : k = r
      · subst h1; simp [hr]
      · by_cases h2 : r < k
        · have : r < k + 1 := by omega
          simp [h1, h2, this]
        · have : ¬ r < k + 1 := by omega
          simp [h1, h2, this]
  intro a r ha hr
  rw [key n a r (by omega), if_pos hr]

theorem foldl_set_random_length (random : Nat → ℚ) (l : List Nat) :
    ∀ (a : List ℚ), (l.foldl (fun a i => a.set i (random i)) a).length = a.length := by
  induction l with
  | nil => intro a; rfl
  | cons i l ih => intro a; simp only [List.foldl_cons]; rw [ih]; simp

theorem transposedRhsStep_array (nla : HSimplexNla) (column rhs : HVector) (i : Nat) :
    (transposedRhsStep nla column rhs i).array = transposedArrayStep nla column rhs.array i := by
  unfold transposedRhsStep transposedArrayStep
  simp only
  split <;> rfl

theorem foldl_transposed_array (nla : HSimplexNla) (column : HVector) (l : List Nat) :
    ∀ rhs : HVector,
      (l.foldl (transposedRhsStep nla column) rhs).array
        = l.foldl (transposedArrayStep nla column) rhs.array := by
  induction l with
  | nil => intro s; rfl
  | cons i l ih => intro s; simp only [List.foldl_cons]; rw [ih, transposedRhsStep_array]

theorem transposedArrayStep_length (nla : HSimplexNla) (column : HVector) (a : List ℚ)
    (i : Nat) : (transposedArrayStep nla column a i).length = a.length := by
  unfold transposedArrayStep
  split
  · exact foldl_scatter_length (fun _ => i)
      (fun iEl => column.array.getD (nla.lp_.a_matrix_.index_.getD iEl 0) 0
        * nla.lp_.a_matrix_.value_.getD iEl 0) _ _
  · simp

theorem transposedArrayStep_getD (nla : HSimplexNla) (column : HVector) (a : List ℚ)
    (i r : Nat) (hr : r < a.length) (hcol : column.array.length ≤ nla.lp_.num_row_) :
    (transposedArrayStep nla column a i).getD r 0
      = a.getD r 0 + (if i = r then basisMulT nla column.array i else 0) := by
  rw [basisMulT_eq nla column.array i hcol]
  unfold transposedArrayStep
  split
  · rw [foldl_scatter_getD (fun _ => i)
      (fun iEl => column.array.getD (nla.lp_.a_matrix_.index_.getD iEl 0) 0
        * nla.lp_.a_matrix_.value_.getD iEl 0) _ _ _ hr]
    congr 1
    by_cases h : i = r
    · simp only [h, if_true]
    · simp only [h, if_false]
      simp
  · rw [getD_set_eq]
    by_cases h : i = r
    · rw [if_pos ⟨h, by rw [h]; exact hr⟩, if_pos h, h]
    · rw [if_neg (fun hh => h hh.1), if_neg h]; ring
/-! ### The randomized probes -/

theorem probes_column (nla : HSimplexNla) (random : Nat → ℚ) (force : Bool) :
    (randomProbes nla random force).column
      = { size := nla.lp_.num_row_, count := -1,
          index := List.replicate nla.lp_.num_row_ 0,
          array := (List.range nla.lp_.num_row_).foldl (fun a i => a.set i (random i))
            (List.replicate nla.lp_.num_row_ 0),
          packFlag := false } := by
  unfold randomProbes
  simp only [foldl_primal_fst]
  rfl

theorem probes_column_length (nla : HSimplexNla) (random : Nat → ℚ) (force : Bool) :
    (randomProbes nla random force).column.array.length = nla.lp_.num_row_ := by
  rw [probes_column]
  simp only [foldl_set_random_length, List.length_replicate]

theorem probes_column_size (nla : HSimplexNla) (random : Nat → ℚ) (force : Bool) :
    (randomProbes nla random force).column.size = nla.lp_.num_row_ := by
  rw [probes_column]

theorem probes_column_getD (nla : HSimplexNla) (random : Nat → ℚ) (force : Bool) (r : Nat)
    (hr : r < nla.lp_.num_row_) :
    (randomProbes nla random force).column.array.getD r 0 = random r := by
  rw [probes_column]
  exact foldl_set_random_getD random _ _ r (by simp) hr

theorem probes_primal_rhs_array (nla : HSimplexNla) (random : Nat → ℚ) (force : Bool) :
    (randomProbes nla random force).primal_rhs.array
      = (List.range nla.lp_.num_row_).foldl (primalArrayStep nla random)
          (List.replicate nla.lp_.num_row_ 0) := by
  unfold randomProbes
  simp only [foldl_primal_snd_array]
  rfl

theorem probes_primal_rhs_length (nla : HSimplexNla) (random : Nat → ℚ) (force : Bool) :
    (randomProbes nla random force).primal_rhs.array.length = nla.lp_.num_row_ := by
  rw [probes_primal_rhs_array,
    foldl_rows_length _ (fun a i => primalArrayStep_length nla random a i)]
  simp

theorem probes_primal_rhs_size (nla : HSimplexNla) (random : Nat → ℚ) (force : Bool) :
    (randomProbes nla random force).primal_rhs.size = nla.lp_.num_row_ := by
  unfold randomProbes
  simp only [foldl_primal_snd_size]
  rfl

theorem basisMul_congr (nla : HSimplexNla) (y z : List ℚ) (r : Nat)
    (h : ∀ i, i < nla.lp_.num_row_ → y.getD i 0 = z.getD i 0) :
    basisMul nla y r = basisMul nla z r := by
  unfold basisMul
  apply congrArg
  apply List.map_congr_left
  intro i hi
  rw [h i (List.mem_range.mp hi)]

theorem basisMulT_congr (nla : HSimplexNla) (y z : List ℚ) (r : Nat)
    (h : ∀ i, i < nla.lp_.num_row_ → y.getD i 0 = z.getD i 0) :
    basisMulT nla y r = basisMulT nla z r := by
  unfold basisMulT
  apply congrArg
  apply List.map_congr_left
  intro i hi
  rw [h i (List.mem_range.mp hi)]

/-- The right-hand side of the primal probe is `B·x`, `x` being the random vector. -/
theorem probes_primal_rhs_getD (nla : HSimplexNla) (random : Nat → ℚ) (force : Bool) (r : Nat)
    (hr : r < nla.lp_.num_row_) :
    (randomProbes nla random force).primal_rhs.array.getD r 0
      = basisMul nla (randomProbes nla random force).column.array r := by
  rw [probes_primal_rhs_array,
    foldl_rows_getD (primalArrayStep nla random) (fun i r => basisEntry nla r i * random i)
      (fun a i => primalArrayStep_length nla random a i)
      (fun a i r hr => primalArrayStep_getD nla random a i r hr) _ _ _ (by simpa using hr),
    getD_replicate_zero, zero_add]
  unfold basisMul
  apply congrArg
  apply List.map_congr_left
  intro i hi
  rw [probes_column_getD nla random force i (List.mem_range.mp hi)]

theorem probes_primal_solution (nla : HSimplexNla) (random : Nat → ℚ) (force : Bool) :
    (randomProbes nla random force).primal_solution
      = nla.ftran (randomProbes nla random force).primal_rhs 1 := rfl

theorem probes_primal (nla : HSimplexNla) (random : Nat → ℚ) (force : Bool) :
    (randomProbes nla random force).primal
      = debugReportError nla false (randomProbes nla random force).column
          (randomProbes nla random force).primal_solution
          (randomProbes nla random force).primal_rhs force := rfl

theorem probes_transposed_solution (nla : HSimplexNla) (random : Nat → ℚ) (force : Bool) :
    (randomProbes nla random force).transposed_solution
      = nla.btran (randomProbes nla random force).transposed_rhs 1 := rfl

theorem probes_transposed (nla : HSimplexNla) (random : Nat → ℚ) (force : Bool) :
    (randomProbes nla random force).transposed
      = debugReportError nla true (randomProbes nla random force).column
          (randomProbes nla random force).transposed_solution
          (randomProbes nla random force).transposed_rhs force := rfl

theorem probes_transposed_rhs_array (nla : HSimplexNla) (random : Nat → ℚ) (force : Bool) :
    (randomProbes nla random force).transposed_rhs.array
      = (List.range nla.lp_.num_row_).foldl
          (transposedArrayStep nla (randomProbes nla random force).column)
          (List.replicate (randomProbes nla random force).primal_solution.size 0) := by
  unfold randomProbes
  simp only [foldl_transposed_array]
  rfl

/-- The right-hand side of the transposed probe is `Bᵀ·x`, `x` being the random
vector of the primal probe. -/
theorem probes_transposed_rhs_getD (nla : HSimplexNla) (random : Nat → ℚ) (force : Bool)
    (hsize : OracleKeepsSize nla) (r : Nat) (hr : r < nla.lp_.num_row_) :
    (randomProbes nla random force).transposed_rhs.array.getD r 0
      = basisMulT nla (randomProbes nla random force).column.array r := by
  have hs : (randomProbes nla random force).primal_solution.size = nla.lp_.num_row_ := by
    rw [probes_primal_solution, (hsize _ _).1.1, probes_primal_rhs_size]
  rw [probes_transposed_rhs_array, hs,
    foldl_rows_getD (transposedArrayStep nla (randomProbes nla random force).column)
      (fun i r => if i = r then basisMulT nla (randomProbes nla random force).column.array i else 0)
      (fun a i => transposedArrayStep_length nla _ a i)
      (fun a i r hr => transposedArrayStep_getD nla _ a i r hr
        (le_of_eq (probes_column_length nla random force))) _ _ _ (by simpa using hr),
    getD_replicate_zero, zero_add]
  have h2 : ((List.range nla.lp_.num_row_).map
      (fun i => if i = r then basisMulT nla (randomProbes nla random force).column.array i else 0))
      = ((List.range nla.lp_.num_row_).map
      (fun i => if r = i then basisMulT nla (randomProbes nla random force).column.array i else 0)) := by
    apply List.map_congr_left
    intro i _
    by_cases hi : i = r
    · rw [if_pos hi, if_pos hi.symm]
    · rw [if_neg hi, if_neg (fun hh => hi hh.symm)]
  rw [h2, sum_range_indicator _ _ (fun i => basisMulT nla (randomProbes nla random force).column.array i),
    if_pos hr]

theorem probes_transposed_rhs_length (nla : HSimplexNla) (random : Nat → ℚ) (force : Bool)
    (hsize : OracleKeepsSize nla) :
    (randomProbes nla random force).transposed_rhs.array.length = nla.lp_.num_row_ := by
  have hs : (randomProbes nla random force).primal_solution.size = nla.lp_.num_row_ := by
    rw [probes_primal_solution, (hsize _ _).1.1, probes_primal_rhs_size]
  rw [probes_transposed_rhs_array, hs,
    foldl_rows_length _ (fun a i => transposedArrayStep_length nla _ a i)]
  simp

/-! ### The report -/

theorem report_solve_error_norm (nla : HSimplexNla) (t : Bool) (ts sol res : HVector)
    (force : Bool) :
    IsMaxAbs nla.lp_.num_row_ (fun r => sol.array.getD r 0 - ts.array.getD r 0)
      (debugReportError nla t ts sol res force).solve_error_norm :=
  foldl_max_isMaxAbs (fun r => sol.array.getD r 0 - ts.array.getD r 0) nla.lp_.num_row_

theorem report_residual_error_norm (nla : HSimplexNla) (t : Bool) (ts sol res : HVector)
    (force : Bool) :
    (debugReportError nla t ts sol res force).residual_error_norm
      = (debugResidualError nla t sol res).1 := rfl

/-- The status returned by `debugReportError` as a function of the residual norm. -/
theorem report_status (nla : HSimplexNla) (t : Bool) (ts sol res : HVector) (force : Bool) :
    (debugReportError nla t ts sol res force).return_status
      = if (debugReportError nla t ts sol res force).residual_error_norm > kResidualExcessiveError
          then HighsDebugStatus.kError
        else if (debugReportError nla t ts sol res force).residual_error_norm > kResidualLargeError
          then HighsDebugStatus.kWarning
        else HighsDebugStatus.kOk := by
  simp only [debugReportError]
  by_cases h0 : (debugResidualError nla t sol res).1 = 0
  · rw [if_neg (not_not.mpr h0), h0]
    rw [if_neg (by unfold kResidualExcessiveError; norm_num),
      if_neg (by unfold kResidualLargeError; norm_num)]
  · rw [if_pos h0]
    split
    · rfl
    · split <;> rfl

theorem isMaxAbs_congr (n : Nat) (v w : Nat → ℚ) (norm : ℚ)
    (h : ∀ r, r < n → v r = w r) (hv : IsMaxAbs n v norm) : IsMaxAbs n w norm := by
  obtain ⟨h0, hle, hex⟩ := hv
  refine ⟨h0, ?_, ?_⟩
  · intro r hr
    rw [← h r hr]
    exact hle r hr
  · intro hn
    obtain ⟨r, hr, heq⟩ := hex hn
    exact ⟨r, hr, by rw [← h r hr]; exact heq⟩

theorem isMaxAbs_zero (n : Nat) (v : Nat → ℚ) (norm : ℚ) (hv : IsMaxAbs n v norm)
    (h : ∀ r, r < n → v r = 0) : norm = 0 := by
  obtain ⟨h0, _, hex⟩ := hv
  by_cases hn : n = 0
  · exact h0 hn
  · obtain ⟨r, hr, heq⟩ := hex (Nat.pos_of_ne_zero hn)
    rw [heq, h r hr, abs_zero]


/-! ## Lemmas on the reports and on the whole check -/

theorem checkInvert_gated (nla : HSimplexNla) (random : Nat → ℚ) (alt : Int)
    (h : useDebugLevel nla alt < kHighsDebugLevelCostly) :
    debugCheckInvert nla random alt
      = { return_status := HighsDebugStatus.kNotChecked, log := [], calls := [] } := by
  unfold debugCheckInvert
  simp only [if_pos h]

theorem checkInvert_costly (nla : HSimplexNla) (random : Nat → ℚ) (alt : Int)
    (h1 : kHighsDebugLevelCostly ≤ useDebugLevel nla alt)
    (h2 : useDebugLevel nla alt < kHighsDebugLevelExpensive) :
    (debugCheckInvert nla random alt).return_status
      = (randomProbes nla random (forceDebug nla alt)).transposed.return_status := by
  unfold debugCheckInvert
  simp only [if_neg (not_lt.mpr h1), if_pos h2]

theorem checkInvert_expensive (nla : HSimplexNla) (random : Nat → ℚ) (alt : Int)
    (h2 : kHighsDebugLevelExpensive ≤ useDebugLevel nla alt) :
    (debugCheckInvert nla random alt).return_status
      = (inverseReport (forceDebug nla alt)
          (randomProbes nla random (forceDebug nla alt)).transposed.return_status
          (inverseLoop nla (randomProbes nla random (forceDebug nla alt)).column).inverse_error_norm
          (inverseLoop nla (randomProbes nla random (forceDebug nla alt)).column).residual_error_norm).1 := by
  have h1 : ¬ useDebugLevel nla alt < kHighsDebugLevelCostly := by
    unfold kHighsDebugLevelCostly
    unfold kHighsDebugLevelExpensive at h2
    omega
  unfold debugCheckInvert
  simp only [if_neg h1, if_neg (not_lt.mpr h2)]


theorem inverseReport_status (force : Bool) (st : HighsDebugStatus) (e q : ℚ) :
    (inverseReport force st e q).1
      = if q > kResidualExcessiveError then HighsDebugStatus.kError
        else if q > kResidualLargeError then HighsDebugStatus.kWarning
        else st := by
  simp only [inverseReport]
  by_cases h0 : q = 0
  · rw [if_neg (not_not.mpr h0), h0]
    rw [if_neg (by unfold kResidualExcessiveError; norm_num),
      if_neg (by unfold kResidualLargeError; norm_num)]
  · rw [if_pos h0]
    split
    · rfl
    · split <;> rfl

theorem report_status_force (nla : HSimplexNla) (t : Bool) (ts sol res : HVector)
    (force force' : Bool) :
    (debugReportError nla t ts sol res force).return_status
      = (debugReportError nla t ts sol res force').return_status := by
  rw [report_status, report_status nla t ts sol res force']
  rfl

theorem report_log_length (nla : HSimplexNla) (t : Bool) (ts sol res : HVector) (force : Bool) :
    (debugReportError nla t ts sol res force).log.length
      = [(debugReportError nla t ts sol res force).solve_error_norm,
          (debugReportError nla t ts sol res force).residual_error_norm].countP
            (fun m => decide (m ≠ 0)) := by
  unfold debugReportError
  simp only []
  generalize (List.range nla.lp_.num_row_).foldl
    (fun solve_error_norm iRow =>
      max |sol.array.getD iRow 0 - ts.array.getD iRow 0| solve_error_norm) 0 = sn
  generalize (debugResidualError nla t sol res).1 = rn
  by_cases hs : sn = 0 <;> by_cases hr : rn = 0 <;> simp [hs, hr]

theorem inverseReport_log_length (force : Bool) (st : HighsDebugStatus) (e q : ℚ) :
    (inverseReport force st e q).2.length = [e, q].countP (fun m => decide (m ≠ 0)) := by
  unfold inverseReport
  simp only []
  by_cases hs : e = 0 <;> by_cases hr : q = 0 <;> simp [hs, hr]

theorem probes_status_force (nla : HSimplexNla) (random : Nat → ℚ) (force force' : Bool) :
    (randomProbes nla random force).transposed.return_status
      = (randomProbes nla random force').transposed.return_status := by
  rw [probes_transposed, probes_transposed, report_status_force nla true _ _ _ force force']
  rfl

/-- The number of records `debugCheckInvert` logs when the check runs: one when
it is forced, and one for each nonzero magnitude. -/
theorem checkInvert_log_length (nla : HSimplexNla) (random : Nat → ℚ) (alt : Int)
    (h1 : kHighsDebugLevelCostly ≤ useDebugLevel nla alt) :
    (debugCheckInvert nla random alt).log.length
      = (if forceDebug nla alt = true then 1 else 0)
        + (computedMagnitudes nla random (useDebugLevel nla alt)).countP
            (fun m => decide (m ≠ 0)) := by
  unfold debugCheckInvert computedMagnitudes
  simp only [if_neg (not_lt.mpr h1)]
  have hp := report_log_length nla false (randomProbes nla random (forceDebug nla alt)).column
    (randomProbes nla random (forceDebug nla alt)).primal_solution
    (randomProbes nla random (forceDebug nla alt)).primal_rhs (forceDebug nla alt)
  have ht := report_log_length nla true (randomProbes nla random (forceDebug nla alt)).column
    (randomProbes nla random (forceDebug nla alt)).transposed_solution
    (randomProbes nla random (forceDebug nla alt)).transposed_rhs (forceDebug nla alt)
  rw [← probes_primal] at hp
  rw [← probes_transposed] at ht
  have e1 : (randomProbes nla random (forceDebug nla alt)).primal.solve_error_norm
      = (randomProbes nla random false).primal.solve_error_norm := rfl
  have e2 : (randomProbes nla random (forceDebug nla alt)).primal.residual_error_norm
      = (randomProbes nla random false).primal.residual_error_norm := rfl
  have e3 : (randomProbes nla random (forceDebug nla alt)).transposed.solve_error_norm
      = (randomProbes nla random false).transposed.solve_error_norm := rfl
  have e4 : (randomProbes nla random (forceDebug nla alt)).transposed.residual_error_norm
      = (randomProbes nla random false).transposed.residual_error_norm := rfl
  have e5 : (randomProbes nla random (forceDebug nla alt)).column
      = (randomProbes nla random false).column := rfl
  rw [e1, e2] at hp
  rw [e3, e4] at ht
  by_cases h2 : useDebugLevel nla alt < kHighsDebugLevelExpensive
  · simp only [if_pos h2, List.length_append, hp, ht, List.append_nil]
    by_cases hf : forceDebug nla alt = true
    · simp only [hf, if_true, List.length_singleton, List.countP_cons, List.countP_nil]
      ring
    · have hf' : forceDebug nla alt = false := by simpa using hf
      simp only [hf', Bool.false_eq_true, if_false, List.length_nil, List.countP_cons,
        List.countP_nil]
      ring
  · simp only [if_neg h2, List.length_append, hp, ht, inverseReport_log_length, e5]
    by_cases hf : forceDebug nla alt = true
    · simp only [hf, if_true, List.length_singleton, List.countP_cons, List.countP_nil,
        List.cons_append, List.nil_append]
      ring
    · have hf' : forceDebug nla alt = false := by simpa using hf
      simp only [hf', Bool.false_eq_true, if_false, List.length_nil, List.countP_cons,
        List.countP_nil, List.cons_append, List.nil_append]
      ring

/-- The status `debugCheckInvert` returns does not depend on the options but
through the level it runs at. -/
theorem checkInvert_status_level (nla : HSimplexNla) (options' : HighsOptions)
    (random : Nat → ℚ) (alt alt' : Int)
    (hlevel : useDebugLevel nla alt = useDebugLevel { nla with options_ := options' } alt') :
    (debugCheckInvert { nla with options_ := options' } random alt').return_status
      = (debugCheckInvert nla random alt).return_status := by
  by_cases h1 : useDebugLevel nla alt < kHighsDebugLevelCostly
  · rw [checkInvert_gated nla random alt h1,
      checkInvert_gated { nla with options_ := options' } random alt' (by rw [← hlevel]; exact h1)]
  · by_cases h2 : useDebugLevel nla alt < kHighsDebugLevelExpensive
    · rw [checkInvert_costly nla random alt (not_lt.mp h1) h2,
        checkInvert_costly { nla with options_ := options' } random alt'
          (by rw [← hlevel]; exact not_lt.mp h1) (by rw [← hlevel]; exact h2)]
      exact probes_status_force nla random _ _
    · rw [checkInvert_expensive nla random alt (not_lt.mp h2),
        checkInvert_expensive { nla with options_ := options' } random alt'
          (by rw [← hlevel]; exact not_lt.mp h2)]
      rw [inverseReport_status, inverseReport_status]
      have e : (randomProbes { nla with options_ := options' } random
          (forceDebug { nla with options_ := options' } alt')).transposed.return_status
          = (randomProbes nla random (forceDebug nla alt)).transposed.return_status :=
        probes_status_force nla random _ _
      rw [e]
      rfl

/-! ### The exact oracle -/

theorem sum_range_eq_sum_fin (n : Nat) (f : Nat → ℚ) :
    ((List.range n).map f).sum = ∑ i : Fin n, f i.val := by
  induction n with
  | zero => simp
  | succ n ih =>
    rw [List.range_succ, List.map_append, List.sum_append, ih, Fin.sum_univ_castSucc]
    simp

theorem mulVec_toVec (nla : HSimplexNla) (y : List ℚ) (r : Fin nla.lp_.num_row_) :
    (basisMatrix nla).mulVec (toVec nla.lp_.num_row_ y) r = basisMul nla y r.val := by
  unfold basisMul
  rw [sum_range_eq_sum_fin]
  rfl

theorem mulVec_transpose_toVec (nla : HSimplexNla) (y : List ℚ) (i : Fin nla.lp_.num_row_) :
    (Matrix.transpose (basisMatrix nla)).mulVec (toVec nla.lp_.num_row_ y) i
      = basisMulT nla y i.val := by
  unfold basisMulT
  rw [sum_range_eq_sum_fin]
  rfl

theorem basisMul_eq_of_exact (nla : HSimplexNla) (horacle : ExactOracle nla) (v : HVector)
    (d : ℚ) (hv : v.array.length = nla.lp_.num_row_) (r : Nat) (hr : r < nla.lp_.num_row_) :
    basisMul nla (nla.ftran v d).array r = v.array.getD r 0 := by
  have h := congrFun (horacle.1 v d hv) ⟨r, hr⟩
  rw [mulVec_toVec] at h
  exact h

theorem basisMulT_eq_of_exact (nla : HSimplexNla) (horacle : ExactOracle nla) (v : HVector)
    (d : ℚ) (hv : v.array.length = nla.lp_.num_row_) (r : Nat) (hr : r < nla.lp_.num_row_) :
    basisMulT nla (nla.btran v d).array r = v.array.getD r 0 := by
  have h := congrFun (horacle.2 v d hv) ⟨r, hr⟩
  rw [mulVec_transpose_toVec] at h
  exact h

/-- With an invertible basis matrix, `B·u = B·v` forces `u = v`. -/
theorem basisMul_injective (nla : HSimplexNla) (hinv : IsUnit (basisMatrix nla).det)
    (u v : List ℚ)
    (h : ∀ r, r < nla.lp_.num_row_ → basisMul nla u r = basisMul nla v r) :
    ∀ r, r < nla.lp_.num_row_ → u.getD r 0 = v.getD r 0 := by
  have hinj : Function.Injective (basisMatrix nla).mulVec :=
    Matrix.mulVec_injective_iff_isUnit.mpr ((Matrix.isUnit_iff_isUnit_det _).mpr hinv)
  have heq : (basisMatrix nla).mulVec (toVec nla.lp_.num_row_ u)
      = (basisMatrix nla).mulVec (toVec nla.lp_.num_row_ v) := by
    funext r
    rw [mulVec_toVec, mulVec_toVec]
    exact h r.val r.isLt
  intro r hr
  exact congrFun (hinj heq) ⟨r, hr⟩

/-- With an invertible basis matrix, `Bᵀ·u = Bᵀ·v` forces `u = v`. -/
theorem basisMulT_injective (nla : HSimplexNla) (hinv : IsUnit (basisMatrix nla).det)
    (u v : List ℚ)
    (h : ∀ r, r < nla.lp_.num_row_ → basisMulT nla u r = basisMulT nla v r) :
    ∀ r, r < nla.lp_.num_row_ → u.getD r 0 = v.getD r 0 := by
  have hdet : IsUnit (Matrix.transpose (basisMatrix nla)).det := by
    rw [Matrix.det_transpose]; exact hinv
  have hinj : Function.Injective (Matrix.transpose (basisMatrix nla)).mulVec :=
    Matrix.mulVec_injective_iff_isUnit.mpr ((Matrix.isUnit_iff_isUnit_det _).mpr hdet)
  have heq : (Matrix.transpose (basisMatrix nla)).mulVec (toVec nla.lp_.num_row_ u)
      = (Matrix.transpose (basisMatrix nla)).mulVec (toVec nla.lp_.num_row_ v) := by
    funext r
    rw [mulVec_transpose_toVec, mulVec_transpose_toVec]
    exact h r.val r.isLt
  intro r hr
  exact congrFun (hinj heq) ⟨r, hr⟩

/-- A report on an exact solution: both norms are zero, the status is `Ok` and
nothing is logged. -/
theorem report_of_zero (nla : HSimplexNla) (t : Bool) (ts sol res : HVector) (force : Bool)
    (hsolve : ∀ r, r < nla.lp_.num_row_ → sol.array.getD r 0 = ts.array.getD r 0)
    (hres : ∀ r, r < nla.lp_.num_row_ →
      (debugResidualError nla t sol res).2.array.getD r 0 = 0) :
    (debugReportError nla t ts sol res force).solve_error_norm = 0
    ∧ (debugReportError nla t ts sol res force).residual_error_norm = 0
    ∧ (debugReportError nla t ts sol res force).return_status = HighsDebugStatus.kOk
    ∧ (debugReportError nla t ts sol res force).log = [] := by
  have h1 : (debugReportError nla t ts sol res force).solve_error_norm = 0 :=
    isMaxAbs_zero _ _ _ (report_solve_error_norm nla t ts sol res force)
      (fun r hr => by rw [hsolve r hr]; ring)
  have h2 : (debugReportError nla t ts sol res force).residual_error_norm = 0 := by
    rw [report_residual_error_norm]
    exact isMaxAbs_zero _ _ _ (maxAbsNorm_isMaxAbs _ _) hres
  have h3 : (debugReportError nla t ts sol res force).return_status = HighsDebugStatus.kOk := by
    rw [report_status, h2]
    rw [if_neg (by unfold kResidualExcessiveError; norm_num),
      if_neg (by unfold kResidualLargeError; norm_num)]
  refine ⟨h1, h2, h3, ?_⟩
  rw [← List.length_eq_zero, report_log_length, h1, h2]
  simp

/-- The primal probe with an exact oracle. -/
theorem probes_primal_exact (nla : HSimplexNla) (random : Nat → ℚ) (force : Bool)
    (hinv : IsUnit (basisMatrix nla).det) (horacle : ExactOracle nla) :
    (randomProbes nla random force).primal.solve_error_norm = 0
    ∧ (randomProbes nla random force).primal.residual_error_norm = 0
    ∧ (randomProbes nla random force).primal.return_status = HighsDebugStatus.kOk
    ∧ (randomProbes nla random force).primal.log = [] := by
  rw [probes_primal]
  have hy : ∀ r, r < nla.lp_.num_row_ →
      basisMul nla (randomProbes nla random force).primal_solution.array r
        = (randomProbes nla random force).primal_rhs.array.getD r 0 := by
    intro r hr
    rw [probes_primal_solution]
    exact basisMul_eq_of_exact nla horacle _ _ (probes_primal_rhs_length nla random force) r hr
  apply report_of_zero
  · apply basisMul_injective nla hinv
    intro r hr
    rw [hy r hr, probes_primal_rhs_getD nla random force r hr]
  · intro r hr
    rw [residual_false_getD nla _ _ r (by rw [probes_primal_rhs_length]; exact hr), hy r hr]
    ring

/-- The transposed probe with an exact oracle. -/
theorem probes_transposed_exact (nla : HSimplexNla) (random : Nat → ℚ) (force : Bool)
    (hinv : IsUnit (basisMatrix nla).det) (horacle : ExactOracle nla)
    (hsize : OracleKeepsSize nla) :
    (randomProbes nla random force).transposed.solve_error_norm = 0
    ∧ (randomProbes nla random force).transposed.residual_error_norm = 0
    ∧ (randomProbes nla random force).transposed.return_status = HighsDebugStatus.kOk
    ∧ (randomProbes nla random force).transposed.log = [] := by
  rw [probes_transposed]
  have hz : ∀ r, r < nla.lp_.num_row_ →
      basisMulT nla (randomProbes nla random force).transposed_solution.array r
        = (randomProbes nla random force).transposed_rhs.array.getD r 0 := by
    intro r hr
    rw [probes_transposed_solution]
    exact basisMulT_eq_of_exact nla horacle _ _
      (probes_transposed_rhs_length nla random force hsize) r hr
  have hsol : ∀ r, r < nla.lp_.num_row_ →
      (randomProbes nla random force).transposed_solution.array.getD r 0
        = (randomProbes nla random force).column.array.getD r 0 := by
    apply basisMulT_injective nla hinv
    intro r hr
    rw [hz r hr, probes_transposed_rhs_getD nla random force hsize r hr]
  apply report_of_zero
  · exact hsol
  · intro r hr
    have hlen : (randomProbes nla random force).transposed_solution.array.length
        ≤ nla.lp_.num_row_ := by
      rw [probes_transposed_solution, (hsize _ _).2.2,
        probes_transposed_rhs_length nla random force hsize]
    rw [residual_true_getD nla _ _ r
      (by rw [probes_transposed_rhs_length nla random force hsize]; exact hr) hlen, if_pos hr,
      hz r hr]
    ring

/-! ### The exhaustive inverse probe -/

/-- A loop of assignments at pairwise different positions leaves, at a position
it visits, the value assigned there. -/
theorem foldl_assign_getD {κ : Type} (idx : κ → Nat) (val : κ → ℚ) (ks : List κ) :
    (ks.map idx).Nodup → ∀ (arr : List ℚ) (r : Nat), r < arr.length →
      (ks.foldl (fun a k => a.set (idx k) (val k)) arr).getD r 0
        = if r ∈ ks.map idx then (ks.map (fun k => if idx k = r then val k else 0)).sum
          else arr.getD r 0 := by
  induction ks with
  | nil => intro _ arr r _; simp
  | cons k ks ih =>
    intro hnd arr r hr
    rw [List.map_cons, List.nodup_cons] at hnd
    simp only [List.foldl_cons, List.map_cons, List.sum_cons, List.mem_cons]
    rw [ih hnd.2 _ r (by simpa using hr)]
    by_cases h : idx k = r
    · have hnot : r ∉ ks.map idx := by rw [← h]; exact hnd.1
      have hzero : (ks.map (fun k => if idx k = r then val k else 0)).sum = 0 := by
        apply List.sum_eq_zero
        intro x hx
        obtain ⟨k', hk', rfl⟩ := List.mem_map.mp hx
        have : idx k' ≠ r := fun hc => hnot (List.mem_map.mpr ⟨k', hk', hc⟩)
        rw [if_neg this]
      rw [if_neg hnot, if_pos (Or.inl h.symm), if_pos h, hzero, getD_set_eq,
        if_pos ⟨h, by rw [h]; exact hr⟩]
      ring
    · have hne : ¬ r = idx k := fun hc => h hc.symm
      by_cases hmem : r ∈ ks.map idx
      · rw [if_pos hmem, if_pos (Or.inr hmem), if_neg h]; ring
      · rw [if_neg hmem, if_neg (fun hc => hc.elim hne hmem), getD_set_eq,
          if_neg (fun hh => h hh.1)]

theorem foldl_assign_length {κ : Type} (idx : κ → Nat) (val : κ → ℚ) (ks : List κ) :
    ∀ (arr : List ℚ), (ks.foldl (fun a k => a.set (idx k) (val k)) arr).length = arr.length := by
  induction ks with
  | nil => intro arr; rfl
  | cons k ks ih => intro arr; simp only [List.foldl_cons]; rw [ih]; simp

theorem foldl_column_array (m : HighsSparseMatrix) (ks : List Nat) :
    ∀ c : HVector,
      (ks.foldl (fun (column : HVector) k =>
          { column with array := column.array.set (m.index_.getD k 0) (m.value_.getD k 0),
                        index := column.index.set column.count.toNat (m.index_.getD k 0),
                        count := column.count + 1 }) c).array
        = ks.foldl (fun a k => a.set (m.index_.getD k 0) (m.value_.getD k 0)) c.array := by
  induction ks with
  | nil => intro c; rfl
  | cons k ks ih => intro c; simp only [List.foldl_cons]; rw [ih]

theorem foldl_column_size (m : HighsSparseMatrix) (ks : List Nat) :
    ∀ c : HVector,
      (ks.foldl (fun (column : HVector) k =>
          { column with array := column.array.set (m.index_.getD k 0) (m.value_.getD k 0),
                        index := column.index.set column.count.toNat (m.index_.getD k 0),
                        count := column.count + 1 }) c).size = c.size := by
  induction ks with
  | nil => intro c; rfl
  | cons k ks ih => intro c; simp only [List.foldl_cons]; rw [ih]

theorem inverseColumn_size (nla : HSimplexNla) (c : HVector) (i : Nat) :
    (inverseColumn nla c i).size = c.size := by
  unfold inverseColumn
  simp only
  split
  · rw [foldl_column_size]; rfl
  · rfl

theorem inverseColumn_length (nla : HSimplexNla) (c : HVector) (i : Nat) :
    (inverseColumn nla c i).array.length = c.size := by
  unfold inverseColumn
  simp only
  split
  · rw [foldl_column_array, foldl_assign_length]; simp [HVector.clear]
  · simp [HVector.clear]

/-- For a column without repeated row index, the vector built at lines 122-136
is column `i` of the basis matrix. -/
theorem inverseColumn_getD (nla : HSimplexNla) (hwf : WellFormed nla) (c : HVector)
    (i r : Nat) (hr : r < c.size) :
    (inverseColumn nla c i).array.getD r 0 = basisEntry nla r i := by
  unfold inverseColumn basisEntry
  simp only
  split
  · rename_i hcol
    rw [foldl_column_array,
      foldl_assign_getD (fun k => nla.lp_.a_matrix_.index_.getD k 0)
        (fun k => nla.lp_.a_matrix_.value_.getD k 0) _ (hwf.2.2.2.2.2.1 _ hcol) _ r
        (by simpa [HVector.clear] using hr)]
    split
    · rfl
    · rename_i hnot
      have hzero : ((colEntries nla.lp_.a_matrix_ (nla.base_index_.getD i 0)).map
          (fun k => if nla.lp_.a_matrix_.index_.getD k 0 = r
            then nla.lp_.a_matrix_.value_.getD k 0 else 0)).sum = 0 := by
        apply List.sum_eq_zero
        intro x hx
        obtain ⟨k', hk', rfl⟩ := List.mem_map.mp hx
        have : nla.lp_.a_matrix_.index_.getD k' 0 ≠ r :=
          fun hc => hnot (List.mem_map.mpr ⟨k', hk', hc⟩)
        rw [if_neg this]
      rw [hzero]
      simp only [HVector.clear]
      exact getD_replicate_zero _ _
  · simp only [HVector.clear]
    rw [getD_set_eq, getD_replicate_zero]
    by_cases h : nla.base_index_.getD i 0 - nla.lp_.num_col_ = r
    · rw [if_pos ⟨h, by rw [h]; simpa using hr⟩, if_pos h]
    · rw [if_neg (fun hh => h hh.1), if_neg h]

theorem inverseColumnErrorNorm_isMaxAbs (n : Nat) (w : HVector) (i : Nat) :
    IsMaxAbs n (fun r => w.array.getD r 0 - (if r = i then 1 else 0))
      (inverseColumnErrorNorm n w i) :=
  foldl_max_isMaxAbs (fun r => w.array.getD r 0 - (if r = i then 1 else 0)) n

/-- One pass of the exhaustive probe with an exact oracle leaves both norms zero. -/
theorem inverseStep_exact (nla : HSimplexNla) (hwf : WellFormed nla)
    (hinv : IsUnit (basisMatrix nla).det) (horacle : ExactOracle nla)
    (hsize : OracleKeepsSize nla) (s : InverseState) (i : Nat) (hi : i < nla.lp_.num_row_)
    (hs : s.column.size = nla.lp_.num_row_ ∧ s.inverse_error_norm = 0
      ∧ s.residual_error_norm = 0) :
    (inverseStep nla s i).column.size = nla.lp_.num_row_
    ∧ (inverseStep nla s i).inverse_error_norm = 0
    ∧ (inverseStep nla s i).residual_error_norm = 0 := by
  obtain ⟨hs1, hs2, hs3⟩ := hs
  have hclen : (inverseColumn nla s.column i).array.length = nla.lp_.num_row_ := by
    rw [inverseColumn_length, hs1]
  have hcget : ∀ r, r < nla.lp_.num_row_ →
      (inverseColumn nla s.column i).array.getD r 0 = basisEntry nla r i :=
    fun r hr => inverseColumn_getD nla hwf s.column i r (by rw [hs1]; exact hr)
  have hw : ∀ r, r < nla.lp_.num_row_ →
      basisMul nla (nla.ftran (inverseColumn nla s.column i) 0).array r = basisEntry nla r i := by
    intro r hr
    rw [basisMul_eq_of_exact nla horacle _ _ hclen r hr, hcget r hr]
  have hunit : ∀ r, r < nla.lp_.num_row_ →
      (nla.ftran (inverseColumn nla s.column i) 0).array.getD r 0
        = ((List.replicate nla.lp_.num_row_ (0 : ℚ)).set i 1).getD r 0 := by
    apply basisMul_injective nla hinv
    intro r hr
    rw [hw r hr]
    unfold basisMul
    have h1 : ∀ j, basisEntry nla r j * ((List.replicate nla.lp_.num_row_ (0 : ℚ)).set i 1).getD j 0
        = if i = j then basisEntry nla r j else 0 := by
      intro j
      rw [getD_set_eq, getD_replicate_zero]
      by_cases hij : i = j
      · rw [if_pos ⟨hij, by simpa using hi⟩, if_pos hij]; ring
      · rw [if_neg (fun hh => hij hh.1), if_neg hij]; ring
    simp only [h1]
    rw [sum_range_indicator _ _ (fun j => basisEntry nla r j), if_pos hi]
  refine ⟨?_, ?_, ?_⟩
  · show (nla.ftran (inverseColumn nla s.column i) 0).size = nla.lp_.num_row_
    rw [(hsize _ _).1.1, inverseColumn_size, hs1]
  · show max (inverseColumnErrorNorm nla.lp_.num_row_
        (nla.ftran (inverseColumn nla s.column i) 0) i) s.inverse_error_norm = 0
    rw [hs2, isMaxAbs_zero _ _ _ (inverseColumnErrorNorm_isMaxAbs _ _ _) ?_]
    · exact max_self 0
    · intro r hr
      rw [hunit r hr, getD_set_eq, getD_replicate_zero]
      by_cases hir : i = r
      · rw [if_pos ⟨hir, by simpa using hi⟩, if_pos hir.symm]; ring
      · rw [if_neg (fun hh => hir hh.1), if_neg (fun hh => hir hh.symm)]; ring
  · show max (debugResidualError nla false (nla.ftran (inverseColumn nla s.column i) 0)
        (inverseColumn nla s.column i)).1 s.residual_error_norm = 0
    have hz : (debugResidualError nla false (nla.ftran (inverseColumn nla s.column i) 0)
        (inverseColumn nla s.column i)).1 = 0 := by
      refine isMaxAbs_zero nla.lp_.num_row_
        (fun r => (debugResidualError nla false (nla.ftran (inverseColumn nla s.column i) 0)
          (inverseColumn nla s.column i)).2.array.getD r 0) _ (maxAbsNorm_isMaxAbs _ _) ?_
      intro r hr
      show (debugResidualError nla false (nla.ftran (inverseColumn nla s.column i) 0)
        (inverseColumn nla s.column i)).2.array.getD r 0 = 0
      rw [residual_false_getD nla _ _ r (by rw [hclen]; exact hr), hw r hr, hcget r hr]
      ring
    rw [hs3, hz]
    exact max_self 0

theorem foldl_inverseStep_exact (nla : HSimplexNla) (hwf : WellFormed nla)
    (hinv : IsUnit (basisMatrix nla).det) (horacle : ExactOracle nla)
    (hsize : OracleKeepsSize nla) (l : List Nat) :
    (∀ i ∈ l, i < nla.lp_.num_row_) → ∀ s : InverseState,
      (s.column.size = nla.lp_.num_row_ ∧ s.inverse_error_norm = 0
        ∧ s.residual_error_norm = 0) →
      ((l.foldl (inverseStep nla) s).column.size = nla.lp_.num_row_
        ∧ (l.foldl (inverseStep nla) s).inverse_error_norm = 0
        ∧ (l.foldl (inverseStep nla) s).residual_error_norm = 0) := by
  induction l with
  | nil => intro _ s hs; exact hs
  | cons i l ih =>
    intro hl s hs
    simp only [List.foldl_cons]
    exact ih (fun j hj => hl j (List.mem_cons_of_mem _ hj)) _
      (inverseStep_exact nla hwf hinv horacle hsize s i (hl i (List.mem_cons_self _ _)) hs)

/-- The exhaustive probe with an exact oracle: both norms are zero. -/
theorem inverseLoop_exact (nla : HSimplexNla) (hwf : WellFormed nla)
    (hinv : IsUnit (basisMatrix nla).det) (horacle : ExactOracle nla)
    (hsize : OracleKeepsSize nla) (column : HVector) (hcol : column.size = nla.lp_.num_row_) :
    (inverseLoop nla column).inverse_error_norm = 0
    ∧ (inverseLoop nla column).residual_error_norm = 0 :=
  (foldl_inverseStep_exact nla hwf hinv horacle hsize (List.range nla.lp_.num_row_)
    (fun _ hi => List.mem_range.mp hi) _ ⟨hcol, rfl, rfl⟩).2

/-! ### Records, status and oracle calls of a run -/

/-- The records of `debugReportError`, by metric and magnitude: one for each
nonzero norm. -/
theorem report_log_metrics (nla : HSimplexNla) (t : Bool) (ts sol res : HVector)
    (force : Bool) :
    (debugReportError nla t ts sol res force).log.map (fun x => (x.metric, x.magnitude))
      = (if (debugReportError nla t ts sol res force).solve_error_norm ≠ 0
          then [(LogMetric.solveError, (debugReportError nla t ts sol res force).solve_error_norm)]
          else [])
        ++ (if (debugReportError nla t ts sol res force).residual_error_norm ≠ 0
          then [(LogMetric.residualError,
            (debugReportError nla t ts sol res force).residual_error_norm)]
          else []) := by
  unfold debugReportError
  simp only []
  generalize (List.range nla.lp_.num_row_).foldl
    (fun solve_error_norm iRow =>
      max |sol.array.getD iRow 0 - ts.array.getD iRow 0| solve_error_norm) 0 = sn
  generalize (debugResidualError nla t sol res).1 = rn
  by_cases hs : sn = 0 <;> by_cases hr : rn = 0 <;> simp [hs, hr]

/-- The records of the exhaustive stage, by metric and magnitude. -/
theorem inverseReport_log_metrics (force : Bool) (st : HighsDebugStatus) (e q : ℚ) :
    (inverseReport force st e q).2.map (fun x => (x.metric, x.magnitude))
      = (if e ≠ 0 then [(LogMetric.inverseError, e)] else [])
        ++ (if q ≠ 0 then [(LogMetric.inverseResidualError, q)] else []) := by
  unfold inverseReport
  simp only []
  by_cases hs : e = 0 <;> by_cases hr : q = 0 <;> simp [hs, hr]

theorem report_status_ne_notChecked (nla : HSimplexNla) (t : Bool) (ts sol res : HVector)
    (force : Bool) :
    (debugReportError nla t ts sol res force).return_status ≠ HighsDebugStatus.kNotChecked := by
  rw [report_status]
  split
  · decide
  · split <;> decide

theorem foldl_inverseStep_calls (nla : HSimplexNla) (l : List Nat) :
    ∀ s : InverseState,
      (l.foldl (inverseStep nla) s).calls = s.calls ++ List.replicate l.length SolveCall.ftran := by
  induction l with
  | nil => intro s; simp
  | cons i l ih =>
    intro s
    simp only [List.foldl_cons]
    rw [ih]
    show (s.calls ++ [SolveCall.ftran]) ++ List.replicate l.length SolveCall.ftran
      = s.calls ++ List.replicate (l.length + 1) SolveCall.ftran
    rw [List.append_assoc, List.replicate_succ]
    rfl

theorem inverseLoop_calls (nla : HSimplexNla) (column : HVector) :
    (inverseLoop nla column).calls = List.replicate nla.lp_.num_row_ SolveCall.ftran := by
  unfold inverseLoop
  rw [foldl_inverseStep_calls]
  simp

/-- The oracle calls of a run, by the level it runs at. -/
theorem checkInvert_calls (nla : HSimplexNla) (random : Nat → ℚ) (alt : Int) :
    (debugCheckInvert nla random alt).calls
      = if useDebugLevel nla alt < kHighsDebugLevelCostly then []
        else if useDebugLevel nla alt < kHighsDebugLevelExpensive
          then [SolveCall.ftran, SolveCall.btran]
        else [SolveCall.ftran, SolveCall.btran]
          ++ List.replicate nla.lp_.num_row_ SolveCall.ftran := by
  unfold debugCheckInvert
  simp only []
  split
  · rfl
  · split
    · rfl
    · simp only [inverseLoop_calls]

theorem probes_zero_rows (nla : HSimplexNla) (random : Nat → ℚ) (force : Bool)
    (h0 : nla.lp_.num_row_ = 0) :
    (randomProbes nla random force).transposed.return_status = HighsDebugStatus.kOk := by
  rw [probes_transposed, report_status, report_residual_error_norm]
  have hz : (debugResidualError nla true (randomProbes nla random force).transposed_solution
      (randomProbes nla random force).transposed_rhs).1 = 0 :=
    (maxAbsNorm_isMaxAbs _ _).1 h0
  rw [hz, if_neg (by unfold kResidualExcessiveError; norm_num),
    if_neg (by unfold kResidualLargeError; norm_num)]

theorem inverseLoop_zero_rows (nla : HSimplexNla) (column : HVector)
    (h0 : nla.lp_.num_row_ = 0) :
    (inverseLoop nla column).residual_error_norm = 0 := by
  unfold inverseLoop
  rw [h0]
  rfl

theorem report_log_eq (nla : HSimplexNla) (t : Bool) (ts sol res : HVector) (force : Bool) :
    (debugReportError nla t ts sol res force).log
      = reportRecords t force (debugReportError nla t ts sol res force).solve_error_norm
          (debugReportError nla t ts sol res force).residual_error_norm := rfl

/-- The records of `debugReportError`, by metric and band. -/
theorem reportRecords_bands (t force : Bool) (sn rn : ℚ) :
    (reportRecords t force sn rn).map (fun x => (x.metric, x.value_adjective))
      = (if sn ≠ 0
          then [(LogMetric.solveError, errorBand kSolveLargeError kSolveExcessiveError sn)]
          else [])
        ++ (if rn ≠ 0
          then [(LogMetric.residualError,
            errorBand kResidualLargeError kResidualExcessiveError rn)]
          else []) := by
  unfold reportRecords errorBand
  simp only []
  by_cases hs : sn = 0
  · by_cases hr : rn = 0
    · simp [hs, hr]
    · simp only [hs, hr, ne_eq, not_true_eq_false, not_false_eq_true, if_true, if_false,
        List.nil_append, List.map_cons, List.map_nil]
      split
      · rfl
      · split <;> rfl
  · by_cases hr : rn = 0
    · simp only [hs, hr, ne_eq, not_true_eq_false, not_false_eq_true, if_true, if_false,
        List.append_nil, List.map_cons, List.map_nil]
      split
      · rfl
      · split <;> rfl
    · simp only [hs, hr, ne_eq, not_false_eq_true, if_true, List.map_append,
        List.map_cons, List.map_nil]
      congr 1
      · split
        · rfl
        · split <;> rfl
      · split
        · rfl
        · split <;> rfl

/-- The records of the exhaustive stage, by metric and band. -/
theorem inverseReport_log_bands (force : Bool) (st : HighsDebugStatus) (e q : ℚ) :
    (inverseReport force st e q).2.map (fun x => (x.metric, x.value_adjective))
      = (if e ≠ 0 then [(LogMetric.inverseError,
            errorBand kInverseLargeError kInverseExcessiveError e)] else [])
        ++ (if q ≠ 0 then [(LogMetric.inverseResidualError,
            errorBand kResidualLargeError kResidualExcessiveError q)] else []) := by
  unfold inverseReport errorBand
  simp only []
  by_cases hs : e = 0
  · by_cases hr : q = 0
    · simp [hs, hr]
    · simp only [hs, hr, ne_eq, not_true_eq_false, not_false_eq_true, if_true, if_false,
        List.nil_append, List.map_cons, List.map_nil]
      split
      · rfl
      · split <;> rfl
  · by_cases hr : q = 0
    · simp only [hs, hr, ne_eq, not_true_eq_false, not_false_eq_true, if_true, if_false,
        List.append_nil, List.map_cons, List.map_nil]
      split
      · rfl
      · split <;> rfl
    · simp only [hs, hr, ne_eq, not_false_eq_true, if_true, List.map_append,
        List.map_cons, List.map_nil]
      congr 1
      · split
        · rfl
        · split <;> rfl
      · split
        · rfl
        · split <;> rfl

/-! ### Adjointness of the two products -/

theorem sum_map_const_mul {α : Type} (f : α → ℚ) (c : ℚ) (l : List α) :
    (l.map (fun a => c * f a)).sum = c * (l.map f).sum := by
  induction l with
  | nil => simp
  | cons a l ih => simp only [List.map_cons, List.sum_cons, ih]; ring

/-- The products `B·v` and `Bᵀ·u` are adjoint: `u·(B·v) = (Bᵀ·u)·v`. -/
theorem basisMul_adjoint (nla : HSimplexNla) (u v : List ℚ) :
    ((List.range nla.lp_.num_row_).map (fun r => u.getD r 0 * basisMul nla v r)).sum
      = ((List.range nla.lp_.num_row_).map (fun i => basisMulT nla u i * v.getD i 0)).sum := by
  unfold basisMul basisMulT
  simp only [← sum_map_const_mul, ← sum_map_mul_const]
  rw [sum_map_comm]
  apply congrArg
  apply List.map_congr_left
  intro i _
  apply congrArg
  apply List.map_congr_left
  intro r _
  ring

/-! ### The pricing health monitor -/

/-- One observation keeps the running frequencies at most `1`, does not lower
them, does not lower the number of checks and keeps the policy flag. -/
theorem weightError_step (log_error : ℚ → ℚ → ℚ) (a : HighsSimplexAnalysis) (c u : ℚ)
    (hlow : a.average_frequency_low_dual_steepest_edge_weight ≤ 1)
    (hhigh : a.average_frequency_high_dual_steepest_edge_weight ≤ 1) :
    (dualSteepestEdgeWeightError log_error a c u).average_frequency_low_dual_steepest_edge_weight
        ≤ 1
    ∧ (dualSteepestEdgeWeightError log_error a c
        u).average_frequency_high_dual_steepest_edge_weight ≤ 1
    ∧ a.average_frequency_low_dual_steepest_edge_weight
        ≤ (dualSteepestEdgeWeightError log_error a c
          u).average_frequency_low_dual_steepest_edge_weight
    ∧ a.average_frequency_high_dual_steepest_edge_weight
        ≤ (dualSteepestEdgeWeightError log_error a c
          u).average_frequency_high_dual_steepest_edge_weight
    ∧ a.num_dual_steepest_edge_weight_check
        ≤ (dualSteepestEdgeWeightError log_error a c u).num_dual_steepest_edge_weight_check
    ∧ (dualSteepestEdgeWeightError log_error a c u).allow_dual_steepest_edge_to_devex_switch
        = a.allow_dual_steepest_edge_to_devex_switch := by
  unfold dualSteepestEdgeWeightError running_average_multiplier
  simp only []
  split
  · refine ⟨?_, hhigh, ?_, le_refl _, ?_, rfl⟩
    · show (1 - 5 / 100) * a.average_frequency_low_dual_steepest_edge_weight + 5 / 100 ≤ 1
      linarith
    · show a.average_frequency_low_dual_steepest_edge_weight
        ≤ (1 - 5 / 100) * a.average_frequency_low_dual_steepest_edge_weight + 5 / 100
      linarith
    · show a.num_dual_steepest_edge_weight_check ≤ a.num_dual_steepest_edge_weight_check + 1
      omega
  · split
    · refine ⟨hlow, ?_, le_refl _, ?_, ?_, rfl⟩
      · show (1 - 5 / 100) * a.average_frequency_high_dual_steepest_edge_weight + 5 / 100 ≤ 1
        linarith
      · show a.average_frequency_high_dual_steepest_edge_weight
          ≤ (1 - 5 / 100) * a.average_frequency_high_dual_steepest_edge_weight + 5 / 100
        linarith
      · show a.num_dual_steepest_edge_weight_check ≤ a.num_dual_steepest_edge_weight_check + 1
        omega
    · refine ⟨hlow, hhigh, le_refl _, le_refl _, ?_, rfl⟩
      show a.num_dual_steepest_edge_weight_check ≤ a.num_dual_steepest_edge_weight_check + 1
      omega

theorem recordObservations_steps (log_error : ℚ → ℚ → ℚ) (obs : List (ℚ × ℚ)) :
    ∀ a : HighsSimplexAnalysis,
      a.average_frequency_low_dual_steepest_edge_weight ≤ 1 →
      a.average_frequency_high_dual_steepest_edge_weight ≤ 1 →
      (recordObservations log_error a obs).average_frequency_low_dual_steepest_edge_weight ≤ 1
      ∧ (recordObservations log_error a obs).average_frequency_high_dual_steepest_edge_weight ≤ 1
      ∧ a.average_frequency_low_dual_steepest_edge_weight
          ≤ (recordObservations log_error a obs).average_frequency_low_dual_steepest_edge_weight
      ∧ a.average_frequency_high_dual_steepest_edge_weight
          ≤ (recordObservations log_error a obs).average_frequency_high_dual_steepest_edge_weight
      ∧ a.num_dual_steepest_edge_weight_check
          ≤ (recordObservations log_error a obs).num_dual_steepest_edge_weight_check
      ∧ (recordObservations log_error a obs).allow_dual_steepest_edge_to_devex_switch
          = a.allow_dual_steepest_edge_to_devex_switch := by
  induction obs with
  | nil => intro a hl hh; exact ⟨hl, hh, le_refl _, le_refl _, le_refl _, rfl⟩
  | cons o obs ih =>
    intro a hl hh
    obtain ⟨s1, s2, s3, s4, s5, s6⟩ := weightError_step log_error a o.1 o.2 hl hh
    obtain ⟨r1, r2, r3, r4, r5, r6⟩ := ih _ s1 s2
    exact ⟨r1, r2, le_trans s3 r3, le_trans s4 r4, le_trans s5 r5, r6.trans s6⟩

theorem recordObservations_append (log_error : ℚ → ℚ → ℚ) (a : HighsSimplexAnalysis)
    (obs1 obs2 : List (ℚ × ℚ)) :
    recordObservations log_error a (obs1 ++ obs2)
      = recordObservations log_error (recordObservations log_error a obs1) obs2 := by
  unfold recordObservations
  rw [List.foldl_append]

/-- The states in which `switchToDevex` is true are closed under further
observations, the running frequencies being at most `1`. -/
theorem switchToDevex_closed (log_error : ℚ → ℚ → ℚ) (evidence_threshold : ℚ)
    (minimum_checks : Int) (a : HighsSimplexAnalysis) (obs : List (ℚ × ℚ))
    (hlow : a.average_frequency_low_dual_steepest_edge_weight ≤ 1)
    (hhigh : a.average_frequency_high_dual_steepest_edge_weight ≤ 1)
    (h : switchToDevex evidence_threshold minimum_checks a = true) :
    switchToDevex evidence_threshold minimum_checks (recordObservations log_error a obs)
      = true := by
  obtain ⟨_, _, r3, r4, r5, r6⟩ := recordObservations_steps log_error obs a hlow hhigh
  unfold switchToDevex at h ⊢
  rw [decide_eq_true_eq] at h ⊢
  obtain ⟨hf, hc, hp⟩ := h
  refine ⟨?_, le_trans hc r5, r6.trans hp⟩
  rcases hf with hf | hf
  · exact Or.inl (lt_of_lt_of_le hf r3)
  · exact Or.inr (lt_of_lt_of_le hf r4)

/-! ### The checked functions agree with the functions when the accesses are in bounds -/

theorem readAt_eq {α : Type} (a : List α) (i : Nat) (d : α) (h : i < a.length) :
    readAt a i = some (a.getD i d) := by
  unfold readAt
  rw [List.getD_eq_getElem?_getD, List.getElem?_eq_getElem h]
  rfl

theorem writeAt_eq {α : Type} (a : List α) (i : Nat) (v : α) (h : i < a.length) :
    writeAt a i v = some (a.set i v) := by
  unfold writeAt
  rw [if_pos h]

theorem writeAtCount_eq {α : Type} (a : List α) (count : Int) (v : α) (h0 : 0 ≤ count)
    (h : count.toNat < a.length) :
    writeAtCount a count v = some (a.set count.toNat v) := by
  unfold writeAtCount
  rw [if_pos h0, writeAt_eq a _ v h]

/-- A checked loop whose passes succeed and agree with the passes of the loop,
an invariant that may mention the passes still to be made being kept, succeeds
and agrees with the loop. -/
theorem foldlM_eq_some_foldl {σ α : Type} (f : σ → α → σ) (g : σ → α → Option σ)
    (J : List α → σ → Prop)
    (hstep : ∀ a rest s, J (a :: rest) s → g s a = some (f s a) ∧ J rest (f s a)) :
    ∀ (l : List α) (s : σ), J l s → l.foldlM g s = some (l.foldl f s) ∧ J [] (l.foldl f s) := by
  intro l
  induction l with
  | nil => intro s hs; exact ⟨rfl, hs⟩
  | cons a l ih =>
    intro s hs
    obtain ⟨h1, h2⟩ := hstep a l s hs
    rw [List.foldlM_cons, h1, List.foldl_cons]
    exact ih (f s a) h2

/-- The entries of `start_` do not exceed the last one. -/
theorem start_le_last (nla : HSimplexNla) (hwf : WellFormed nla) (j : Nat)
    (hj : j ≤ nla.lp_.num_col_) :
    nla.lp_.a_matrix_.start_.getD j 0
      ≤ nla.lp_.a_matrix_.start_.getD nla.lp_.num_col_ 0 := by
  obtain ⟨d, hd⟩ := Nat.exists_eq_add_of_le hj
  clear hj
  induction d generalizing j with
  | zero => rw [hd]; exact le_refl _
  | succ d ih =>
    have hlt : j < nla.lp_.num_col_ := by omega
    exact le_trans (hwf.2.1 j hlt) (ih (j + 1) (by omega))

/-- In a structural column every position is within the index and value arrays
and names a row. -/
theorem colEntries_bounds (nla : HSimplexNla) (hwf : WellFormed nla) (iCol : Nat)
    (hcol : iCol < nla.lp_.num_col_) (k : Nat)
    (hk : k ∈ colEntries nla.lp_.a_matrix_ iCol) :
    k < nla.lp_.a_matrix_.index_.length ∧ k < nla.lp_.a_matrix_.value_.length
      ∧ nla.lp_.a_matrix_.index_.getD k 0 < nla.lp_.num_row_ := by
  have hk' := hk
  unfold colEntries at hk'
  rw [List.mem_range'_1] at hk'
  have hmono := hwf.2.1 iCol hcol
  have hlast := start_le_last nla hwf (iCol + 1) (by omega)
  have hklt : k < nla.lp_.a_matrix_.start_.getD nla.lp_.num_col_ 0 := by omega
  exact ⟨lt_of_lt_of_le hklt hwf.2.2.1, lt_of_lt_of_le hklt hwf.2.2.2.1,
    hwf.2.2.2.2.1 iCol hcol k hk⟩

theorem colEntriesChecked_eq (nla : HSimplexNla) (hwf : WellFormed nla) (iCol : Nat)
    (hcol : iCol < nla.lp_.num_col_) :
    colEntriesChecked nla.lp_.a_matrix_ iCol = some (colEntries nla.lp_.a_matrix_ iCol) := by
  unfold colEntriesChecked colEntries
  rw [readAt_eq _ iCol 0 (by rw [hwf.1]; omega), readAt_eq _ (iCol + 1) 0 (by rw [hwf.1]; omega)]
  rfl

theorem base_index_bounds (nla : HSimplexNla) (hwf : WellFormed nla) (iRow : Nat)
    (hrow : iRow < nla.lp_.num_row_) :
    readAt nla.base_index_ iRow = some (nla.base_index_.getD iRow 0)
      ∧ (¬ nla.base_index_.getD iRow 0 < nla.lp_.num_col_ →
        nla.base_index_.getD iRow 0 - nla.lp_.num_col_ < nla.lp_.num_row_) := by
  refine ⟨readAt_eq _ iRow 0 (by rw [hwf.2.2.2.2.2.2.1]; exact hrow), ?_⟩
  intro h
  have := hwf.2.2.2.2.2.2.2 iRow hrow
  omega

theorem residualStepChecked_eq (nla : HSimplexNla) (hwf : WellFormed nla) (t : Bool)
    (sol : HVector) (a : List ℚ) (iRow : Nat) (hrow : iRow < nla.lp_.num_row_)
    (hsol : sol.array.length = nla.lp_.num_row_) (ha : a.length = nla.lp_.num_row_) :
    residualStepChecked nla t sol a iRow = some (residualStep nla t sol a iRow) := by
  obtain ⟨hbase, hlogical⟩ := base_index_bounds nla hwf iRow hrow
  unfold residualStepChecked residualStep
  cases t
  · simp only [Bool.false_eq_true, if_false]
    rw [readAt_eq sol.array iRow 0 (by rw [hsol]; exact hrow), hbase]
    simp only [Option.bind_eq_bind, Option.some_bind]
    by_cases hcol : nla.base_index_.getD iRow 0 < nla.lp_.num_col_
    · rw [if_pos hcol, if_pos hcol, colEntriesChecked_eq nla hwf _ hcol]
      simp only [Option.some_bind]
      refine (foldlM_eq_some_foldl _ _
        (fun rest r => r.length = nla.lp_.num_row_
          ∧ ∀ k ∈ rest, k ∈ colEntries nla.lp_.a_matrix_ (nla.base_index_.getD iRow 0))
        ?_ _ a ⟨ha, fun k hk => hk⟩).1
      intro k rest r hJ
      obtain ⟨h1, h2, h3⟩ := colEntries_bounds nla hwf _ hcol k (hJ.2 k (List.mem_cons_self _ _))
      rw [readAt_eq _ k 0 h1, readAt_eq _ k 0 h2]
      simp only [Option.some_bind]
      rw [readAt_eq r _ 0 (by rw [hJ.1]; exact h3)]
      simp only [Option.some_bind]
      rw [writeAt_eq r _ _ (by rw [hJ.1]; exact h3)]
      exact ⟨rfl, by simpa using hJ.1, fun k' hk' => hJ.2 k' (List.mem_cons_of_mem _ hk')⟩
    · rw [if_neg hcol, if_neg hcol]
      have hidx := hlogical hcol
      rw [readAt_eq a _ 0 (by rw [ha]; exact hidx)]
      simp only [Option.some_bind]
      rw [writeAt_eq a _ _ (by rw [ha]; exact hidx)]
  · simp only [if_true]
    rw [hbase]
    simp only [Option.bind_eq_bind, Option.some_bind]
    by_cases hcol : nla.base_index_.getD iRow 0 < nla.lp_.num_col_
    · rw [if_pos hcol, if_pos hcol, colEntriesChecked_eq nla hwf _ hcol]
      simp only [Option.some_bind]
      refine (foldlM_eq_some_foldl _ _
        (fun rest r => r.length = nla.lp_.num_row_
          ∧ ∀ k ∈ rest, k ∈ colEntries nla.lp_.a_matrix_ (nla.base_index_.getD iRow 0))
        ?_ _ a ⟨ha, fun k hk => hk⟩).1
      intro k rest r hJ
      obtain ⟨h1, h2, h3⟩ := colEntries_bounds nla hwf _ hcol k (hJ.2 k (List.mem_cons_self _ _))
      rw [readAt_eq _ k 0 h1]
      simp only [Option.some_bind]
      rw [readAt_eq sol.array _ 0 (by rw [hsol]; exact h3), readAt_eq _ k 0 h2]
      simp only [Option.some_bind]
      rw [readAt_eq r _ 0 (by rw [hJ.1]; exact hrow)]
      simp only [Option.some_bind]
      rw [writeAt_eq r _ _ (by rw [hJ.1]; exact hrow)]
      exact ⟨rfl, by simpa using hJ.1, fun k' hk' => hJ.2 k' (List.mem_cons_of_mem _ hk')⟩
    · rw [if_neg hcol, if_neg hcol]
      have hidx := hlogical hcol
      rw [readAt_eq sol.array _ 0 (by rw [hsol]; exact hidx)]
      simp only [Option.some_bind]
      rw [readAt_eq a _ 0 (by rw [ha]; exact hrow)]
      simp only [Option.some_bind]
      rw [writeAt_eq a _ _ (by rw [ha]; exact hrow)]

theorem maxAbsNormChecked_eq (n : Nat) (array : List ℚ) (h : array.length = n) :
    maxAbsNormChecked n array = some (maxAbsNorm n array) := by
  unfold maxAbsNormChecked maxAbsNorm
  refine (foldlM_eq_some_foldl _ _ (fun rest _ => ∀ i ∈ rest, i < n) ?_ _ 0
    (fun i hi => List.mem_range.mp hi)).1
  intro i rest s hJ
  beta_reduce
  rw [readAt_eq array i 0 (by rw [h]; exact hJ i (List.mem_cons_self _ _))]
  exact ⟨rfl, fun i' hi' => hJ i' (List.mem_cons_of_mem _ hi')⟩

theorem debugResidualErrorChecked_eq (nla : HSimplexNla) (hwf : WellFormed nla) (t : Bool)
    (sol res : HVector) (hsol : sol.array.length = nla.lp_.num_row_)
    (hres : res.array.length = nla.lp_.num_row_) :
    debugResidualErrorChecked nla t sol res = some (debugResidualError nla t sol res) := by
  unfold debugResidualErrorChecked debugResidualError
  have hloop := foldlM_eq_some_foldl (residualStep nla t sol) (residualStepChecked nla t sol)
    (fun rest a => a.length = nla.lp_.num_row_ ∧ ∀ i ∈ rest, i < nla.lp_.num_row_)
    (fun i rest a hJ =>
      ⟨residualStepChecked_eq nla hwf t sol a i (hJ.2 i (List.mem_cons_self _ _)) hsol hJ.1,
        by rw [residualStep_length]; exact hJ.1,
        fun i' hi' => hJ.2 i' (List.mem_cons_of_mem _ hi')⟩)
    (List.range nla.lp_.num_row_) res.array ⟨hres, fun i hi => List.mem_range.mp hi⟩
  simp only []
  rw [hloop.1]
  simp only [Option.bind_eq_bind, Option.some_bind]
  rw [maxAbsNormChecked_eq _ _ hloop.2.1]
  rfl

theorem report_eq_ofNorms (nla : HSimplexNla) (t : Bool) (ts sol res : HVector)
    (force : Bool) :
    debugReportError nla t ts sol res force
      = reportOfNorms t force
          ((List.range nla.lp_.num_row_).foldl
            (fun solve_error_norm iRow =>
              max |sol.array.getD iRow 0 - ts.array.getD iRow 0| solve_error_norm) 0)
          (debugResidualError nla t sol res).1 (debugResidualError nla t sol res).2 := rfl

theorem debugReportErrorChecked_eq (nla : HSimplexNla) (hwf : WellFormed nla) (t : Bool)
    (ts sol res : HVector) (force : Bool) (hts : ts.array.length = nla.lp_.num_row_)
    (hsol : sol.array.length = nla.lp_.num_row_)
    (hres : res.array.length = nla.lp_.num_row_) :
    debugReportErrorChecked nla t ts sol res force
      = some (debugReportError nla t ts sol res force) := by
  unfold debugReportErrorChecked
  have hloop := foldlM_eq_some_foldl
    (fun (solve_error_norm : ℚ) iRow =>
      max |sol.array.getD iRow 0 - ts.array.getD iRow 0| solve_error_norm)
    (fun (solve_error_norm : ℚ) iRow => do
      let a ← readAt sol.array iRow
      let b ← readAt ts.array iRow
      pure (max |a - b| solve_error_norm))
    (fun rest _ => ∀ i ∈ rest, i < nla.lp_.num_row_)
    (fun i rest s hJ => by
      have hi := hJ i (List.mem_cons_self _ _)
      beta_reduce
      rw [readAt_eq sol.array i 0 (by rw [hsol]; exact hi),
        readAt_eq ts.array i 0 (by rw [hts]; exact hi)]
      exact ⟨rfl, fun i' hi' => hJ i' (List.mem_cons_of_mem _ hi')⟩)
    (List.range nla.lp_.num_row_) 0 (fun i hi => List.mem_range.mp hi)
  simp only []
  rw [hloop.1, debugResidualErrorChecked_eq nla hwf t sol res hsol hres, report_eq_ofNorms]
  rfl


theorem primalRhsStep_snd_index (nla : HSimplexNla) (random : Nat → ℚ)
    (s : HVector × HVector) (i : Nat) :
    (primalRhsStep nla random s i).2.index = s.2.index.set s.2.count.toNat i
      ∧ (primalRhsStep nla random s i).2.count = s.2.count + 1 := by
  unfold primalRhsStep
  simp only
  split <;> exact ⟨rfl, rfl⟩

theorem primalRhsStepChecked_eq (nla : HSimplexNla) (hwf : WellFormed nla)
    (random : Nat → ℚ) (i : Nat) (rest : List Nat) (s : HVector × HVector)
    (hs : PrimalShape nla.lp_.num_row_ (i :: rest) s) :
    primalRhsStepChecked nla random s i = some (primalRhsStep nla random s i)
      ∧ PrimalShape nla.lp_.num_row_ rest (primalRhsStep nla random s i) := by
  obtain ⟨h1, h2, h3, h4, h5, h6⟩ := hs
  have hrow : i < nla.lp_.num_row_ := h6 i (List.mem_cons_self _ _)
  have hcount : s.2.count.toNat < nla.lp_.num_row_ := by
    simp only [List.length_cons] at h5
    omega
  obtain ⟨hbase, hlogical⟩ := base_index_bounds nla hwf i hrow
  constructor
  · unfold primalRhsStepChecked primalRhsStep
    simp only []
    rw [writeAtCount_eq _ _ _ h4 (by rw [h3]; exact hcount)]
    simp only [Option.bind_eq_bind, Option.some_bind]
    rw [writeAt_eq _ _ _ (by rw [h1]; exact hrow)]
    simp only [Option.some_bind]
    rw [hbase]
    simp only [Option.some_bind]
    by_cases hcol : nla.base_index_.getD i 0 < nla.lp_.num_col_
    · rw [if_pos hcol, if_pos hcol, colEntriesChecked_eq nla hwf _ hcol]
      simp only [Option.some_bind]
      have hloop := foldlM_eq_some_foldl
        (fun (a : List ℚ) iEl =>
          a.set (nla.lp_.a_matrix_.index_.getD iEl 0)
            (a.getD (nla.lp_.a_matrix_.index_.getD iEl 0) 0
              + random i * nla.lp_.a_matrix_.value_.getD iEl 0))
        (fun (a : List ℚ) iEl => do
          let index ← readAt nla.lp_.a_matrix_.index_ iEl
          let v ← readAt nla.lp_.a_matrix_.value_ iEl
          let old ← readAt a index
          writeAt a index (old + random i * v))
        (fun rest r => r.length = nla.lp_.num_row_
          ∧ ∀ k ∈ rest, k ∈ colEntries nla.lp_.a_matrix_ (nla.base_index_.getD i 0))
        (fun k rest r hJ => by
          obtain ⟨b1, b2, b3⟩ :=
            colEntries_bounds nla hwf _ hcol k (hJ.2 k (List.mem_cons_self _ _))
          beta_reduce
          rw [readAt_eq _ k 0 b1, readAt_eq _ k 0 b2]
          simp only [Option.bind_eq_bind, Option.some_bind]
          rw [readAt_eq r _ 0 (by rw [hJ.1]; exact b3)]
          simp only [Option.some_bind]
          rw [writeAt_eq r _ _ (by rw [hJ.1]; exact b3)]
          exact ⟨rfl, by simpa using hJ.1, fun k' hk' => hJ.2 k' (List.mem_cons_of_mem _ hk')⟩)
        (colEntries nla.lp_.a_matrix_ (nla.base_index_.getD i 0)) s.2.array
        ⟨h2, fun k hk => hk⟩
      have hl := hloop.1
      simp only [Option.bind_eq_bind] at hl
      rw [hl]
      rfl
    · rw [if_neg hcol, if_neg hcol]
      have hidx := hlogical hcol
      rw [if_pos hidx, readAt_eq s.2.array _ 0 (by rw [h2]; exact hidx)]
      simp only [Option.some_bind]
      rw [writeAt_eq s.2.array _ _ (by rw [h2]; exact hidx)]
      rfl
  · refine ⟨?_, ?_, ?_, ?_, ?_, fun i' hi' => h6 i' (List.mem_cons_of_mem _ hi')⟩
    · rw [primalRhsStep_fst]; simpa using h1
    · rw [primalRhsStep_snd_array, primalArrayStep_length]; exact h2
    · rw [(primalRhsStep_snd_index nla random s i).1]; simpa using h3
    · rw [(primalRhsStep_snd_index nla random s i).2]; omega
    · rw [(primalRhsStep_snd_index nla random s i).2]
      simp only [List.length_cons] at h5
      omega

theorem transposedRhsStep_index (nla : HSimplexNla) (column rhs : HVector) (i : Nat) :
    (transposedRhsStep nla column rhs i).index = rhs.index.set rhs.count.toNat i
      ∧ (transposedRhsStep nla column rhs i).count = rhs.count + 1 := by
  unfold transposedRhsStep
  simp only
  split <;> exact ⟨rfl, rfl⟩

theorem transposedRhsStepChecked_eq (nla : HSimplexNla) (hwf : WellFormed nla)
    (column : HVector) (hcolumn : column.array.length = nla.lp_.num_row_)
    (i : Nat) (rest : List Nat) (rhs : HVector)
    (hs : TransposedShape nla.lp_.num_row_ (i :: rest) rhs) :
    transposedRhsStepChecked nla column rhs i = some (transposedRhsStep nla column rhs i)
      ∧ TransposedShape nla.lp_.num_row_ rest (transposedRhsStep nla column rhs i) := by
  obtain ⟨h2, h3, h4, h5, h6⟩ := hs
  have hrow : i < nla.lp_.num_row_ := h6 i (List.mem_cons_self _ _)
  have hcount : rhs.count.toNat < nla.lp_.num_row_ := by
    simp only [List.length_cons] at h5
    omega
  obtain ⟨hbase, hlogical⟩ := base_index_bounds nla hwf i hrow
  constructor
  · unfold transposedRhsStepChecked transposedRhsStep
    simp only []
    rw [writeAtCount_eq _ _ _ h4 (by rw [h3]; exact hcount)]
    simp only [Option.bind_eq_bind, Option.some_bind]
    rw [hbase]
    simp only [Option.some_bind]
    by_cases hcol : nla.base_index_.getD i 0 < nla.lp_.num_col_
    · rw [if_pos hcol, if_pos hcol, colEntriesChecked_eq nla hwf _ hcol]
      simp only [Option.some_bind]
      have hloop := foldlM_eq_some_foldl
        (fun (a : List ℚ) iEl =>
          a.set i (a.getD i 0
            + column.array.getD (nla.lp_.a_matrix_.index_.getD iEl 0) 0
              * nla.lp_.a_matrix_.value_.getD iEl 0))
        (fun (a : List ℚ) iEl => do
          let index ← readAt nla.lp_.a_matrix_.index_ iEl
          let x ← readAt column.array index
          let v ← readAt nla.lp_.a_matrix_.value_ iEl
          let old ← readAt a i
          writeAt a i (old + x * v))
        (fun rest r => r.length = nla.lp_.num_row_
          ∧ ∀ k ∈ rest, k ∈ colEntries nla.lp_.a_matrix_ (nla.base_index_.getD i 0))
        (fun k rest r hJ => by
          obtain ⟨b1, b2, b3⟩ :=
            colEntries_bounds nla hwf _ hcol k (hJ.2 k (List.mem_cons_self _ _))
          beta_reduce
          rw [readAt_eq _ k 0 b1]
          simp only [Option.bind_eq_bind, Option.some_bind]
          rw [readAt_eq column.array _ 0 (by rw [hcolumn]; exact b3), readAt_eq _ k 0 b2]
          simp only [Option.some_bind]
          rw [readAt_eq r _ 0 (by rw [hJ.1]; exact hrow)]
          simp only [Option.some_bind]
          rw [writeAt_eq r _ _ (by rw [hJ.1]; exact hrow)]
          exact ⟨rfl, by simpa using hJ.1, fun k' hk' => hJ.2 k' (List.mem_cons_of_mem _ hk')⟩)
        (colEntries nla.lp_.a_matrix_ (nla.base_index_.getD i 0)) rhs.array
        ⟨h2, fun k hk => hk⟩
      have hl := hloop.1
      simp only [Option.bind_eq_bind] at hl
      rw [hl]
      rfl
    · rw [if_neg hcol, if_neg hcol]
      have hidx := hlogical hcol
      rw [readAt_eq column.array _ 0 (by rw [hcolumn]; exact hidx)]
      simp only [Option.some_bind]
      rw [readAt_eq rhs.array _ 0 (by rw [h2]; exact hrow)]
      simp only [Option.some_bind]
      rw [writeAt_eq rhs.array _ _ (by rw [h2]; exact hrow)]
      rfl
  · refine ⟨?_, ?_, ?_, ?_, fun i' hi' => h6 i' (List.mem_cons_of_mem _ hi')⟩
    · rw [transposedRhsStep_array, transposedArrayStep_length]; exact h2
    · rw [(transposedRhsStep_index nla column rhs i).1]; simpa using h3
    · rw [(transposedRhsStep_index nla column rhs i).2]; omega
    · rw [(transposedRhsStep_index nla column rhs i).2]
      simp only [List.length_cons] at h5
      omega

theorem bind_of_eq_some {α β : Type} {x : Option α} {a : α} (h : x = some a)
    (f : α → Option β) : x.bind f = f a := by
  rw [h]; rfl

theorem clear_lengths (v : HVector) :
    v.clear.array.length = v.size ∧ v.clear.index.length = v.index.length
      ∧ v.clear.count = 0 ∧ v.clear.size = v.size :=
  ⟨by simp [HVector.clear], rfl, rfl, rfl⟩

theorem primalLoop_checked (nla : HSimplexNla) (hwf : WellFormed nla) (random : Nat → ℚ) :
    (List.range nla.lp_.num_row_).foldlM (primalRhsStepChecked nla random)
        ({ (HVector.setup nla.lp_.num_row_).clear with count := -1 },
          (HVector.setup nla.lp_.num_row_).clear)
      = some (primalLoopState nla random)
    ∧ (primalLoopState nla random).1.array.length = nla.lp_.num_row_
    ∧ (primalLoopState nla random).2.array.length = nla.lp_.num_row_
    ∧ (primalLoopState nla random).2.index.length = nla.lp_.num_row_
    ∧ (primalLoopState nla random).2.size = nla.lp_.num_row_ := by
  have hprimal := foldlM_eq_some_foldl (primalRhsStep nla random)
    (primalRhsStepChecked nla random) (PrimalShape nla.lp_.num_row_)
    (fun i rest s hs => primalRhsStepChecked_eq nla hwf random i rest s hs)
    (List.range nla.lp_.num_row_)
    ({ (HVector.setup nla.lp_.num_row_).clear with count := -1 },
      (HVector.setup nla.lp_.num_row_).clear)
    ⟨by simp [HVector.setup, HVector.clear], by simp [HVector.setup, HVector.clear],
      by simp [HVector.setup, HVector.clear], by simp [HVector.setup, HVector.clear],
      by simp [HVector.setup, HVector.clear], fun i hi => List.mem_range.mp hi⟩
  obtain ⟨hp1, hc, hr, hi, _, _, _⟩ := hprimal
  refine ⟨hp1, hc, hr, hi, ?_⟩
  unfold primalLoopState
  rw [foldl_primal_snd_size]
  rfl

theorem transposedLoop_checked (nla : HSimplexNla) (hwf : WellFormed nla)
    (horacle : OracleKeepsLengths nla) (random : Nat → ℚ) :
    (List.range nla.lp_.num_row_).foldlM
        (transposedRhsStepChecked nla (primalLoopState nla random).1)
        (nla.ftran (primalLoopState nla random).2 1).clear
      = some (transposedLoopState nla random)
    ∧ (transposedLoopState nla random).array.length = nla.lp_.num_row_ := by
  obtain ⟨_, hc, hr, hi, hsize⟩ := primalLoop_checked nla hwf random
  have hy := (horacle (primalLoopState nla random).2 1).1
  have hcl := clear_lengths (nla.ftran (primalLoopState nla random).2 1)
  have htransposed := foldlM_eq_some_foldl
    (transposedRhsStep nla (primalLoopState nla random).1)
    (transposedRhsStepChecked nla (primalLoopState nla random).1)
    (TransposedShape nla.lp_.num_row_)
    (fun i rest s hs => transposedRhsStepChecked_eq nla hwf _ hc i rest s hs)
    (List.range nla.lp_.num_row_)
    (nla.ftran (primalLoopState nla random).2 1).clear
    ⟨hcl.1.trans (hy.1.trans hsize), hcl.2.1.trans (hy.2.2.trans hi),
      le_of_eq hcl.2.2.1.symm,
      by rw [hcl.2.2.1]; simp, fun i hi => List.mem_range.mp hi⟩
  exact ⟨htransposed.1, htransposed.2.1⟩

theorem randomProbesChecked_eq (nla : HSimplexNla) (hwf : WellFormed nla)
    (horacle : OracleKeepsLengths nla) (random : Nat → ℚ) (force : Bool) :
    randomProbesChecked nla random force = some (randomProbes nla random force) := by
  obtain ⟨hp1, hc, hr, _, _⟩ := primalLoop_checked nla hwf random
  obtain ⟨ht1, hta⟩ := transposedLoop_checked nla hwf horacle random
  have hy := (horacle (primalLoopState nla random).2 1).1
  have hz := (horacle (transposedLoopState nla random) 1).2
  have hreport1 := debugReportErrorChecked_eq nla hwf false (primalLoopState nla random).1
    (nla.ftran (primalLoopState nla random).2 1) (primalLoopState nla random).2
    force hc (hy.2.1.trans hr) hr
  have hreport2 := debugReportErrorChecked_eq nla hwf true (primalLoopState nla random).1
    (nla.btran (transposedLoopState nla random) 1) (transposedLoopState nla random)
    force hc (hz.2.1.trans hta) hta
  refine (bind_of_eq_some hp1 _).trans ?_
  refine (bind_of_eq_some hreport1 _).trans ?_
  refine (bind_of_eq_some ht1 _).trans ?_
  refine (bind_of_eq_some hreport2 _).trans ?_
  rfl

/-- A list of pairwise different numbers below `n` has at most `n` entries. -/
theorem nodup_lt_length_le (l : List Nat) (n : Nat) (hnd : l.Nodup)
    (hlt : ∀ x ∈ l, x < n) : l.length ≤ n := by
  have hsub : l.toFinset ⊆ Finset.range n := by
    intro x hx
    rw [List.mem_toFinset] at hx
    exact Finset.mem_range.mpr (hlt x hx)
  have hcard := Finset.card_le_card hsub
  rw [List.toFinset_card_of_nodup hnd, Finset.card_range] at hcard
  exact hcard

theorem colEntries_length_le (nla : HSimplexNla) (hwf : WellFormed nla) (iCol : Nat)
    (hcol : iCol < nla.lp_.num_col_) :
    (colEntries nla.lp_.a_matrix_ iCol).length ≤ nla.lp_.num_row_ := by
  have h := nodup_lt_length_le
    ((colEntries nla.lp_.a_matrix_ iCol).map (fun k => nla.lp_.a_matrix_.index_.getD k 0))
    nla.lp_.num_row_ (hwf.2.2.2.2.2.1 iCol hcol)
    (fun x hx => by
      obtain ⟨k, hk, rfl⟩ := List.mem_map.mp hx
      exact hwf.2.2.2.2.1 iCol hcol k hk)
  rw [List.length_map] at h
  exact h

theorem inverseColumnChecked_eq (nla : HSimplexNla) (hwf : WellFormed nla)
    (column : HVector) (iRow : Nat) (hrow : iRow < nla.lp_.num_row_)
    (hsize : column.size = nla.lp_.num_row_)
    (hindex : column.index.length = nla.lp_.num_row_) :
    inverseColumnChecked nla column iRow = some (inverseColumn nla column iRow)
      ∧ (inverseColumn nla column iRow).size = nla.lp_.num_row_
      ∧ (inverseColumn nla column iRow).array.length = nla.lp_.num_row_
      ∧ (inverseColumn nla column iRow).index.length = nla.lp_.num_row_ := by
  obtain ⟨hbase, hlogical⟩ := base_index_bounds nla hwf iRow hrow
  have hcl := clear_lengths column
  by_cases hcol : nla.base_index_.getD iRow 0 < nla.lp_.num_col_
  · have hloop := foldlM_eq_some_foldl
      (fun (column : HVector) k =>
        { column with
          array := column.array.set (nla.lp_.a_matrix_.index_.getD k 0)
            (nla.lp_.a_matrix_.value_.getD k 0),
          index := column.index.set column.count.toNat (nla.lp_.a_matrix_.index_.getD k 0),
          count := column.count + 1 })
      (fun (column : HVector) k => do
        let index ← readAt nla.lp_.a_matrix_.index_ k
        let v ← readAt nla.lp_.a_matrix_.value_ k
        let array ← writeAt column.array index v
        let index_ ← writeAtCount column.index column.count index
        pure { column with array := array, index := index_, count := column.count + 1 })
      (ColumnShape nla (nla.base_index_.getD iRow 0))
      (fun k rest c hJ => by
        obtain ⟨j1, j2, j3, j4, j5, j6⟩ := hJ
        obtain ⟨b1, b2, b3⟩ :=
          colEntries_bounds nla hwf _ hcol k (j6 k (List.mem_cons_self _ _))
        have hcount : c.count.toNat < nla.lp_.num_row_ := by
          simp only [List.length_cons] at j5
          omega
        beta_reduce
        rw [readAt_eq _ k 0 b1, readAt_eq _ k 0 b2]
        simp only [Option.bind_eq_bind, Option.some_bind]
        rw [writeAt_eq c.array _ _ (by rw [j2]; exact b3)]
        simp only [Option.some_bind]
        rw [writeAtCount_eq c.index _ _ j4 (by rw [j3]; exact hcount)]
        refine ⟨rfl, j1, by simpa using j2, by simpa using j3, ?_, ?_,
          fun k' hk' => j6 k' (List.mem_cons_of_mem _ hk')⟩
        · show 0 ≤ c.count + 1
          omega
        · show (c.count + 1).toNat + rest.length ≤ nla.lp_.num_row_
          simp only [List.length_cons] at j5
          omega)
      (colEntries nla.lp_.a_matrix_ (nla.base_index_.getD iRow 0))
      { column.clear with packFlag := true }
      ⟨hcl.2.2.2.trans hsize, hcl.1.trans hsize, hcl.2.1.trans hindex,
        le_of_eq hcl.2.2.1.symm,
        by
          show (column.clear.count).toNat + _ ≤ _
          rw [hcl.2.2.1]
          simpa using colEntries_length_le nla hwf _ hcol,
        fun k hk => hk⟩
    have heq : inverseColumn nla column iRow
        = (colEntries nla.lp_.a_matrix_ (nla.base_index_.getD iRow 0)).foldl
          (fun (column : HVector) k =>
            { column with
              array := column.array.set (nla.lp_.a_matrix_.index_.getD k 0)
                (nla.lp_.a_matrix_.value_.getD k 0),
              index := column.index.set column.count.toNat
                (nla.lp_.a_matrix_.index_.getD k 0),
              count := column.count + 1 })
          { column.clear with packFlag := true } := by
      unfold inverseColumn
      simp only []
      rw [if_pos hcol]
    rw [heq]
    refine ⟨?_, hloop.2.1, hloop.2.2.1, hloop.2.2.2.1⟩
    unfold inverseColumnChecked
    refine (bind_of_eq_some hbase _).trans ?_
    simp only []
    rw [if_pos hcol]
    refine (bind_of_eq_some (colEntriesChecked_eq nla hwf _ hcol) _).trans ?_
    exact hloop.1
  · have hidx := hlogical hcol
    have heq : inverseColumn nla column iRow
        = { (({ column.clear with packFlag := true }) : HVector) with
            array := column.clear.array.set (nla.base_index_.getD iRow 0 - nla.lp_.num_col_) 1,
            index := column.clear.index.set column.clear.count.toNat
              (nla.base_index_.getD iRow 0 - nla.lp_.num_col_),
            count := column.clear.count + 1 } := by
      unfold inverseColumn
      simp only []
      rw [if_neg hcol]
    rw [heq]
    refine ⟨?_, hcl.2.2.2.trans hsize, ?_, ?_⟩
    · unfold inverseColumnChecked
      refine (bind_of_eq_some hbase _).trans ?_
      simp only []
      rw [if_neg hcol]
      refine (bind_of_eq_some
        (writeAt_eq column.clear.array _ 1 (by rw [hcl.1, hsize]; exact hidx)) _).trans ?_
      refine (bind_of_eq_some
        (writeAtCount_eq column.clear.index column.clear.count _
          (le_of_eq hcl.2.2.1.symm)
          (by rw [hcl.2.2.1, hcl.2.1, hindex]; exact Nat.lt_of_le_of_lt (Nat.zero_le _) hrow))
        _).trans ?_
      rfl
    · show (column.clear.array.set _ _).length = _
      rw [List.length_set, hcl.1, hsize]
    · show (column.clear.index.set _ _).length = _
      rw [List.length_set, hcl.2.1, hindex]

theorem inverseColumnErrorNormChecked_eq (n : Nat) (column : HVector) (iRow : Nat)
    (h : column.array.length = n) :
    inverseColumnErrorNormChecked n column iRow
      = some (inverseColumnErrorNorm n column iRow) := by
  unfold inverseColumnErrorNormChecked inverseColumnErrorNorm
  refine (foldlM_eq_some_foldl _ _ (fun rest _ => ∀ i ∈ rest, i < n) ?_ _ 0
    (fun i hi => List.mem_range.mp hi)).1
  intro i rest s hJ
  beta_reduce
  rw [readAt_eq column.array i 0 (by rw [h]; exact hJ i (List.mem_cons_self _ _))]
  exact ⟨rfl, fun i' hi' => hJ i' (List.mem_cons_of_mem _ hi')⟩

theorem inverseStepChecked_eq (nla : HSimplexNla) (hwf : WellFormed nla)
    (horacle : OracleKeepsLengths nla) (i : Nat) (rest : List Nat) (s : InverseState)
    (hs : InverseShape nla (i :: rest) s) :
    inverseStepChecked nla s i = some (inverseStep nla s i)
      ∧ InverseShape nla rest (inverseStep nla s i) := by
  obtain ⟨h1, h2, h3⟩ := hs
  obtain ⟨hc, hcsize, hcarray, hcindex⟩ :=
    inverseColumnChecked_eq nla hwf s.column i (h3 i (List.mem_cons_self _ _)) h1 h2
  have hy := (horacle (inverseColumn nla s.column i) 0).1
  constructor
  · unfold inverseStepChecked
    refine (bind_of_eq_some hc _).trans ?_
    refine (bind_of_eq_some
      (inverseColumnErrorNormChecked_eq nla.lp_.num_row_
        (nla.ftran (inverseColumn nla s.column i) 0) i (hy.2.1.trans hcarray)) _).trans ?_
    refine (bind_of_eq_some
      (debugResidualErrorChecked_eq nla hwf false (nla.ftran (inverseColumn nla s.column i) 0)
        (inverseColumn nla s.column i) (hy.2.1.trans hcarray) hcarray) _).trans ?_
    rfl
  · exact ⟨hy.1.trans hcsize, hy.2.2.trans hcindex,
      fun i' hi' => h3 i' (List.mem_cons_of_mem _ hi')⟩

theorem inverseLoopChecked_eq (nla : HSimplexNla) (hwf : WellFormed nla)
    (horacle : OracleKeepsLengths nla) (column : HVector)
    (hsize : column.size = nla.lp_.num_row_)
    (hindex : column.index.length = nla.lp_.num_row_) :
    inverseLoopChecked nla column = some (inverseLoop nla column) := by
  unfold inverseLoopChecked inverseLoop
  exact (foldlM_eq_some_foldl (inverseStep nla) (inverseStepChecked nla) (InverseShape nla)
    (fun i rest s hs => inverseStepChecked_eq nla hwf horacle i rest s hs)
    (List.range nla.lp_.num_row_) _
    ⟨hsize, hindex, fun i hi => List.mem_range.mp hi⟩).1

theorem probes_column_index_length (nla : HSimplexNla) (random : Nat → ℚ) (force : Bool) :
    (randomProbes nla random force).column.index.length = nla.lp_.num_row_ := by
  rw [probes_column]
  simp

/-- With a well-formed input and an oracle that works in place, every access
of `debugCheckInvert` is in bounds. -/
theorem debugCheckInvertChecked_eq (nla : HSimplexNla) (hwf : WellFormed nla)
    (horacle : OracleKeepsLengths nla) (random : Nat → ℚ) (alt : Int) :
    debugCheckInvertChecked nla random alt = some (debugCheckInvert nla random alt) := by
  unfold debugCheckInvertChecked debugCheckInvert
  simp only []
  by_cases h1 : useDebugLevel nla alt < kHighsDebugLevelCostly
  · rw [if_pos h1, if_pos h1]
    rfl
  · rw [if_neg h1, if_neg h1]
    refine (bind_of_eq_some (randomProbesChecked_eq nla hwf horacle random _) _).trans ?_
    by_cases h2 : useDebugLevel nla alt < kHighsDebugLevelExpensive
    · rw [if_pos h2, if_pos h2]
      rfl
    · rw [if_neg h2, if_neg h2]
      refine (bind_of_eq_some
        (inverseLoopChecked_eq nla hwf horacle _ (probes_column_size nla random _)
          (probes_column_index_length nla random _)) _).trans ?_
      rfl

/-! ## The claims -/

/-- C1 (defect of the code). On a well-formed input at the level Costly, with
one logical row, `ftran` returning the zero vector and `btran` the identity,
the primal probe reports `Error` (its residual error is `1`), the transposed
probe reports `Ok`, and `debugCheckInvert` returns `Ok`, which is not the worse
of the two severities: the status of the primal probe (line 90) is overwritten
at line 111. -/
theorem C1_primal_status_overwritten :
    WellFormed (scaledOracleNla 2 0 1)
    ∧ (kHighsDebugLevelCostly ≤ useDebugLevel (scaledOracleNla 2 0 1) (-1)
      ∧ useDebugLevel (scaledOracleNla 2 0 1) (-1) < kHighsDebugLevelExpensive)
    ∧ (randomProbes (scaledOracleNla 2 0 1) (fun _ => 1) false).primal.residual_error_norm = 1
    ∧ (randomProbes (scaledOracleNla 2 0 1) (fun _ => 1) false).primal.return_status
        = HighsDebugStatus.kError
    ∧ (randomProbes (scaledOracleNla 2 0 1) (fun _ => 1) false).transposed.return_status
        = HighsDebugStatus.kOk
    ∧ (debugCheckInvert (scaledOracleNla 2 0 1) (fun _ => 1) (-1)).return_status
        = HighsDebugStatus.kOk
    ∧ (debugCheckInvert (scaledOracleNla 2 0 1) (fun _ => 1) (-1)).return_status
        ≠ worseStatus
            (randomProbes (scaledOracleNla 2 0 1) (fun _ => 1) false).primal.return_status
            (randomProbes (scaledOracleNla 2 0 1) (fun _ => 1) false).transposed.return_status := by
  decide!

/-- C2 (defect of the code). On a well-formed input at the level Expensive, with one logical row,
`ftran` scaling by `1 - 1e-9` and `btran` returning the zero vector, the
transposed probe reports `Error`, the exhaustive probe has the residual error
`1e-9`, which is Large, and `debugCheckInvert` returns `Warning`: line 183
replaces the `Error` reached before. -/
theorem C2_exhaustive_stage_lowers_error :
    WellFormed (scaledOracleNla 3 (1 - 1 / 10 ^ 9) 0)
    ∧ kHighsDebugLevelExpensive ≤ useDebugLevel (scaledOracleNla 3 (1 - 1 / 10 ^ 9) 0) (-1)
    ∧ (randomProbes (scaledOracleNla 3 (1 - 1 / 10 ^ 9) 0) (fun _ => 1) false).primal.return_status
        = HighsDebugStatus.kWarning
    ∧ (randomProbes (scaledOracleNla 3 (1 - 1 / 10 ^ 9) 0) (fun _ => 1)
        false).transposed.return_status = HighsDebugStatus.kError
    ∧ (inverseLoop (scaledOracleNla 3 (1 - 1 / 10 ^ 9) 0)
        (randomProbes (scaledOracleNla 3 (1 - 1 / 10 ^ 9) 0) (fun _ => 1)
          false).column).residual_error_norm = 1 / 10 ^ 9
    ∧ residualSeverity (1 / 10 ^ 9) = HighsDebugStatus.kWarning
    ∧ (debugCheckInvert (scaledOracleNla 3 (1 - 1 / 10 ^ 9) 0) (fun _ => 1) (-1)).return_status
        = HighsDebugStatus.kWarning := by
  decide!

/-- C3. `debugReportError` returns `Error` exactly when the residual error norm
is above `1e-6`, `Warning` exactly when it is above `1e-12` and at most `1e-6`,
and `Ok` otherwise; the status is a function of the residual error norm alone,
so that two calls with the same residual error norm return the same status
whatever their solve error norms. -/
theorem C3_report_status_by_residual_norm
    (nla : HSimplexNla) (transposed : Bool) (true_solution solution residual : HVector)
    (force : Bool)
    (nla' : HSimplexNla) (transposed' : Bool) (true_solution' solution' residual' : HVector)
    (force' : Bool) :
    (debugReportError nla transposed true_solution solution residual force).residual_error_norm
        = (debugResidualError nla transposed solution residual).1
    ∧ ((debugReportError nla transposed true_solution solution residual force).return_status
          = HighsDebugStatus.kError
        ↔ (debugReportError nla transposed true_solution solution residual
            force).residual_error_norm > 1 / 10 ^ 6)
    ∧ ((debugReportError nla transposed true_solution solution residual force).return_status
          = HighsDebugStatus.kWarning
        ↔ ((debugReportError nla transposed true_solution solution residual
              force).residual_error_norm > 1 / 10 ^ 12
            ∧ (debugReportError nla transposed true_solution solution residual
              force).residual_error_norm ≤ 1 / 10 ^ 6))
    ∧ ((debugReportError nla transposed true_solution solution residual force).return_status
          = HighsDebugStatus.kOk
        ↔ (debugReportError nla transposed true_solution solution residual
            force).residual_error_norm ≤ 1 / 10 ^ 12)
    ∧ ((debugReportError nla transposed true_solution solution residual force).residual_error_norm
          = (debugReportError nla' transposed' true_solution' solution' residual'
              force').residual_error_norm
        → (debugReportError nla transposed true_solution solution residual force).return_status
          = (debugReportError nla' transposed' true_solution' solution' residual'
              force').return_status) := by
  refine ⟨rfl, ?_, ?_, ?_, ?_⟩
  · rw [report_status]
    unfold kResidualExcessiveError kResidualLargeError
    constructor
    · intro h
      by_contra hc
      rw [if_neg hc] at h
      split at h <;> exact absurd h (by decide)
    · intro h
      rw [if_pos h]
  · rw [report_status]
    unfold kResidualExcessiveError kResidualLargeError
    constructor
    · intro h
      by_cases h1 : (debugReportError nla transposed true_solution solution residual
          force).residual_error_norm > 1 / 10 ^ 6
      · rw [if_pos h1] at h; exact absurd h (by decide)
      · rw [if_neg h1] at h
        by_cases h2 : (debugReportError nla transposed true_solution solution residual
            force).residual_error_norm > 1 / 10 ^ 12
        · exact ⟨h2, not_lt.mp h1⟩
        · rw [if_neg h2] at h; exact absurd h (by decide)
    · rintro ⟨h2, h1⟩
      rw [if_neg (not_lt.mpr h1), if_pos h2]
  · rw [report_status]
    unfold kResidualExcessiveError kResidualLargeError
    constructor
    · intro h
      by_cases h1 : (debugReportError nla transposed true_solution solution residual
          force).residual_error_norm > 1 / 10 ^ 6
      · rw [if_pos h1] at h; exact absurd h (by decide)
      · rw [if_neg h1] at h
        by_cases h2 : (debugReportError nla transposed true_solution solution residual
            force).residual_error_norm > 1 / 10 ^ 12
        · rw [if_pos h2] at h; exact absurd h (by decide)
        · exact not_lt.mp h2
    · intro h
      have h2 : ¬ (debugReportError nla transposed true_solution solution residual
          force).residual_error_norm > 1 / 10 ^ 12 := not_lt.mpr h
      have h1 : ¬ (debugReportError nla transposed true_solution solution residual
          force).residual_error_norm > 1 / 10 ^ 6 := by
        intro hc
        apply h2
        exact lt_trans (by norm_num) hc
      rw [if_neg h1, if_neg h2]
  · intro h
    rw [report_status, report_status nla', h]

/-- Witness of C3: a call with solve error norm `1` and a call with solve error
norm `0`, both with residual error norm `0`, return the same status. -/
theorem C3_report_status_by_residual_norm_witness :
    (debugReportError (scaledOracleNla 2 1 1) false (vec1 0) (vec1 1) (vec1 1)
        false).solve_error_norm = 1
    ∧ (debugReportError (scaledOracleNla 2 1 1) false (vec1 1) (vec1 1) (vec1 1)
        false).solve_error_norm = 0
    ∧ (debugReportError (scaledOracleNla 2 1 1) false (vec1 0) (vec1 1) (vec1 1)
        false).return_status
      = (debugReportError (scaledOracleNla 2 1 1) false (vec1 1) (vec1 1) (vec1 1)
        false).return_status :=
  ⟨by decide!, by decide!,
    (C3_report_status_by_residual_norm (scaledOracleNla 2 1 1) false (vec1 0) (vec1 1) (vec1 1)
      false (scaledOracleNla 2 1 1) false (vec1 1) (vec1 1) (vec1 1) false).2.2.2.2
      (by decide!)⟩

/-- C4. The level `debugCheckInvert` runs at is `alt_debug_level` when that is
not negative and `highs_debug_level` otherwise; when it is below Costly the
function returns `NotChecked`, logs nothing and calls neither `ftran` nor
`btran`, whatever the number of rows. -/
theorem C4_below_costly_not_checked (nla : HSimplexNla) (random : Nat → ℚ)
    (alt_debug_level : Int)
    (h : useDebugLevel nla alt_debug_level < kHighsDebugLevelCostly) :
    useDebugLevel nla alt_debug_level
        = (if 0 ≤ alt_debug_level then alt_debug_level else nla.options_.highs_debug_level)
    ∧ (debugCheckInvert nla random alt_debug_level).return_status = HighsDebugStatus.kNotChecked
    ∧ (debugCheckInvert nla random alt_debug_level).calls = []
    ∧ (debugCheckInvert nla random alt_debug_level).log = [] := by
  rw [checkInvert_gated nla random alt_debug_level h]
  refine ⟨?_, rfl, rfl, rfl⟩
  unfold useDebugLevel
  by_cases h0 : alt_debug_level < 0
  · rw [if_pos h0, if_neg (not_le.mpr h0)]
  · rw [if_neg h0, if_pos (not_lt.mp h0)]

/-- Witness of C4: five rows, ambient level `1`, no override. -/
theorem C4_below_costly_not_checked_witness :
    useDebugLevel (identity5Nla 1) (-1) < kHighsDebugLevelCostly
    ∧ (debugCheckInvert (identity5Nla 1) (fun _ => 1) (-1)).return_status
        = HighsDebugStatus.kNotChecked
    ∧ (debugCheckInvert (identity5Nla 1) (fun _ => 1) (-1)).calls = [] :=
  ⟨by decide,
    (C4_below_costly_not_checked (identity5Nla 1) (fun _ => 1) (-1) (by decide)).2.1,
    (C4_below_costly_not_checked (identity5Nla 1) (fun _ => 1) (-1) (by decide)).2.2.1⟩

/-- C5, as the claim states it, fails when a column lists a row twice. The
matrix has one structural column with the entries `1` and `1`, both in row `0`;
the basis matrix, with entries accumulated by row, is the invertible 1×1 matrix
`2`, and the oracle, dividing by `2`, is exact. The exhaustive probe assigns the
entries instead of accumulating them (line 129), solves for the column `1` and
finds the inverse error `1/2`. -/
theorem C5_repeated_row_index_inverse_error :
    IsUnit (basisMatrix duplicateEntryNla).det
    ∧ ExactOracle duplicateEntryNla
    ∧ OracleKeepsSize duplicateEntryNla
    ∧ kHighsDebugLevelExpensive ≤ useDebugLevel duplicateEntryNla (-1)
    ∧ (inverseLoop duplicateEntryNla
        (randomProbes duplicateEntryNla (fun _ => 1) false).column).inverse_error_norm = 1 / 2
    ∧ ¬ WellFormed duplicateEntryNla := by
  have hB : ∀ r i : Fin 1, basisMatrix duplicateEntryNla r i = 2 := by
    intro r i
    fin_cases r
    fin_cases i
    decide!
  have hmul : ∀ y : List ℚ, ∀ r : Fin 1,
      basisMul duplicateEntryNla y r.val = 2 * y.getD 0 0 := by
    intro y r
    fin_cases r
    show ((List.range 1).map (fun i => basisEntry duplicateEntryNla 0 i * y.getD i 0)).sum = _
    have h00 : basisEntry duplicateEntryNla 0 0 = 2 := by decide!
    simp [List.range_succ, h00]
  have hhalf : ∀ v : HVector, v.array.length = 1 →
      2 * (v.array.map (fun a => a / 2)).getD 0 0 = v.array.getD 0 0 := by
    intro v hv
    match hva : v.array, hv with
    | [a], _ => simp; ring
  refine ⟨?_, ⟨?_, ?_⟩, ?_, by decide, by decide!, by decide⟩
  · have hdet : (basisMatrix duplicateEntryNla).det = 2 := by
      show Matrix.det (basisMatrix duplicateEntryNla : Matrix (Fin 1) (Fin 1) ℚ) = 2
      rw [Matrix.det_fin_one]
      exact hB 0 0
    rw [hdet]
    exact isUnit_iff_ne_zero.mpr (by norm_num)
  · intro v d hv
    funext r
    rw [mulVec_toVec]
    have hr : r = (0 : Fin 1) := @Subsingleton.elim (Fin 1) _ r 0
    rw [hmul _ r, hr]
    exact hhalf v hv
  · intro v d hv
    funext r
    rw [mulVec_transpose_toVec]
    have hr : r = (0 : Fin 1) := @Subsingleton.elim (Fin 1) _ r 0
    have hmulT : ∀ y : List ℚ, basisMulT duplicateEntryNla y r.val = 2 * y.getD 0 0 := by
      intro y
      rw [hr]
      show ((List.range 1).map (fun i => basisEntry duplicateEntryNla i 0 * y.getD i 0)).sum = _
      have h00 : basisEntry duplicateEntryNla 0 0 = 2 := by decide!
      simp [List.range_succ, h00]
    rw [hmulT, hr]
    exact hhalf v hv
  · intro v d
    exact ⟨⟨rfl, List.length_map _ _⟩, ⟨rfl, List.length_map _ _⟩⟩

/-- C5, amended. Over exact arithmetic, for every well-formed matrix and basis
map (in particular no row index is repeated within a column) whose basis matrix
is invertible, for every random vector drawn and every oracle that works in
place and is exact, `debugCheckInvert` at a level of at least Expensive returns
`Ok`, and every magnitude it computes is `0`: the solve error and the residual
error of the primal and of the transposed probe, the inverse error norm and the
residual error norm of the exhaustive probe. -/
theorem C5_exact_oracle_all_zero (nla : HSimplexNla) (random : Nat → ℚ) (alt : Int)
    (hwf : WellFormed nla) (hinv : IsUnit (basisMatrix nla).det)
    (horacle : ExactOracle nla) (hsize : OracleKeepsSize nla)
    (hlevel : kHighsDebugLevelExpensive ≤ useDebugLevel nla alt) :
    (debugCheckInvert nla random alt).return_status = HighsDebugStatus.kOk
    ∧ (randomProbes nla random (forceDebug nla alt)).primal.solve_error_norm = 0
    ∧ (randomProbes nla random (forceDebug nla alt)).primal.residual_error_norm = 0
    ∧ (randomProbes nla random (forceDebug nla alt)).transposed.solve_error_norm = 0
    ∧ (randomProbes nla random (forceDebug nla alt)).transposed.residual_error_norm = 0
    ∧ (inverseLoop nla
        (randomProbes nla random (forceDebug nla alt)).column).inverse_error_norm = 0
    ∧ (inverseLoop nla
        (randomProbes nla random (forceDebug nla alt)).column).residual_error_norm = 0
    ∧ (∀ m ∈ computedMagnitudes nla random (useDebugLevel nla alt), m = 0) := by
  obtain ⟨hp1, hp2, _, _⟩ := probes_primal_exact nla random (forceDebug nla alt) hinv horacle
  obtain ⟨ht1, ht2, ht3, _⟩ :=
    probes_transposed_exact nla random (forceDebug nla alt) hinv horacle hsize
  obtain ⟨hi1, hi2⟩ := inverseLoop_exact nla hwf hinv horacle hsize
    (randomProbes nla random (forceDebug nla alt)).column (probes_column_size nla random _)
  refine ⟨?_, hp1, hp2, ht1, ht2, hi1, hi2, ?_⟩
  · rw [checkInvert_expensive nla random alt hlevel, inverseReport_status, hi2, ht3]
    rw [if_neg (by unfold kResidualExcessiveError; norm_num),
      if_neg (by unfold kResidualLargeError; norm_num)]
  · intro m hm
    unfold computedMagnitudes at hm
    simp only [if_neg (not_lt.mpr hlevel), List.mem_append, List.mem_cons, List.mem_singleton,
      List.not_mem_nil, or_false] at hm
    have e1 : (randomProbes nla random false).primal.solve_error_norm
        = (randomProbes nla random (forceDebug nla alt)).primal.solve_error_norm := rfl
    have e2 : (randomProbes nla random false).primal.residual_error_norm
        = (randomProbes nla random (forceDebug nla alt)).primal.residual_error_norm := rfl
    have e3 : (randomProbes nla random false).transposed.solve_error_norm
        = (randomProbes nla random (forceDebug nla alt)).transposed.solve_error_norm := rfl
    have e4 : (randomProbes nla random false).transposed.residual_error_norm
        = (randomProbes nla random (forceDebug nla alt)).transposed.residual_error_norm := rfl
    have e5 : (randomProbes nla random false).column
        = (randomProbes nla random (forceDebug nla alt)).column := rfl
    rw [e1, e2, e3, e4, e5, hp1, hp2, ht1, ht2, hi1, hi2] at hm
    rcases hm with (h | h | h | h) | (h | h) <;> exact h

/-- Witness of C5: the 5×5 basis map of all logical columns with the identity
oracle, at the level Expensive. -/
theorem C5_exact_oracle_all_zero_witness :
    WellFormed (identity5Nla 3)
    ∧ IsUnit (basisMatrix (identity5Nla 3)).det
    ∧ ExactOracle (identity5Nla 3)
    ∧ OracleKeepsSize (identity5Nla 3)
    ∧ kHighsDebugLevelExpensive ≤ useDebugLevel (identity5Nla 3) (-1)
    ∧ (debugCheckInvert (identity5Nla 3) (fun k => 1 / (k + 2)) (-1)).return_status
        = HighsDebugStatus.kOk
    ∧ (∀ m ∈ computedMagnitudes (identity5Nla 3) (fun k => 1 / (k + 2))
        (useDebugLevel (identity5Nla 3) (-1)), m = 0) := by
  have hone : basisMatrix (identity5Nla 3) = (1 : Matrix (Fin 5) (Fin 5) ℚ) := by
    funext r i
    fin_cases r <;> fin_cases i <;> decide!
  have hinv : IsUnit (basisMatrix (identity5Nla 3)).det := by
    rw [hone, Matrix.det_one]
    exact isUnit_one
  have horacle : ExactOracle (identity5Nla 3) := by
    constructor
    · intro v d _
      rw [hone]
      exact Matrix.one_mulVec _
    · intro v d _
      rw [hone, Matrix.transpose_one]
      exact Matrix.one_mulVec _
  have hsize : OracleKeepsSize (identity5Nla 3) := fun _ _ => ⟨⟨rfl, rfl⟩, ⟨rfl, rfl⟩⟩
  exact ⟨by decide, hinv, horacle, hsize, by decide,
    (C5_exact_oracle_all_zero (identity5Nla 3) (fun k => 1 / (k + 2)) (-1) (by decide) hinv
      horacle hsize (by decide)).1,
    (C5_exact_oracle_all_zero (identity5Nla 3) (fun k => 1 / (k + 2)) (-1) (by decide) hinv
      horacle hsize (by decide)).2.2.2.2.2.2.2⟩

/-- C6, as the claim states it, fails for the solve error and for the inverse
error: a call of `debugReportError` whose solve error norm is `1`, which is
Excessive, returns `Ok` as does the call whose solve error norm is `0`, the
residual error norm being `0` in both; and the exhaustive stage returns the
status it was entered with, `Ok`, whether the inverse error norm is `0` or `1`. -/
theorem C6_solve_and_inverse_error_leave_status :
    (debugReportError (scaledOracleNla 2 1 1) false (vec1 1) (vec1 1) (vec1 1)
        false).solve_error_norm = 0
    ∧ (debugReportError (scaledOracleNla 2 1 1) false (vec1 1) (vec1 1) (vec1 1)
        false).residual_error_norm = 0
    ∧ (debugReportError (scaledOracleNla 2 1 1) false (vec1 1) (vec1 1) (vec1 1)
        false).return_status = HighsDebugStatus.kOk
    ∧ (debugReportError (scaledOracleNla 2 1 1) false (vec1 0) (vec1 1) (vec1 1)
        false).solve_error_norm = 1
    ∧ (1 : ℚ) > kSolveExcessiveError
    ∧ (debugReportError (scaledOracleNla 2 1 1) false (vec1 0) (vec1 1) (vec1 1)
        false).residual_error_norm = 0
    ∧ (debugReportError (scaledOracleNla 2 1 1) false (vec1 0) (vec1 1) (vec1 1)
        false).return_status = HighsDebugStatus.kOk
    ∧ (inverseReport false HighsDebugStatus.kOk 0 0).1 = HighsDebugStatus.kOk
    ∧ (1 : ℚ) > kInverseExcessiveError
    ∧ (inverseReport false HighsDebugStatus.kOk 1 0).1 = HighsDebugStatus.kOk := by
  decide!

/-- C6, amended. The returned severity is monotone in the residual error, and
in no other magnitude. The status `debugReportError` returns is `Ok` for a
residual error norm of at most `1e-12`, `Warning` for one above `1e-12` and at
most `1e-6`, `Error` for one above `1e-6`, whatever the solve error; it does not
decrease when the residual error norm increases. The exhaustive stage, entered
with a status of at most `Warning`, returns that status for a residual error
norm of at most `1e-12` and `Warning` or `Error` beyond as above, whatever the
inverse error; its result does not decrease when the residual error norm
increases. -/
theorem C6_status_monotone_in_residual_error
    (nla : HSimplexNla) (transposed : Bool) (true_solution solution residual : HVector)
    (force : Bool)
    (nla' : HSimplexNla) (transposed' : Bool) (true_solution' solution' residual' : HVector)
    (force' : Bool)
    (f f' : Bool) (st : HighsDebugStatus) (e e' q q' : ℚ)
    (hres : (debugReportError nla transposed true_solution solution residual
          force).residual_error_norm
        ≤ (debugReportError nla' transposed' true_solution' solution' residual'
          force').residual_error_norm)
    (hq : q ≤ q')
    (hst : st.rank ≤ HighsDebugStatus.kWarning.rank) :
    (debugReportError nla transposed true_solution solution residual force).return_status.rank
        ≤ (debugReportError nla' transposed' true_solution' solution' residual'
            force').return_status.rank
    ∧ (debugReportError nla transposed true_solution solution residual force).return_status
        = residualSeverity
            (debugReportError nla transposed true_solution solution residual
              force).residual_error_norm
    ∧ (inverseReport f st e q).1.rank ≤ (inverseReport f' st e' q').1.rank
    ∧ (inverseReport f st e q).1 = (if q ≤ 1 / 10 ^ 12 then st else residualSeverity q) := by
  have hmono : ∀ a b : ℚ, a ≤ b → (residualSeverity a).rank ≤ (residualSeverity b).rank := by
    intro a b hab
    unfold residualSeverity
    by_cases h1 : a > 1 / 10 ^ 6
    · have h1' : b > 1 / 10 ^ 6 := lt_of_lt_of_le h1 hab
      rw [if_pos h1, if_pos h1']
    · rw [if_neg h1]
      by_cases h2 : a > 1 / 10 ^ 12
      · rw [if_pos h2]
        have h2' : b > 1 / 10 ^ 12 := lt_of_lt_of_le h2 hab
        by_cases h3 : b > 1 / 10 ^ 6
        · rw [if_pos h3]; decide
        · rw [if_neg h3, if_pos h2']
      · rw [if_neg h2]
        by_cases h3 : b > 1 / 10 ^ 6
        · rw [if_pos h3]; decide
        · rw [if_neg h3]
          by_cases h4 : b > 1 / 10 ^ 12
          · rw [if_pos h4]; decide
          · rw [if_neg h4]
  have hrep : ∀ (n : HSimplexNla) (t : Bool) (a b c : HVector) (g : Bool),
      (debugReportError n t a b c g).return_status
        = residualSeverity (debugReportError n t a b c g).residual_error_norm := by
    intro n t a b c g
    rw [report_status]
    rfl
  have hinv : ∀ (g : Bool) (x y : ℚ),
      (inverseReport g st x y).1 = (if y ≤ 1 / 10 ^ 12 then st else residualSeverity y) := by
    intro g x y
    rw [inverseReport_status]
    unfold residualSeverity kResidualExcessiveError kResidualLargeError
    by_cases h2 : y > 1 / 10 ^ 12
    · rw [if_neg (not_le.mpr h2), if_pos h2, if_pos h2]
    · have h1 : ¬ y > 1 / 10 ^ 6 := fun hc => h2 (lt_trans (by norm_num) hc)
      rw [if_neg h1, if_neg h2, if_pos (not_lt.mp h2)]
  refine ⟨?_, hrep _ _ _ _ _ _, ?_, hinv f e q⟩
  · rw [hrep, hrep nla']
    exact hmono _ _ hres
  · rw [hinv f e q, hinv f' e' q']
    by_cases h1 : q ≤ 1 / 10 ^ 12
    · rw [if_pos h1]
      by_cases h2 : q' ≤ 1 / 10 ^ 12
      · rw [if_pos h2]
      · rw [if_neg h2]
        refine le_trans hst ?_
        unfold residualSeverity
        by_cases h3 : q' > 1 / 10 ^ 6
        · rw [if_pos h3]; decide
        · rw [if_neg h3, if_pos (not_le.mp h2)]
    · have h2 : ¬ q' ≤ 1 / 10 ^ 12 := fun hc => h1 (le_trans hq hc)
      rw [if_neg h1, if_neg h2]
      exact hmono _ _ hq

/-- Witness of C6: residual error norms `0` and `1` of `debugReportError`, and
residual error norms `0` and `1e-9` of the exhaustive stage entered with `Ok`. -/
theorem C6_status_monotone_in_residual_error_witness :
    (debugReportError (scaledOracleNla 2 1 1) false (vec1 1) (vec1 1) (vec1 1)
        false).return_status.rank
      ≤ (debugReportError (scaledOracleNla 2 1 1) false (vec1 1) (vec1 1) (vec1 2)
        false).return_status.rank
    ∧ (inverseReport false HighsDebugStatus.kOk 0 0).1.rank
      ≤ (inverseReport false HighsDebugStatus.kOk 0 (1 / 10 ^ 9)).1.rank :=
  ⟨(C6_status_monotone_in_residual_error (scaledOracleNla 2 1 1) false (vec1 1) (vec1 1)
      (vec1 1) false (scaledOracleNla 2 1 1) false (vec1 1) (vec1 1) (vec1 2) false
      false false HighsDebugStatus.kOk 0 0 0 (1 / 10 ^ 9)
      (by decide!) (by norm_num) (by decide)).1,
    (C6_status_monotone_in_residual_error (scaledOracleNla 2 1 1) false (vec1 1) (vec1 1)
      (vec1 1) false (scaledOracleNla 2 1 1) false (vec1 1) (vec1 1) (vec1 2) false
      false false HighsDebugStatus.kOk 0 0 0 (1 / 10 ^ 9)
      (by decide!) (by norm_num) (by decide)).2.2.1⟩

/-- C7. For a solution vector `y` and a right-hand side `b` of dimension
`num_row`, `debugResidualError` with `transposed = false` overwrites the
residual vector, initially `b`, with `b - B·y` and returns the largest
`|b[row] - (B·y)[row]|`; with `transposed = true` it overwrites it with
`b - Bᵀ·y` and returns the largest `|b[row] - (Bᵀ·y)[row]|`; the result is `0`
when `num_row = 0`.  The entries of `B` are those of `basisEntry`. -/
theorem C7_residual_error_is_b_minus_By (nla : HSimplexNla) (y b : HVector)
    (hy : y.array.length = nla.lp_.num_row_) (hb : b.array.length = nla.lp_.num_row_) :
    (∀ row, row < nla.lp_.num_row_ →
        (debugResidualError nla false y b).2.array.getD row 0
          = b.array.getD row 0 - basisMul nla y.array row)
    ∧ IsMaxAbs nla.lp_.num_row_ (fun row => b.array.getD row 0 - basisMul nla y.array row)
        (debugResidualError nla false y b).1
    ∧ (∀ row, row < nla.lp_.num_row_ →
        (debugResidualError nla true y b).2.array.getD row 0
          = b.array.getD row 0 - basisMulT nla y.array row)
    ∧ IsMaxAbs nla.lp_.num_row_ (fun row => b.array.getD row 0 - basisMulT nla y.array row)
        (debugResidualError nla true y b).1
    ∧ (debugResidualError nla false y b).2.array.length = nla.lp_.num_row_
    ∧ (debugResidualError nla true y b).2.array.length = nla.lp_.num_row_
    ∧ (nla.lp_.num_row_ = 0 →
        (debugResidualError nla false y b).1 = 0 ∧ (debugResidualError nla true y b).1 = 0) := by
  have hF : ∀ row, row < nla.lp_.num_row_ →
      (debugResidualError nla false y b).2.array.getD row 0
        = b.array.getD row 0 - basisMul nla y.array row := by
    intro row hrow
    exact residual_false_getD nla y b row (by rw [hb]; exact hrow)
  have hT : ∀ row, row < nla.lp_.num_row_ →
      (debugResidualError nla true y b).2.array.getD row 0
        = b.array.getD row 0 - basisMulT nla y.array row := by
    intro row hrow
    rw [residual_true_getD nla y b row (by rw [hb]; exact hrow) (le_of_eq hy), if_pos hrow]
  have hnF : IsMaxAbs nla.lp_.num_row_
      (fun row => b.array.getD row 0 - basisMul nla y.array row)
      (debugResidualError nla false y b).1 :=
    isMaxAbs_congr _ _ _ _ hF (maxAbsNorm_isMaxAbs _ _)
  have hnT : IsMaxAbs nla.lp_.num_row_
      (fun row => b.array.getD row 0 - basisMulT nla y.array row)
      (debugResidualError nla true y b).1 :=
    isMaxAbs_congr _ _ _ _ hT (maxAbsNorm_isMaxAbs _ _)
  refine ⟨hF, hnF, hT, hnT, ?_, ?_, ?_⟩
  · rw [residual_length, hb]
  · rw [residual_length, hb]
  · intro h0
    exact ⟨hnF.1 h0, hnT.1 h0⟩

/-- Witness of C7: the basis of the two structural columns `(2, 1)` and `(0, 3)`,
`y = (1, 1)` and `b = (5, 7)`: `b - B·y = (3, 3)` and `b - Bᵀ·y = (2, 4)`. -/
theorem C7_residual_error_is_b_minus_By_witness :
    (debugResidualError structural2Nla false
        { size := 2, count := 2, index := [0, 1], array := [1, 1], packFlag := false }
        { size := 2, count := 2, index := [0, 1], array := [5, 7], packFlag := false }).2.array
      = [3, 3]
    ∧ (debugResidualError structural2Nla true
        { size := 2, count := 2, index := [0, 1], array := [1, 1], packFlag := false }
        { size := 2, count := 2, index := [0, 1], array := [5, 7], packFlag := false }).2.array
      = [2, 4]
    ∧ IsMaxAbs 2
        (fun row => ([5, 7] : List ℚ).getD row 0 - basisMul structural2Nla [1, 1] row)
        (debugResidualError structural2Nla false
          { size := 2, count := 2, index := [0, 1], array := [1, 1], packFlag := false }
          { size := 2, count := 2, index := [0, 1], array := [5, 7], packFlag := false }).1 :=
  ⟨by decide!, by decide!,
    (C7_residual_error_is_b_minus_By structural2Nla
      { size := 2, count := 2, index := [0, 1], array := [1, 1], packFlag := false }
      { size := 2, count := 2, index := [0, 1], array := [5, 7], packFlag := false }
      (by decide) (by decide)).2.1⟩


/-- C8, as the claim states it, fails: with `ftran` returning the zero vector
and `btran` the identity on one logical row, the primal solve returns `y = 0`
while the random vector is `x = 1`; the transposed right-hand side is
`Bᵀ·x = 1`, not `Bᵀ·y = 0`, and the transposed solve error is `|z - x| = 0`,
not `|z - y| = 1`. -/
theorem C8_true_vector_is_not_the_primal_solution :
    (randomProbes (scaledOracleNla 2 0 1) (fun _ => 1) false).column.array = [1]
    ∧ (randomProbes (scaledOracleNla 2 0 1) (fun _ => 1) false).primal_solution.array = [0]
    ∧ (randomProbes (scaledOracleNla 2 0 1) (fun _ => 1) false).transposed_solution.array = [1]
    ∧ (randomProbes (scaledOracleNla 2 0 1) (fun _ => 1) false).transposed_rhs.array.getD 0 0
        ≠ basisMulT (scaledOracleNla 2 0 1)
            (randomProbes (scaledOracleNla 2 0 1) (fun _ => 1) false).primal_solution.array 0
    ∧ ¬ IsMaxAbs 1
        (fun row =>
          (randomProbes (scaledOracleNla 2 0 1) (fun _ => 1) false).transposed_solution.array.getD
              row 0
            - (randomProbes (scaledOracleNla 2 0 1) (fun _ => 1) false).primal_solution.array.getD
              row 0)
        (randomProbes (scaledOracleNla 2 0 1) (fun _ => 1) false).transposed.solve_error_norm := by
  refine ⟨by decide!, by decide!, by decide!, by decide!, ?_⟩
  intro h
  have h1 := h.2.1 0 (by decide)
  have e1 : (randomProbes (scaledOracleNla 2 0 1) (fun _ => 1)
      false).transposed.solve_error_norm = 0 := by decide!
  have e2 : (randomProbes (scaledOracleNla 2 0 1) (fun _ => 1)
      false).transposed_solution.array.getD 0 0 = 1 := by decide!
  have e3 : (randomProbes (scaledOracleNla 2 0 1) (fun _ => 1)
      false).primal_solution.array.getD 0 0 = 0 := by decide!
  simp only [e1, e2, e3] at h1
  norm_num at h1

/-- C8, amended. In the transposed probe the vector used as the true vector is
the random vector `x` drawn in the primal probe (`x[row]` is the draw number
`row`): when the oracle works in place, leaving the dimension of its argument unchanged, the
transposed right-hand side is `Bᵀ·x`, the vector `z` is what `btran` returns on
it, and the transposed solve error is the largest `|z[row] - x[row]|`, for every
matrix, basis map and oracle, also when the `y` returned by `ftran` is not `x`. -/
theorem C8_transposed_probe_uses_random_vector (nla : HSimplexNla) (random : Nat → ℚ)
    (force : Bool) (hsize : OracleKeepsSize nla) :
    (∀ row, row < nla.lp_.num_row_ →
        (randomProbes nla random force).column.array.getD row 0 = random row)
    ∧ (∀ row, row < nla.lp_.num_row_ →
        (randomProbes nla random force).transposed_rhs.array.getD row 0
          = basisMulT nla (randomProbes nla random force).column.array row)
    ∧ (randomProbes nla random force).transposed_solution
        = nla.btran (randomProbes nla random force).transposed_rhs 1
    ∧ IsMaxAbs nla.lp_.num_row_
        (fun row => (randomProbes nla random force).transposed_solution.array.getD row 0
          - random row)
        (randomProbes nla random force).transposed.solve_error_norm := by
  refine ⟨fun row hrow => probes_column_getD nla random force row hrow,
    fun row hrow => probes_transposed_rhs_getD nla random force hsize row hrow, rfl, ?_⟩
  rw [probes_transposed]
  refine isMaxAbs_congr _ _ _ _ ?_ (report_solve_error_norm nla true _ _ _ force)
  intro row hrow
  rw [probes_column_getD nla random force row hrow]

/-- Witness of C8: the oracle of the counterexample, for which `y = 0` and
`x = 1`. -/
theorem C8_transposed_probe_uses_random_vector_witness :
    OracleKeepsSize (scaledOracleNla 2 0 1)
    ∧ IsMaxAbs 1
        (fun row =>
          (randomProbes (scaledOracleNla 2 0 1) (fun _ => 1) false).transposed_solution.array.getD
              row 0 - (fun _ => (1 : ℚ)) row)
        (randomProbes (scaledOracleNla 2 0 1) (fun _ => 1) false).transposed.solve_error_norm :=
  ⟨fun _ _ => ⟨⟨rfl, List.length_map _ _⟩, ⟨rfl, List.length_map _ _⟩⟩,
    (C8_transposed_probe_uses_random_vector (scaledOracleNla 2 0 1) (fun _ => 1) false
      (fun _ _ => ⟨⟨rfl, List.length_map _ _⟩, ⟨rfl, List.length_map _ _⟩⟩)).2.2.2⟩

/-- C9, as the claim states it, fails: with `ftran` scaling by `1 - 1e-13` on
one logical row, the run at the ambient level Costly is not forced, returns
`Ok`, and logs two records (the solve error and the residual error `1e-13`,
both Small and nonzero); the forced run at the same level returns `Ok` too. -/
theorem C9_unforced_ok_run_logs :
    forceDebug (scaledOracleNla 2 (1 - 1 / 10 ^ 13) 1) (-1) = false
    ∧ forceDebug (scaledOracleNla 0 (1 - 1 / 10 ^ 13) 1) 2 = true
    ∧ useDebugLevel (scaledOracleNla 2 (1 - 1 / 10 ^ 13) 1) (-1)
        = useDebugLevel (scaledOracleNla 0 (1 - 1 / 10 ^ 13) 1) 2
    ∧ (debugCheckInvert (scaledOracleNla 0 (1 - 1 / 10 ^ 13) 1) (fun _ => 1) 2).return_status
        = HighsDebugStatus.kOk
    ∧ (debugCheckInvert (scaledOracleNla 2 (1 - 1 / 10 ^ 13) 1) (fun _ => 1) (-1)).return_status
        = HighsDebugStatus.kOk
    ∧ (debugCheckInvert (scaledOracleNla 2 (1 - 1 / 10 ^ 13) 1) (fun _ => 1) (-1)).log.length = 2
    ∧ (debugCheckInvert (scaledOracleNla 2 (1 - 1 / 10 ^ 13) 1) (fun _ => 1) (-1)).log ≠ [] := by
  decide!

/-- C9, amended. For two runs of `debugCheckInvert` on the same matrix, basis
map and oracle at the same level, one forced with the outcome `Ok` and one not
forced: both return the same severity; the forced run logs exactly one record
more than the other (the record that debugging is forced), hence at least one;
and the run that is not forced logs no record exactly when every magnitude it
computes is zero. -/
theorem C9_forced_run_logs_one_more (nla : HSimplexNla) (options' : HighsOptions)
    (random : Nat → ℚ) (alt alt' : Int)
    (hforced : alt > nla.options_.highs_debug_level)
    (hnot : ¬ alt' > options'.highs_debug_level)
    (hlevel : useDebugLevel nla alt = useDebugLevel { nla with options_ := options' } alt')
    (hok : (debugCheckInvert nla random alt).return_status = HighsDebugStatus.kOk) :
    (debugCheckInvert { nla with options_ := options' } random alt').return_status
        = (debugCheckInvert nla random alt).return_status
    ∧ (debugCheckInvert nla random alt).log.length
        = (debugCheckInvert { nla with options_ := options' } random alt').log.length + 1
    ∧ (debugCheckInvert nla random alt).log ≠ []
    ∧ ((debugCheckInvert { nla with options_ := options' } random alt').log = []
        ↔ ∀ m ∈ computedMagnitudes nla random (useDebugLevel nla alt), m = 0) := by
  have hcostly : kHighsDebugLevelCostly ≤ useDebugLevel nla alt := by
    by_contra hc
    rw [checkInvert_gated nla random alt (not_le.mp hc)] at hok
    exact absurd hok (by decide)
  have hf : forceDebug nla alt = true := by
    unfold forceDebug
    exact decide_eq_true hforced
  have hf' : forceDebug { nla with options_ := options' } alt' = false := by
    unfold forceDebug
    exact decide_eq_false hnot
  have hm : computedMagnitudes { nla with options_ := options' } random
      (useDebugLevel { nla with options_ := options' } alt')
      = computedMagnitudes nla random (useDebugLevel nla alt) := by
    rw [← hlevel]
    rfl
  have hlen := checkInvert_log_length nla random alt hcostly
  have hlen' := checkInvert_log_length { nla with options_ := options' } random alt'
    (by rw [← hlevel]; exact hcostly)
  rw [hf, if_pos rfl] at hlen
  rw [hf', if_neg (by decide), hm, zero_add] at hlen'
  refine ⟨checkInvert_status_level nla options' random alt alt' hlevel, ?_, ?_, ?_⟩
  · rw [hlen, hlen']; ring
  · intro hnil
    rw [hnil] at hlen
    simp only [List.length_nil] at hlen
    omega
  · rw [← List.length_eq_zero, hlen', List.countP_eq_zero]
    constructor
    · intro h m hmem
      have := h m hmem
      simpa using this
    · intro h m hmem
      simp [h m hmem]

/-- Witness of C9: five logical rows with an exact oracle, forced at the level
Costly over the ambient level `0`, against the run at the ambient level Costly. -/
theorem C9_forced_run_logs_one_more_witness :
    (2 : Int) > (identity5Nla 0).options_.highs_debug_level
    ∧ ¬ (-1 : Int) > 2
    ∧ useDebugLevel (identity5Nla 0) 2
        = useDebugLevel { identity5Nla 0 with options_ := { highs_debug_level := 2 } } (-1)
    ∧ (debugCheckInvert (identity5Nla 0) (fun _ => 1) 2).return_status = HighsDebugStatus.kOk
    ∧ (debugCheckInvert (identity5Nla 0) (fun _ => 1) 2).log.length
        = (debugCheckInvert { identity5Nla 0 with options_ := { highs_debug_level := 2 } }
            (fun _ => 1) (-1)).log.length + 1 :=
  ⟨by decide, by decide, by decide, by decide!,
    (C9_forced_run_logs_one_more (identity5Nla 0) { highs_debug_level := 2 } (fun _ => 1) 2 (-1)
      (by decide) (by decide) (by decide) (by decide!)).2.1⟩

/-- C10 (defect of the code). In a forced run at the level Expensive, with
`ftran` scaling by `1 - 1e-9` on one logical row, the record of the inverse
error is logged at the level `kWarning` while every other record is logged at
`kInfo`: lines 160-173 lack the assignment `if (force) report_level = kInfo`
that lines 187, 277 and 296 make. -/
theorem C10_forced_inverse_error_record_level :
    WellFormed (scaledOracleNla 0 (1 - 1 / 10 ^ 9) 1)
    ∧ forceDebug (scaledOracleNla 0 (1 - 1 / 10 ^ 9) 1) 3 = true
    ∧ (debugCheckInvert (scaledOracleNla 0 (1 - 1 / 10 ^ 9) 1) (fun _ => 1) 3).log.map
        (fun r => (r.metric, r.report_level))
      = [(LogMetric.forcingDebug, some HighsLogType.kInfo),
         (LogMetric.solveError, some HighsLogType.kInfo),
         (LogMetric.residualError, some HighsLogType.kInfo),
         (LogMetric.inverseError, some HighsLogType.kWarning),
         (LogMetric.inverseResidualError, some HighsLogType.kInfo)] := by
  decide!

/-- C11 (defect of the code). The variable `report_level` is not assigned in
the `Small` branches (lines 167-169, 184-186, 274-276, 293-295). In a run that
is not forced, on a well-formed input with one structural column of entry
`1e-13` and `ftran` returning the zero vector, the residual error `1e-13` is
`Small` and its record is logged at `kError`, the level left by the solve error
`1` reported just before. For `debugReportError` with the same residual error
norm `1e-13`, the residual record has no level assigned at all when the solve
error is `0` and the level `kError` when the solve error is `1`; the exhaustive
stage does the same after an inverse error of `1`. -/
theorem C11_small_band_level_unassigned :
    WellFormed (tinyColumnNla 2)
    ∧ forceDebug (tinyColumnNla 2) (-1) = false
    ∧ (debugCheckInvert (tinyColumnNla 2) (fun _ => 1) (-1)).log.map
        (fun x => (x.metric, x.transposed, x.value_adjective, x.magnitude, x.report_level))
      = [(LogMetric.solveError, false, "Excessive", 1, some HighsLogType.kError),
         (LogMetric.residualError, false, "Small", 1 / 10 ^ 13, some HighsLogType.kError),
         (LogMetric.solveError, true, "Excessive", 1, some HighsLogType.kError),
         (LogMetric.residualError, true, "Small", 1 / 10 ^ 13, some HighsLogType.kError)]
    ∧ (debugReportError (scaledOracleNla 2 1 1) false (vec1 1) (vec1 1)
        (vec1 (1 + 1 / 10 ^ 13)) false).log.map
        (fun x => (x.metric, x.value_adjective, x.magnitude, x.report_level))
      = [(LogMetric.residualError, "Small", 1 / 10 ^ 13, none)]
    ∧ (debugReportError (scaledOracleNla 2 1 1) false (vec1 0) (vec1 1)
        (vec1 (1 + 1 / 10 ^ 13)) false).log.map
        (fun x => (x.metric, x.value_adjective, x.magnitude, x.report_level))
      = [(LogMetric.solveError, "Excessive", 1, some HighsLogType.kError),
         (LogMetric.residualError, "Small", 1 / 10 ^ 13, some HighsLogType.kError)]
    ∧ (inverseReport false HighsDebugStatus.kOk 1 (1 / 10 ^ 13)).2.map
        (fun x => (x.metric, x.value_adjective, x.magnitude, x.report_level))
      = [(LogMetric.inverseError, "Excessive", 1, some HighsLogType.kError),
         (LogMetric.inverseResidualError, "Small", 1 / 10 ^ 13, some HighsLogType.kError)]
    ∧ (inverseReport false HighsDebugStatus.kOk 0 (1 / 10 ^ 13)).2.map
        (fun x => (x.metric, x.value_adjective, x.magnitude, x.report_level))
      = [(LogMetric.inverseResidualError, "Small", 1 / 10 ^ 13, none)] := by
  refine ⟨by decide, by decide!, by decide!, by decide!, by decide!, by decide!, by decide!⟩

/-- C12. Recording an observation with the computed weight `1` and the updated
weight `w` leaves the reject counter unchanged when `0.25 ≤ w ≤ 4` and
increments it by exactly one when `w < 0.25` or `w > 4`, for every `w` and so
for every strictly positive `w`; the band is
`[accept_weight_threshhold, 1 / accept_weight_threshhold]` with
`accept_weight_threshhold = 0.25`. -/
theorem C12_reject_counter_band (log_error : ℚ → ℚ → ℚ) (a : HighsSimplexAnalysis) (w : ℚ) :
    accept_weight_threshhold = 25 / 100
    ∧ 1 / accept_weight_threshhold = 4
    ∧ ((accept_weight_threshhold ≤ w ∧ w ≤ 1 / accept_weight_threshhold) →
        (dualSteepestEdgeWeightError log_error a 1 w).num_dual_steepest_edge_weight_reject
          = a.num_dual_steepest_edge_weight_reject)
    ∧ ((w < accept_weight_threshhold ∨ w > 1 / accept_weight_threshhold) →
        (dualSteepestEdgeWeightError log_error a 1 w).num_dual_steepest_edge_weight_reject
          = a.num_dual_steepest_edge_weight_reject + 1) := by
  refine ⟨rfl, by unfold accept_weight_threshhold; norm_num, ?_, ?_⟩
  · rintro ⟨h1, h2⟩
    unfold dualSteepestEdgeWeightError
    simp only [div_one]
    rw [if_neg (not_lt.mpr h1), if_neg (not_lt.mpr h2)]
  · intro h
    unfold dualSteepestEdgeWeightError
    simp only [div_one]
    by_cases h1 : w < accept_weight_threshhold
    · rw [if_pos h1]
    · rw [if_neg h1]
      have h2 : w > 1 / accept_weight_threshhold := h.resolve_left h1
      rw [if_pos h2]

/-- Witness of C12: the weights `1/4`, `4`, `1/5` and `5` on a new monitor. -/
theorem C12_reject_counter_band_witness :
    (dualSteepestEdgeWeightError (fun _ _ => 0) (HighsSimplexAnalysis.new true 0) 1
        (1 / 4)).num_dual_steepest_edge_weight_reject = 0
    ∧ (dualSteepestEdgeWeightError (fun _ _ => 0) (HighsSimplexAnalysis.new true 0) 1
        4).num_dual_steepest_edge_weight_reject = 0
    ∧ (dualSteepestEdgeWeightError (fun _ _ => 0) (HighsSimplexAnalysis.new true 0) 1
        (1 / 5)).num_dual_steepest_edge_weight_reject = 0 + 1
    ∧ (dualSteepestEdgeWeightError (fun _ _ => 0) (HighsSimplexAnalysis.new true 0) 1
        5).num_dual_steepest_edge_weight_reject = 0 + 1 :=
  ⟨(C12_reject_counter_band (fun _ _ => 0) (HighsSimplexAnalysis.new true 0) (1 / 4)).2.2.1
      ⟨by unfold accept_weight_threshhold; norm_num,
        by unfold accept_weight_threshhold; norm_num⟩,
    (C12_reject_counter_band (fun _ _ => 0) (HighsSimplexAnalysis.new true 0) 4).2.2.1
      ⟨by unfold accept_weight_threshhold; norm_num,
        by unfold accept_weight_threshhold; norm_num⟩,
    (C12_reject_counter_band (fun _ _ => 0) (HighsSimplexAnalysis.new true 0) (1 / 5)).2.2.2
      (Or.inl (by unfold accept_weight_threshhold; norm_num)),
    (C12_reject_counter_band (fun _ _ => 0) (HighsSimplexAnalysis.new true 0) 5).2.2.2
      (Or.inr (by unfold accept_weight_threshhold; norm_num))⟩

/-- C13. For every monitor, created with all statistics zero, and every
sequence of observations recorded after a call of `switchToDevex` that returned
true, `switchToDevex` returns true again: the states in which it is true are
closed under recording further observations. The evidence threshold and the
minimum number of checks are arbitrary. -/
theorem C13_switch_to_devex_stays_true (log_error : ℚ → ℚ → ℚ) (evidence_threshold : ℚ)
    (minimum_checks : Int) (allow : Bool) (log_error_threshhold : ℚ)
    (history later : List (ℚ × ℚ))
    (h : switchToDevex evidence_threshold minimum_checks
      (recordObservations log_error (HighsSimplexAnalysis.new allow log_error_threshhold)
        history) = true) :
    switchToDevex evidence_threshold minimum_checks
      (recordObservations log_error
        (recordObservations log_error (HighsSimplexAnalysis.new allow log_error_threshhold)
          history) later) = true := by
  have hinit := recordObservations_steps log_error history
    (HighsSimplexAnalysis.new allow log_error_threshhold)
    (by show (0 : ℚ) ≤ 1; norm_num) (by show (0 : ℚ) ≤ 1; norm_num)
  exact switchToDevex_closed log_error evidence_threshold minimum_checks _ later
    hinit.1 hinit.2.1 h

/-- Witness of C13: with the evidence threshold `1/25` and one check required,
one rejected observation makes `switchToDevex` true, and it is true after two
accepted observations more. -/
theorem C13_switch_to_devex_stays_true_witness :
    switchToDevex (1 / 25) 1
        (recordObservations (fun _ _ => 0) (HighsSimplexAnalysis.new true 0) [(1, 1 / 10)])
      = true
    ∧ switchToDevex (1 / 25) 1
        (recordObservations (fun _ _ => 0)
          (recordObservations (fun _ _ => 0) (HighsSimplexAnalysis.new true 0) [(1, 1 / 10)])
          [(1, 1), (1, 1)]) = true :=
  ⟨by decide!,
    C13_switch_to_devex_stays_true (fun _ _ => 0) (1 / 25) 1 true 0 [(1, 1 / 10)]
      [(1, 1), (1, 1)] (by decide!)⟩

/-- C14. For each of the three families (residual, solve, inverse) the large
threshold is `1e-12` and the excessive threshold is its square root `1e-6`,
which is larger. The band the code gives a magnitude is `Small` exactly when
the magnitude is at most the large threshold, `Large` exactly when it is above
the large and at most the excessive threshold, and `Excessive` exactly when it
is above the excessive threshold, so that every magnitude is in exactly one
band, the large threshold itself being `Small` and the excessive threshold
itself `Large`; the records of `debugReportError` and of the exhaustive stage
carry that band. -/
theorem C14_bands_partition_magnitudes (m : ℚ)
    (nla : HSimplexNla) (transposed : Bool) (true_solution solution residual : HVector)
    (force : Bool) (return_status : HighsDebugStatus)
    (inverse_error_norm residual_error_norm : ℚ) :
    (kResidualLargeError = 1 / 10 ^ 12 ∧ kResidualExcessiveError = 1 / 10 ^ 6
      ∧ 0 ≤ kResidualExcessiveError
      ∧ kResidualExcessiveError * kResidualExcessiveError = kResidualLargeError
      ∧ kResidualLargeError < kResidualExcessiveError)
    ∧ (kSolveLargeError = 1 / 10 ^ 12 ∧ kSolveExcessiveError = 1 / 10 ^ 6
      ∧ 0 ≤ kSolveExcessiveError
      ∧ kSolveExcessiveError * kSolveExcessiveError = kSolveLargeError
      ∧ kSolveLargeError < kSolveExcessiveError)
    ∧ (kInverseLargeError = 1 / 10 ^ 12 ∧ kInverseExcessiveError = 1 / 10 ^ 6
      ∧ 0 ≤ kInverseExcessiveError
      ∧ kInverseExcessiveError * kInverseExcessiveError = kInverseLargeError
      ∧ kInverseLargeError < kInverseExcessiveError)
    ∧ (errorBand (1 / 10 ^ 12) (1 / 10 ^ 6) m = "Small" ↔ m ≤ 1 / 10 ^ 12)
    ∧ (errorBand (1 / 10 ^ 12) (1 / 10 ^ 6) m = "Large" ↔ (1 / 10 ^ 12 < m ∧ m ≤ 1 / 10 ^ 6))
    ∧ (errorBand (1 / 10 ^ 12) (1 / 10 ^ 6) m = "Excessive" ↔ 1 / 10 ^ 6 < m)
    ∧ errorBand (1 / 10 ^ 12) (1 / 10 ^ 6) (1 / 10 ^ 12) = "Small"
    ∧ errorBand (1 / 10 ^ 12) (1 / 10 ^ 6) (1 / 10 ^ 6) = "Large"
    ∧ (debugReportError nla transposed true_solution solution residual force).log.map
          (fun x => (x.metric, x.value_adjective))
        = (if (debugReportError nla transposed true_solution solution residual
              force).solve_error_norm ≠ 0
            then [(LogMetric.solveError, errorBand kSolveLargeError kSolveExcessiveError
              (debugReportError nla transposed true_solution solution residual
                force).solve_error_norm)]
            else [])
          ++ (if (debugReportError nla transposed true_solution solution residual
              force).residual_error_norm ≠ 0
            then [(LogMetric.residualError,
              errorBand kResidualLargeError kResidualExcessiveError
                (debugReportError nla transposed true_solution solution residual
                  force).residual_error_norm)]
            else [])
    ∧ (inverseReport force return_status inverse_error_norm residual_error_norm).2.map
          (fun x => (x.metric, x.value_adjective))
        = (if inverse_error_norm ≠ 0 then [(LogMetric.inverseError,
              errorBand kInverseLargeError kInverseExcessiveError inverse_error_norm)] else [])
          ++ (if residual_error_norm ≠ 0 then [(LogMetric.inverseResidualError,
              errorBand kResidualLargeError kResidualExcessiveError residual_error_norm)]
            else []) := by
  have hSL : ("Small" : String) ≠ "Large" := by decide
  have hSE : ("Small" : String) ≠ "Excessive" := by decide
  have hLE : ("Large" : String) ≠ "Excessive" := by decide
  have hlt : (1 : ℚ) / 10 ^ 12 < 1 / 10 ^ 6 := by norm_num
  refine ⟨⟨rfl, rfl, ?_, ?_, ?_⟩, ⟨rfl, rfl, ?_, ?_, ?_⟩, ⟨rfl, rfl, ?_, ?_, ?_⟩,
    ?_, ?_, ?_, ?_, ?_, ?_, inverseReport_log_bands _ _ _ _⟩
  · unfold kResidualExcessiveError; norm_num
  · unfold kResidualExcessiveError kResidualLargeError; norm_num
  · unfold kResidualExcessiveError kResidualLargeError; norm_num
  · unfold kSolveExcessiveError; norm_num
  · unfold kSolveExcessiveError kSolveLargeError; norm_num
  · unfold kSolveExcessiveError kSolveLargeError; norm_num
  · unfold kInverseExcessiveError; norm_num
  · unfold kInverseExcessiveError kInverseLargeError; norm_num
  · unfold kInverseExcessiveError kInverseLargeError; norm_num
  · unfold errorBand
    by_cases h1 : m > 1 / 10 ^ 6
    · rw [if_pos h1]
      exact ⟨fun h => absurd h hSE.symm, fun h => absurd (lt_of_lt_of_le hlt (le_of_lt h1))
        (not_lt.mpr h)⟩
    · rw [if_neg h1]
      by_cases h2 : m > 1 / 10 ^ 12
      · rw [if_pos h2]
        exact ⟨fun h => absurd h hSL.symm, fun h => absurd h2 (not_lt.mpr h)⟩
      · rw [if_neg h2]
        exact ⟨fun _ => not_lt.mp h2, fun _ => rfl⟩
  · unfold errorBand
    by_cases h1 : m > 1 / 10 ^ 6
    · rw [if_pos h1]
      exact ⟨fun h => absurd h hLE.symm, fun h => absurd h1 (not_lt.mpr h.2)⟩
    · rw [if_neg h1]
      by_cases h2 : m > 1 / 10 ^ 12
      · rw [if_pos h2]
        exact ⟨fun _ => ⟨h2, not_lt.mp h1⟩, fun _ => rfl⟩
      · rw [if_neg h2]
        exact ⟨fun h => absurd h hSL, fun h => absurd h.1 h2⟩
  · unfold errorBand
    by_cases h1 : m > 1 / 10 ^ 6
    · rw [if_pos h1]
      exact ⟨fun _ => h1, fun _ => rfl⟩
    · rw [if_neg h1]
      by_cases h2 : m > 1 / 10 ^ 12
      · rw [if_pos h2]
        exact ⟨fun h => absurd h hLE, fun h => absurd h h1⟩
      · rw [if_neg h2]
        exact ⟨fun h => absurd h hSE, fun h => absurd h h1⟩
  · unfold errorBand
    rw [if_neg (not_lt.mpr (le_of_lt hlt)), if_neg (lt_irrefl _)]
  · unfold errorBand
    rw [if_neg (lt_irrefl _), if_pos hlt]
  · rw [report_log_eq]
    exact reportRecords_bands _ _ _ _

/-- C15. `debugReportError` logs a record for the solve error exactly when the
solve error norm is not zero and a record for the residual error exactly when
the residual error norm is not zero, so that the number of records is the
number of nonzero norms and a call with both norms zero logs nothing, whether
forced or not; likewise the exhaustive stage logs a record for the inverse
error exactly when the inverse error norm is not zero and a record for the
residual exactly when its residual error norm is not zero. -/
theorem C15_record_iff_norm_nonzero
    (nla : HSimplexNla) (transposed : Bool) (true_solution solution residual : HVector)
    (force : Bool) (return_status : HighsDebugStatus)
    (inverse_error_norm residual_error_norm : ℚ) :
    ((∃ x ∈ (debugReportError nla transposed true_solution solution residual force).log,
        x.metric = LogMetric.solveError)
      ↔ (debugReportError nla transposed true_solution solution residual
          force).solve_error_norm ≠ 0)
    ∧ ((∃ x ∈ (debugReportError nla transposed true_solution solution residual force).log,
        x.metric = LogMetric.residualError)
      ↔ (debugReportError nla transposed true_solution solution residual
          force).residual_error_norm ≠ 0)
    ∧ (debugReportError nla transposed true_solution solution residual force).log.map
          (fun x => (x.metric, x.magnitude))
        = (if (debugReportError nla transposed true_solution solution residual
              force).solve_error_norm ≠ 0
            then [(LogMetric.solveError,
              (debugReportError nla transposed true_solution solution residual
                force).solve_error_norm)]
            else [])
          ++ (if (debugReportError nla transposed true_solution solution residual
              force).residual_error_norm ≠ 0
            then [(LogMetric.residualError,
              (debugReportError nla transposed true_solution solution residual
                force).residual_error_norm)]
            else [])
    ∧ (debugReportError nla transposed true_solution solution residual force).log.length
        = [(debugReportError nla transposed true_solution solution residual
              force).solve_error_norm,
            (debugReportError nla transposed true_solution solution residual
              force).residual_error_norm].countP (fun m => decide (m ≠ 0))
    ∧ ((∃ x ∈ (inverseReport force return_status inverse_error_norm residual_error_norm).2,
        x.metric = LogMetric.inverseError) ↔ inverse_error_norm ≠ 0)
    ∧ ((∃ x ∈ (inverseReport force return_status inverse_error_norm residual_error_norm).2,
        x.metric = LogMetric.inverseResidualError) ↔ residual_error_norm ≠ 0)
    ∧ (inverseReport force return_status inverse_error_norm residual_error_norm).2.length
        = [inverse_error_norm, residual_error_norm].countP (fun m => decide (m ≠ 0)) := by
  have hmem : ∀ (l : List LogRecord) (μ : LogMetric),
      (∃ x ∈ l, x.metric = μ) ↔ μ ∈ (l.map (fun x => (x.metric, x.magnitude))).map Prod.fst := by
    intro l μ
    simp only [List.map_map, List.mem_map, Function.comp]
  refine ⟨?_, ?_, report_log_metrics _ _ _ _ _ _, report_log_length _ _ _ _ _ _, ?_, ?_,
    inverseReport_log_length _ _ _ _⟩
  · rw [hmem, report_log_metrics]
    by_cases hs : (debugReportError nla transposed true_solution solution residual
        force).solve_error_norm = 0 <;>
      by_cases hr : (debugReportError nla transposed true_solution solution residual
        force).residual_error_norm = 0 <;> simp [hs, hr]
  · rw [hmem, report_log_metrics]
    by_cases hs : (debugReportError nla transposed true_solution solution residual
        force).solve_error_norm = 0 <;>
      by_cases hr : (debugReportError nla transposed true_solution solution residual
        force).residual_error_norm = 0 <;> simp [hs, hr]
  · rw [hmem, inverseReport_log_metrics]
    by_cases hs : inverse_error_norm = 0 <;> by_cases hr : residual_error_norm = 0 <;>
      simp [hs, hr]
  · rw [hmem, inverseReport_log_metrics]
    by_cases hs : inverse_error_norm = 0 <;> by_cases hr : residual_error_norm = 0 <;>
      simp [hs, hr]

/-- C16. When the level `debugCheckInvert` runs at is at least Costly, the
severity returned is `Ok`, `Warning` or `Error`, never `NotChecked`; with
`num_row = 0` it is `Ok`. -/
theorem C16_not_checked_only_when_gated (nla : HSimplexNla) (random : Nat → ℚ)
    (alt_debug_level : Int)
    (h : kHighsDebugLevelCostly ≤ useDebugLevel nla alt_debug_level) :
    ((debugCheckInvert nla random alt_debug_level).return_status = HighsDebugStatus.kOk
      ∨ (debugCheckInvert nla random alt_debug_level).return_status = HighsDebugStatus.kWarning
      ∨ (debugCheckInvert nla random alt_debug_level).return_status = HighsDebugStatus.kError)
    ∧ (debugCheckInvert nla random alt_debug_level).return_status ≠ HighsDebugStatus.kNotChecked
    ∧ (nla.lp_.num_row_ = 0 →
        (debugCheckInvert nla random alt_debug_level).return_status = HighsDebugStatus.kOk) := by
  have hne : (debugCheckInvert nla random alt_debug_level).return_status
      ≠ HighsDebugStatus.kNotChecked := by
    by_cases h2 : useDebugLevel nla alt_debug_level < kHighsDebugLevelExpensive
    · rw [checkInvert_costly nla random alt_debug_level h h2, probes_transposed]
      exact report_status_ne_notChecked _ _ _ _ _ _
    · rw [checkInvert_expensive nla random alt_debug_level (not_lt.mp h2),
        inverseReport_status]
      split
      · decide
      · split
        · decide
        · rw [probes_transposed]
          exact report_status_ne_notChecked _ _ _ _ _ _
  refine ⟨?_, hne, ?_⟩
  · cases hst : (debugCheckInvert nla random alt_debug_level).return_status with
    | kNotChecked => exact absurd hst hne
    | kOk => exact Or.inl rfl
    | kWarning => exact Or.inr (Or.inl rfl)
    | kError => exact Or.inr (Or.inr rfl)
  · intro h0
    by_cases h2 : useDebugLevel nla alt_debug_level < kHighsDebugLevelExpensive
    · rw [checkInvert_costly nla random alt_debug_level h h2]
      exact probes_zero_rows nla random _ h0
    · rw [checkInvert_expensive nla random alt_debug_level (not_lt.mp h2),
        inverseReport_status, inverseLoop_zero_rows nla _ h0,
        if_neg (by unfold kResidualExcessiveError; norm_num),
        if_neg (by unfold kResidualLargeError; norm_num)]
      exact probes_zero_rows nla random _ h0

/-- Witness of C16: one logical row with `ftran` returning the zero vector, at
the ambient level Costly. -/
theorem C16_not_checked_only_when_gated_witness :
    kHighsDebugLevelCostly ≤ useDebugLevel (scaledOracleNla 2 0 1) (-1)
    ∧ (debugCheckInvert (scaledOracleNla 2 0 1) (fun _ => 1) (-1)).return_status
        ≠ HighsDebugStatus.kNotChecked :=
  ⟨by decide,
    (C16_not_checked_only_when_gated (scaledOracleNla 2 0 1) (fun _ => 1) (-1)
      (by decide)).2.1⟩

/-- C17. The severity `debugCheckInvert` returns does not depend on whether the
run is forced: a run with `alt_debug_level` above the ambient level and a run
that is not forced, at the same level and on the same matrix, basis map and
oracle, return the same severity; and `debugReportError` returns the same
severity for `force = true` and `force = false`. -/
theorem C17_status_independent_of_force (nla : HSimplexNla) (options' : HighsOptions)
    (random : Nat → ℚ) (alt alt' : Int)
    (transposed : Bool) (true_solution solution residual : HVector)
    (hforced : alt > nla.options_.highs_debug_level)
    (hnot : ¬ alt' > options'.highs_debug_level)
    (hlevel : useDebugLevel nla alt = useDebugLevel { nla with options_ := options' } alt') :
    forceDebug nla alt = true
    ∧ forceDebug { nla with options_ := options' } alt' = false
    ∧ (debugCheckInvert nla random alt).return_status
        = (debugCheckInvert { nla with options_ := options' } random alt').return_status
    ∧ (debugReportError nla transposed true_solution solution residual true).return_status
        = (debugReportError nla transposed true_solution solution residual false).return_status :=
  ⟨decide_eq_true hforced, decide_eq_false hnot,
    (checkInvert_status_level nla options' random alt alt' hlevel).symm,
    report_status_force nla transposed true_solution solution residual true false⟩

/-- Witness of C17: `ftran` scaling by `1 - 1e-9` on one logical row, forced at
the level Expensive over the ambient level `0`, against the ambient level
Expensive. -/
theorem C17_status_independent_of_force_witness :
    (debugCheckInvert (scaledOracleNla 0 (1 - 1 / 10 ^ 9) 1) (fun _ => 1) 3).return_status
      = (debugCheckInvert
          { scaledOracleNla 0 (1 - 1 / 10 ^ 9) 1 with options_ := { highs_debug_level := 3 } }
          (fun _ => 1) (-1)).return_status :=
  (C17_status_independent_of_force (scaledOracleNla 0 (1 - 1 / 10 ^ 9) 1)
    { highs_debug_level := 3 } (fun _ => 1) 3 (-1) false (vec1 0) (vec1 0) (vec1 0)
    (by decide) (by decide) (by decide)).2.2.1

/-- C18. The two products `debugResidualError` forms are adjoint over exact
arithmetic. For a vector `v`, and a vector `u` and residual vectors `b`, `c`
of dimension `num_row`, with `F(v)[row] = b[row] - residual[row]` after the call with
`transposed = false` on `v` and `T(u)[row] = c[row] - residual[row]` after the
call with `transposed = true` on `u`, the sum over the rows of
`u[row]·F(v)[row]` is the sum over the rows of `T(u)[row]·v[row]`. The same
holds for the right-hand side the primal probe builds from the random vector
`v` and the right-hand side the transposed probe builds from the random vector
`u`, the oracle working in place. -/
theorem C18_products_are_adjoint (nla : HSimplexNla) (u v b c : HVector)
    (random_u random_v : Nat → ℚ) (force : Bool)
    (hu : u.array.length = nla.lp_.num_row_)
    (hb : b.array.length = nla.lp_.num_row_) (hc : c.array.length = nla.lp_.num_row_)
    (hsize : OracleKeepsSize nla) :
    ((List.range nla.lp_.num_row_).map (fun row =>
        u.array.getD row 0
          * (b.array.getD row 0 - (debugResidualError nla false v b).2.array.getD row 0))).sum
      = ((List.range nla.lp_.num_row_).map (fun row =>
        (c.array.getD row 0 - (debugResidualError nla true u c).2.array.getD row 0)
          * v.array.getD row 0)).sum
    ∧ ((List.range nla.lp_.num_row_).map (fun row =>
        random_u row * (randomProbes nla random_v force).primal_rhs.array.getD row 0)).sum
      = ((List.range nla.lp_.num_row_).map (fun row =>
        (randomProbes nla random_u force).transposed_rhs.array.getD row 0 * random_v row)).sum := by
  constructor
  · have h1 : (List.range nla.lp_.num_row_).map (fun row =>
        u.array.getD row 0
          * (b.array.getD row 0 - (debugResidualError nla false v b).2.array.getD row 0))
        = (List.range nla.lp_.num_row_).map (fun row =>
          u.array.getD row 0 * basisMul nla v.array row) := by
      apply List.map_congr_left
      intro row hrow
      rw [residual_false_getD nla v b row (by rw [hb]; exact List.mem_range.mp hrow)]
      ring
    have h2 : (List.range nla.lp_.num_row_).map (fun row =>
        (c.array.getD row 0 - (debugResidualError nla true u c).2.array.getD row 0)
          * v.array.getD row 0)
        = (List.range nla.lp_.num_row_).map (fun row =>
          basisMulT nla u.array row * v.array.getD row 0) := by
      apply List.map_congr_left
      intro row hrow
      rw [residual_true_getD nla u c row (by rw [hc]; exact List.mem_range.mp hrow)
        (le_of_eq hu), if_pos (List.mem_range.mp hrow)]
      ring
    rw [h1, h2]
    exact basisMul_adjoint nla u.array v.array
  · have h1 : (List.range nla.lp_.num_row_).map (fun row =>
        random_u row * (randomProbes nla random_v force).primal_rhs.array.getD row 0)
        = (List.range nla.lp_.num_row_).map (fun row =>
          (randomProbes nla random_u force).column.array.getD row 0
            * basisMul nla (randomProbes nla random_v force).column.array row) := by
      apply List.map_congr_left
      intro row hrow
      rw [probes_primal_rhs_getD nla random_v force row (List.mem_range.mp hrow),
        probes_column_getD nla random_u force row (List.mem_range.mp hrow)]
    have h2 : (List.range nla.lp_.num_row_).map (fun row =>
        (randomProbes nla random_u force).transposed_rhs.array.getD row 0 * random_v row)
        = (List.range nla.lp_.num_row_).map (fun row =>
          basisMulT nla (randomProbes nla random_u force).column.array row
            * (randomProbes nla random_v force).column.array.getD row 0) := by
      apply List.map_congr_left
      intro row hrow
      rw [probes_transposed_rhs_getD nla random_u force hsize row (List.mem_range.mp hrow),
        probes_column_getD nla random_v force row (List.mem_range.mp hrow)]
    rw [h1, h2]
    exact basisMul_adjoint nla _ _

/-- Witness of C18: the basis of the two structural columns `(2, 1)` and
`(0, 3)`, `u = (1, 2)`, `v = (3, 4)`: `B·v = (6, 15)`, `Bᵀ·u = (4, 6)` and both
sums are `36`. -/
theorem C18_products_are_adjoint_witness :
    ((List.range 2).map (fun row =>
        ([1, 2] : List ℚ).getD row 0
          * (([0, 0] : List ℚ).getD row 0
            - (debugResidualError structural2Nla false
                { size := 2, count := 2, index := [0, 1], array := [3, 4], packFlag := false }
                { size := 2, count := 2, index := [0, 1], array := [0, 0], packFlag := false }
              ).2.array.getD row 0))).sum = 36
    ∧ ((List.range structural2Nla.lp_.num_row_).map (fun row =>
        (fun k => ([1, 2] : List ℚ).getD k 0) row
          * (randomProbes structural2Nla (fun k => ([3, 4] : List ℚ).getD k 0)
              false).primal_rhs.array.getD row 0)).sum
      = ((List.range structural2Nla.lp_.num_row_).map (fun row =>
        (randomProbes structural2Nla (fun k => ([1, 2] : List ℚ).getD k 0)
            false).transposed_rhs.array.getD row 0
          * (fun k => ([3, 4] : List ℚ).getD k 0) row)).sum :=
  ⟨by decide!,
    (C18_products_are_adjoint structural2Nla
      { size := 2, count := 2, index := [0, 1], array := [1, 2], packFlag := false }
      { size := 2, count := 2, index := [0, 1], array := [3, 4], packFlag := false }
      { size := 2, count := 2, index := [0, 1], array := [0, 0], packFlag := false }
      { size := 2, count := 2, index := [0, 1], array := [0, 0], packFlag := false }
      (fun k => ([1, 2] : List ℚ).getD k 0) (fun k => ([3, 4] : List ℚ).getD k 0) false
      (by decide) (by decide) (by decide)
      (fun _ _ => ⟨⟨rfl, rfl⟩, ⟨rfl, rfl⟩⟩)).2⟩

/-- C19. The oracle calls `debugCheckInvert` makes are fixed by the level it
runs at and by `num_row`, whatever the magnitudes observed: none below Costly,
one `ftran` followed by one `btran` from Costly on and below Expensive, and
these followed by `num_row` calls of `ftran` from Expensive on, `1 + num_row`
calls of `ftran` and one of `btran` in all. -/
theorem C19_oracle_calls_fixed_by_level (nla : HSimplexNla) (random : Nat → ℚ)
    (alt_debug_level : Int) :
    (debugCheckInvert nla random alt_debug_level).calls
        = (if useDebugLevel nla alt_debug_level < kHighsDebugLevelCostly then []
          else if useDebugLevel nla alt_debug_level < kHighsDebugLevelExpensive
            then [SolveCall.ftran, SolveCall.btran]
          else [SolveCall.ftran, SolveCall.btran]
            ++ List.replicate nla.lp_.num_row_ SolveCall.ftran)
    ∧ ((kHighsDebugLevelCostly ≤ useDebugLevel nla alt_debug_level
        ∧ useDebugLevel nla alt_debug_level < kHighsDebugLevelExpensive) →
        (debugCheckInvert nla random alt_debug_level).calls
          = [SolveCall.ftran, SolveCall.btran])
    ∧ (kHighsDebugLevelExpensive ≤ useDebugLevel nla alt_debug_level →
        (debugCheckInvert nla random alt_debug_level).calls.count SolveCall.ftran
            = 1 + nla.lp_.num_row_
          ∧ (debugCheckInvert nla random alt_debug_level).calls.count SolveCall.btran = 1) := by
  refine ⟨checkInvert_calls nla random alt_debug_level, ?_, ?_⟩
  · rintro ⟨h1, h2⟩
    rw [checkInvert_calls, if_neg (not_lt.mpr h1), if_pos h2]
  · intro h2
    have h1 : ¬ useDebugLevel nla alt_debug_level < kHighsDebugLevelCostly := by
      unfold kHighsDebugLevelCostly
      unfold kHighsDebugLevelExpensive at h2
      omega
    rw [checkInvert_calls, if_neg h1, if_neg (not_lt.mpr h2)]
    constructor
    · rw [List.count_append, List.count_replicate_self]
      simp [List.count_cons]
    · rw [List.count_append, List.count_replicate]
      simp [List.count_cons]

/-- Witness of C19: five logical rows at the level Expensive, six calls of
`ftran` and one of `btran`. -/
theorem C19_oracle_calls_fixed_by_level_witness :
    kHighsDebugLevelExpensive ≤ useDebugLevel (identity5Nla 3) (-1)
    ∧ (debugCheckInvert (identity5Nla 3) (fun _ => 1) (-1)).calls.count SolveCall.ftran = 1 + 5
    ∧ (debugCheckInvert (identity5Nla 3) (fun _ => 1) (-1)).calls.count SolveCall.btran = 1 :=
  ⟨by decide,
    ((C19_oracle_calls_fixed_by_level (identity5Nla 3) (fun _ => 1) (-1)).2.2 (by decide)).1,
    ((C19_oracle_calls_fixed_by_level (identity5Nla 3) (fun _ => 1) (-1)).2.2 (by decide)).2⟩

/-- C20. For a well-formed matrix and basis map (`start_` with `num_col + 1`
non-decreasing entries within the index and value arrays, every row index below
`num_row`, no row index repeated within a column, `num_row` basis entries below
`num_col + num_row`) and an oracle that leaves the lengths of the vector it is
given unchanged, every array access of `debugCheckInvert`, and of
`debugReportError` and `debugResidualError` on vectors of dimension `num_row`,
is in bounds, and the assertion of line 83 holds: the functions with every
access and the assertion checked return the results of the functions. The
writes `rhs.index[rhs.count++]` and `column.index[column.count++]` are among
the accesses checked, the index arrays having `num_row` entries. -/
theorem C20_every_access_in_bounds (nla : HSimplexNla) (random : Nat → ℚ)
    (alt_debug_level : Int) (transposed force : Bool)
    (true_solution solution residual : HVector)
    (hwf : WellFormed nla) (horacle : OracleKeepsLengths nla)
    (htrue : true_solution.array.length = nla.lp_.num_row_)
    (hsolution : solution.array.length = nla.lp_.num_row_)
    (hresidual : residual.array.length = nla.lp_.num_row_) :
    debugCheckInvertChecked nla random alt_debug_level
        = some (debugCheckInvert nla random alt_debug_level)
    ∧ debugReportErrorChecked nla transposed true_solution solution residual force
        = some (debugReportError nla transposed true_solution solution residual force)
    ∧ debugResidualErrorChecked nla transposed solution residual
        = some (debugResidualError nla transposed solution residual) :=
  ⟨debugCheckInvertChecked_eq nla hwf horacle random alt_debug_level,
    debugReportErrorChecked_eq nla hwf transposed true_solution solution residual force
      htrue hsolution hresidual,
    debugResidualErrorChecked_eq nla hwf transposed solution residual hsolution hresidual⟩

/-- Witness of C20: the basis of two structural columns with the identity
oracle at the level Expensive. The checks are not void: a basis map that names
a column beyond `num_col + num_row` fails the assertion of line 83, and a
column that lists a row twice writes past the end of `column.index`. -/
theorem C20_every_access_in_bounds_witness :
    WellFormed structural2Nla
    ∧ OracleKeepsLengths structural2Nla
    ∧ debugCheckInvertChecked structural2Nla (fun _ => 1) (-1)
        = some (debugCheckInvert structural2Nla (fun _ => 1) (-1))
    ∧ (debugCheckInvertChecked structural2Nla (fun _ => 1) (-1)).isSome = true
    ∧ debugCheckInvertChecked outOfRangeBasisNla (fun _ => 1) (-1) = none
    ∧ debugCheckInvertChecked duplicateEntryNla (fun _ => 1) (-1) = none :=
  ⟨by decide, fun _ _ => ⟨⟨rfl, rfl, rfl⟩, ⟨rfl, rfl, rfl⟩⟩,
    (C20_every_access_in_bounds structural2Nla (fun _ => 1) (-1) false false
      { size := 2, count := 2, index := [0, 1], array := [0, 0], packFlag := false }
      { size := 2, count := 2, index := [0, 1], array := [0, 0], packFlag := false }
      { size := 2, count := 2, index := [0, 1], array := [0, 0], packFlag := false }
      (by decide) (fun _ _ => ⟨⟨rfl, rfl, rfl⟩, ⟨rfl, rfl, rfl⟩⟩)
      (by decide) (by decide) (by decide)).1,
    by decide!, by decide!, by decide!⟩

end Highs
